import Mathlib

/-!
Shallow embedding of the polydoku solver (`src/main.rs`).

Machine integers (`u8`, `u32`, `usize`) are modeled as `Nat`; where the source
performs a truncating `as u8` cast the model takes `% 256` explicitly.  Rust
aborts — both the explicit `panic!()` calls and slice indexing out of bounds —
are modeled by `Option`, `none` meaning the call aborts and returns nothing.
Diagnostic `println!`/`print!` output is modeled as a no-op.
-/

set_option autoImplicit false

/-- Constant `MAXSTATES` from the source: fixed length of every per-row /
per-column / per-block scratch array. -/
def MAXSTATES : Nat := 9

/-- Constant `MAXROOTS` from the source: fixed side of the stripe `slugmap`. -/
def MAXROOTS : Nat := 3

/-- Struct `Cell`: `solved`, `solution` (a `Snumb`, i.e. `u8`), candidate
bookkeeping fields (unused by the logic), and the display `highlight`
(`0` none, `1` claimed, `2` conflict). -/
structure Cell where
  solved : Bool
  solution : Nat
  possible : List Bool
  disallowed : List Bool
  ispaired : Bool
  paired : Nat × Nat
  highlight : Nat
deriving DecidableEq

/-- Enum `GridStatus`. -/
inductive GridStatus where
  | Solved
  | Incomplete
  | Invalid
  | Unsolvable
  | Empty
  | NotSquare
deriving DecidableEq

/-- Struct `Grid`. -/
structure Grid where
  name : String
  state_dict : String
  status : GridStatus
  states : Nat
  isqrt : Nat
  size : Nat
  cells : List Cell
  symbols : List Char
deriving DecidableEq

/-- `Cell::empty`. -/
def Cell.empty (states : Nat) : Cell :=
  { solved := false
    solution := 0
    possible := List.replicate states false
    disallowed := List.replicate states false
    ispaired := false
    paired := (0, 0)
    highlight := 0 }

/-- Integer square root (the number of `k ≤ n` with `k * k ≤ n`, minus one),
written structurally so that it evaluates inside the kernel. -/
def intSqrt (n : Nat) : Nat :=
  ((List.range (n + 1)).filter (fun k => decide (k * k ≤ n))).length - 1

/-- `Grid::new`.  `states.len() as u8` truncates, hence `% 256`; the source
computes the integer square root through `f64::sqrt` and truncation, which
agrees with the exact integer square root on every input below 256;
`nstates * nstates` is `u8` arithmetic, hence the second `% 256`. -/
def Grid.new (states : String) : Grid :=
  let nstates := states.length % 256
  let int_sq_root := intSqrt nstates
  { name := "Empty grid for " ++ states
    state_dict := states
    status := if nstates ≠ int_sq_root * int_sq_root then GridStatus.NotSquare
              else GridStatus.Empty
    states := nstates
    isqrt := int_sq_root
    size := nstates * nstates % 256
    cells := List.replicate (nstates * nstates % 256) (Cell.empty nstates)
    symbols := ['1', '2', '3', '4', '5', '6', '7', '8', '9'] }

/-- `Grid::isempty`. -/
def Grid.isempty (g : Grid) : Bool :=
  g.status = GridStatus.Empty

/-- Loop body of `Grid::bodge`: `for i in 0..arr.len() { if arr[i] > 0 { .. } }`.
The iteration list is `List.range arr.length`; `self.cells[i]` out of bounds
aborts (`none`). -/
def Grid.bodgeGo (arr : List Nat) : List Cell → Nat → List Nat → Option (List Cell × Nat)
  | cells, used, [] => some (cells, used)
  | cells, used, i :: rest =>
    if 0 < arr.getD i 0 then
      match cells[i]? with
      | none => none
      | some c =>
          Grid.bodgeGo arr
            (cells.set i { c with solved := true, solution := arr.getD i 0 - 1 })
            (used + 1) rest
    else
      Grid.bodgeGo arr cells used rest

/-- `Grid::bodge`.  The name is overwritten first; the length guard compares
`self.size` (a `u8`) with `arr.len() as u8`, i.e. the length modulo 256. -/
def Grid.bodge (g : Grid) (title : String) (arr : List Nat) :
    Option (Grid × Except String Nat) :=
  let g := { g with name := title }
  if g.size ≠ arr.length % 256 then
    some (g, Except.error "wrong length vector provided")
  else
    match Grid.bodgeGo arr g.cells 0 (List.range arr.length) with
    | none => none
    | some (cells, used) => some ({ g with cells := cells }, Except.ok used)

/-- `Grid::claim_a`: abort (`none`) when the target cell is already solved or
the address is out of bounds; otherwise solve the cell and highlight it `1`. -/
def Grid.claim_a (g : Grid) (address : Nat) (sol : Nat) : Option Grid :=
  match g.cells[address]? with
  | none => none
  | some c =>
    if c.solved then none
    else some { g with
      cells := g.cells.set address { c with solved := true, solution := sol, highlight := 1 } }

/-- `Grid::claim_rc`. -/
def Grid.claim_rc (g : Grid) (row col : Nat) (sol : Nat) : Option Grid :=
  Grid.claim_a g (row * g.states + col) sol

/-- The reset loop `for el in 0..states { ticked[el] = false }` performed at
the start of each group scan; a write past the fixed array aborts. -/
def resetFirst (t : List Bool) (states : Nat) : Option (List Bool) :=
  if states ≤ t.length then
    some ((List.range t.length).map (fun i => if i < states then false else t.getD i false))
  else none

/-- Addresses of row `y`, in scan order (`address = y*states + x`). -/
def rowAddrs (states y : Nat) : List Nat :=
  (List.range states).map (fun x => y * states + x)

/-- Addresses of column `x`, in scan order (`address = x + y*states`). -/
def colAddrs (states x : Nat) : List Nat :=
  (List.range states).map (fun y => x + y * states)

/-- Addresses of block `b`, in scan order (`y` outer, `x` inner,
`address = bx + by + x + y*states`). -/
def blockAddrs (states isqrt b : Nat) : List Nat :=
  let bx := (b % isqrt) * isqrt
  let boff := (b / isqrt) * isqrt * states
  ((List.range isqrt).map (fun y =>
    (List.range isqrt).map (fun x => bx + boff + x + y * states))).flatten

/-- All groups scanned by `Grid::validate`, in source order: all rows, then
all columns, then all blocks. -/
def Grid.allGroups (g : Grid) : List (List Nat) :=
  ((List.range g.states).map (rowAddrs g.states)) ++
  ((List.range g.states).map (colAddrs g.states)) ++
  ((List.range g.states).map (blockAddrs g.states g.isqrt))

/-- Body of one group scan in `Grid::validate`: for each address in order, if
the cell is solved look its value up in `ticked`; a repeat marks the cell with
the conflict highlight and clears `valid`; either way the value is ticked. -/
def checkAddrs :
    List Cell → List Bool → Bool → List Nat → Option (List Cell × List Bool × Bool)
  | cells, t, valid, [] => some (cells, t, valid)
  | cells, t, valid, a :: rest =>
    match cells[a]? with
    | none => none
    | some c =>
      if c.solved then
        match t[c.solution]? with
        | none => none
        | some b =>
          if b then
            checkAddrs (cells.set a { c with highlight := 2 }) (t.set c.solution true) false rest
          else
            checkAddrs cells (t.set c.solution true) valid rest
      else
        checkAddrs cells t valid rest

/-- The three group-family loops of `Grid::validate`, flattened into one list
of groups: the single `ticked` array is reset (below `states`) before each
group and threaded through all of them, as in the source. -/
def checkGroups (states : Nat) :
    List Cell → List Bool → Bool → List (List Nat) → Option (List Cell × List Bool × Bool)
  | cells, t, valid, [] => some (cells, t, valid)
  | cells, t, valid, addrs :: rest =>
    match resetFirst t states with
    | none => none
    | some t0 =>
      match checkAddrs cells t0 valid addrs with
      | none => none
      | some (cells1, t1, valid1) => checkGroups states cells1 t1 valid1 rest

/-- `Grid::validate`: scan rows, columns and blocks; return the possibly
highlight-marked grid together with the overall verdict. -/
def Grid.validate (g : Grid) : Option (Grid × Bool) :=
  match checkGroups g.states g.cells (List.replicate MAXSTATES false) true g.allGroups with
  | none => none
  | some (cells1, _, valid) => some ({ g with cells := cells1 }, valid)

/-- Counting loop over a boolean scratch array (`for el in 0..n { if t[el] .. }`). -/
def countTrue (t : List Bool) : List Nat → Nat → Option Nat
  | [], acc => some acc
  | i :: rest, acc =>
    match t[i]? with
    | none => none
    | some b => countTrue t rest (if b then acc + 1 else acc)

/-- The `missed` search: first index (from the given list) whose entry is
`false`, defaulting to `0` when every entry read is `true`. -/
def findFirstFalse (t : List Bool) : List Nat → Option Nat
  | [] => some 0
  | i :: rest =>
    match t[i]? with
    | none => none
    | some b => if b then findFirstFalse t rest else some i

/-- Pass (a) of `Grid::solve_next`: walk the grid row-major and tick each
solved value in its row map and column map, aborting on a value already
ticked for its row or column. -/
def buildMapsGo (cells : List Cell) (n : Nat) :
    List (List Bool) → List (List Bool) → List (Nat × Nat) →
    Option (List (List Bool) × List (List Bool))
  | rt, ct, [] => some (rt, ct)
  | rt, ct, (row, col) :: rest =>
    match cells[row * n + col]? with
    | none => none
    | some c =>
      if c.solved then
        match rt[row]? with
        | none => none
        | some rrow =>
          match rrow[c.solution]? with
          | none => none
          | some rb =>
            match ct[col]? with
            | none => none
            | some crow =>
              match crow[c.solution]? with
              | none => none
              | some cb =>
                if rb || cb then none
                else
                  buildMapsGo cells n
                    (rt.set row (rrow.set c.solution true))
                    (ct.set col (crow.set c.solution true)) rest
      else buildMapsGo cells n rt ct rest

/-- Row-major traversal order of pass (a). -/
def gridPairs (n : Nat) : List (Nat × Nat) :=
  ((List.range n).map (fun row => (List.range n).map (fun col => (row, col)))).flatten

/-- Pass (a) entry: both maps start as `[[false; MAXSTATES]; MAXSTATES]`. -/
def buildMaps (cells : List Cell) (n : Nat) :
    Option (List (List Bool) × List (List Bool)) :=
  buildMapsGo cells n
    (List.replicate MAXSTATES (List.replicate MAXSTATES false))
    (List.replicate MAXSTATES (List.replicate MAXSTATES false))
    (gridPairs n)

/-- Innermost loop of the stripe pass (b): scan one row span for cells solved
with the candidate `state`, updating `(used, rowusage, slugmap)`. -/
def stripeCells (cells : List Cell) (bw state start row : Nat) :
    Nat × List Bool × List (List Bool) → List Nat →
    Option (Nat × List Bool × List (List Bool))
  | acc, [] => some acc
  | (used, rowusage, slugmap), el :: rest =>
    match cells[start + el]? with
    | none => none
    | some c =>
      if c.solved && c.solution = state then
        if row < rowusage.length then
          match slugmap[row]? with
          | none => none
          | some srow =>
            if el / bw < srow.length then
              stripeCells cells bw state start row
                (used + 1, rowusage.set row true, slugmap.set row (srow.set (el / bw) true)) rest
            else none
        else none
      else stripeCells cells bw state start row (used, rowusage, slugmap) rest

/-- Row loop of the stripe pass for one `(grid_block, state)` pair. -/
def stripeRows (cells : List Cell) (n bw state grid_block : Nat) :
    Nat × List Bool × List (List Bool) → List Nat →
    Option (Nat × List Bool × List (List Bool))
  | acc, [] => some acc
  | acc, row :: rest =>
    match stripeCells cells bw state ((grid_block * bw + row) * n) row acc (List.range n) with
    | none => none
    | some acc1 => stripeRows cells n bw state grid_block acc1 rest

/-- The `target_block` search: first row whose slug row equals
`[false, false, false]`, defaulting to `0`. -/
def findEmptySlug (slugmap : List (List Bool)) : List Nat → Option Nat
  | [] => some 0
  | r :: rest =>
    match slugmap[r]? with
    | none => none
    | some srow => if srow = [false, false, false] then some r else findEmptySlug slugmap rest

/-- One `(grid_block, state)` step of the stripe pass: when exactly two rows
use the state, the target row and target sub-block are located (and merely
reported); nothing is mutated. -/
def stripeOne (cells : List Cell) (n bw grid_block state : Nat) : Option Unit :=
  match stripeRows cells n bw state grid_block
      (0, List.replicate MAXSTATES false,
        List.replicate MAXROOTS (List.replicate MAXROOTS false)) (List.range bw) with
  | none => none
  | some (used, rowusage, slugmap) =>
    if used = 2 then
      match findFirstFalse rowusage (List.range bw) with
      | none => none
      | some _ =>
        match findEmptySlug slugmap (List.range bw) with
        | none => none
        | some _ => some ()
    else some ()

/-- State loop of the stripe pass. -/
def stripeStates (cells : List Cell) (n bw grid_block : Nat) : List Nat → Option Unit
  | [] => some ()
  | state :: rest =>
    match stripeOne cells n bw grid_block state with
    | none => none
    | some _ => stripeStates cells n bw grid_block rest

/-- Block loop of the stripe pass. -/
def stripeBlocks (cells : List Cell) (n bw : Nat) : List Nat → Option Unit
  | [] => some ()
  | gb :: rest =>
    match stripeStates cells n bw gb (List.range n) with
    | none => none
    | some _ => stripeBlocks cells n bw rest

/-- Pass (b) of `Grid::solve_next`: purely diagnostic; it can only abort. -/
def stripePass (cells : List Cell) (n bw : Nat) : Option Unit :=
  stripeBlocks cells n bw (List.range bw)

/-- The claim loop shared by passes (c) and (d): find the first unsolved
address and claim it with the missing value (`Grid::claim_a`), returning `1`;
fall through (`some none`) when every cell of the group is solved. -/
def claimFirstGap (g : Grid) (missed : Nat) : List Nat → Option (Option (Grid × Nat))
  | [] => some none
  | a :: rest =>
    match g.cells[a]? with
    | none => none
    | some c =>
      if c.solved then claimFirstGap g missed rest
      else
        match Grid.claim_a g a missed with
        | none => none
        | some g2 => some (some (g2, 1))

/-- Pass (c) of `Grid::solve_next`: for each row, when exactly `n - 1` values
are ticked, claim the row's first unsolved cell with the missing value. -/
def rowPassGo (g : Grid) (rt : List (List Bool)) (n : Nat) :
    List Nat → Option (Option (Grid × Nat))
  | [] => some none
  | row :: rest =>
    match rt[row]? with
    | none => none
    | some trow =>
      match countTrue trow (List.range n) 0 with
      | none => none
      | some used =>
        if used = n - 1 then
          match findFirstFalse trow (List.range n) with
          | none => none
          | some missed =>
            match claimFirstGap g missed ((List.range n).map (fun col => row * n + col)) with
            | none => none
            | some none => rowPassGo g rt n rest
            | some (some res) => some (some res)
        else rowPassGo g rt n rest

/-- Pass (d) of `Grid::solve_next`: the same rule per column; the claim goes
through `Grid::claim_rc`, i.e. the same address arithmetic. -/
def colPassGo (g : Grid) (ct : List (List Bool)) (n : Nat) :
    List Nat → Option (Option (Grid × Nat))
  | [] => some none
  | col :: rest =>
    match ct[col]? with
    | none => none
    | some tcol =>
      match countTrue tcol (List.range n) 0 with
      | none => none
      | some used =>
        if used = n - 1 then
          match findFirstFalse tcol (List.range n) with
          | none => none
          | some missed =>
            match claimFirstGap g missed ((List.range n).map (fun row => row * n + col)) with
            | none => none
            | some none => colPassGo g ct n rest
            | some (some res) => some (some res)
        else colPassGo g ct n rest

/-- Block occupancy scan of pass (e): tick each solved value (aborting on a
repeat) and remember the address of the last unsolved cell seen (`mema`). -/
def blockScan (cells : List Cell) :
    List Bool → Nat → List Nat → Option (List Bool × Nat)
  | t, mema, [] => some (t, mema)
  | t, mema, a :: rest =>
    match cells[a]? with
    | none => none
    | some c =>
      if c.solved then
        match t[c.solution]? with
        | none => none
        | some b =>
          if b then none
          else blockScan cells (t.set c.solution true) mema rest
      else blockScan cells t a rest

/-- Pass (e) of `Grid::solve_next`: per block, reset the shared `bticked`
array, scan the block, and when exactly `n - 1` values are used claim the
remembered free cell — aborting if that cell is in fact solved. -/
def blockPassGo (g : Grid) (n bw : Nat) :
    List Bool → List Nat → Option (Option (Grid × Nat))
  | _, [] => some none
  | t, b :: rest =>
    match resetFirst t n with
    | none => none
    | some t0 =>
      match blockScan g.cells t0 0 (blockAddrs n bw b) with
      | none => none
      | some (t1, mema) =>
        match countTrue t1 (List.range n) 0 with
        | none => none
        | some used =>
          if used = n - 1 then
            match findFirstFalse t1 (List.range n) with
            | none => none
            | some missed =>
              match g.cells[mema]? with
              | none => none
              | some c =>
                if c.solved then none
                else
                  match Grid.claim_a g mema missed with
                  | none => none
                  | some g2 => some (some (g2, 1))
          else blockPassGo g n bw t1 rest

/-- `Grid::solve_next`: passes (a) through (e) in source order; the first
successful claim returns `1` immediately; otherwise the final `added` (never
incremented) is returned, i.e. `0`. -/
def Grid.solve_next (g : Grid) : Option (Grid × Nat) :=
  let n := g.states
  let bw := g.isqrt
  match buildMaps g.cells n with
  | none => none
  | some (rt, ct) =>
    match stripePass g.cells n bw with
    | none => none
    | some _ =>
      match rowPassGo g rt n (List.range n) with
      | none => none
      | some (some res) => some res
      | some none =>
        match colPassGo g ct n (List.range n) with
        | none => none
        | some (some res) => some res
        | some none =>
          match blockPassGo g n bw (List.replicate MAXSTATES false) (List.range n) with
          | none => none
          | some (some res) => some res
          | some none => some (g, 0)

/-! ## Specification vocabulary -/

instance {ε α : Type} [DecidableEq ε] [DecidableEq α] : DecidableEq (Except ε α) := fun a b =>
  match a, b with
  | .ok x, .ok y =>
    match decEq x y with
    | isTrue h => isTrue (h ▸ rfl)
    | isFalse h => isFalse (fun hh => h (Except.ok.inj hh))
  | .error x, .error y =>
    match decEq x y with
    | isTrue h => isTrue (h ▸ rfl)
    | isFalse h => isFalse (fun hh => h (Except.error.inj hh))
  | .ok _, .error _ => isFalse (fun hh => Except.noConfusion hh)
  | .error _, .ok _ => isFalse (fun hh => Except.noConfusion hh)

/-- Default cell used with `List.getD` in specification statements. -/
def dCell : Cell := Cell.empty 0

/-- The solved value stored at address `a`, when the address is in range and
the cell is solved. -/
def solvedValAt (cells : List Cell) (a : Nat) : Option Nat :=
  match cells[a]? with
  | some c => if c.solved then some c.solution else none
  | none => none

/-- The list of solved values of a group, in scan order. -/
def groupVals (cells : List Cell) (addrs : List Nat) : List Nat :=
  addrs.filterMap (solvedValAt cells)

/-- Number of solved cells of a group. -/
def solvedCount (cells : List Cell) (addrs : List Nat) : Nat :=
  (groupVals cells addrs).length

/-- No row, column or block of the grid holds two equal solved values. -/
def Grid.dupFree (g : Grid) : Prop :=
  ∀ addrs ∈ g.allGroups, (groupVals g.cells addrs).Nodup

/-- Well-formedness of a grid as produced by `Grid::new` for a square
alphabet of at most `MAXSTATES` symbols: the dimension fields are coherent,
the cell vector has the right length, and every solved value lies inside the
alphabet (the data-model invariant of the specification). -/
def Grid.wf (g : Grid) : Prop :=
  g.states ≤ MAXSTATES ∧ g.isqrt ≤ MAXROOTS ∧ g.isqrt * g.isqrt = g.states ∧
  g.cells.length = g.states * g.states ∧
  ∀ c ∈ g.cells, c.solved = true → c.solution < g.states

/-- Address `x` holds a repeated occurrence within the group `addrs`: it is
solved and some strictly earlier position of the group carries the same
solved value. -/
def IsRepeatAt (cells : List Cell) (addrs : List Nat) (x : Nat) : Prop :=
  x < cells.length ∧ (cells.getD x dCell).solved = true ∧
  ∃ j < addrs.length, addrs.getD j 0 = x ∧
    (cells.getD x dCell).solution ∈ groupVals cells (addrs.take j)

/-- Address `x` is a repeated occurrence in some row, column or block. -/
def Grid.RepeatAny (g : Grid) (x : Nat) : Prop :=
  ∃ addrs ∈ g.allGroups, IsRepeatAt g.cells addrs x

/-- Two cell vectors agree on everything the solving logic reads: length,
solved flags and solution values. -/
def CellsSim (cs ds : List Cell) : Prop :=
  cs.length = ds.length ∧
  ∀ i < cs.length, (cs.getD i dCell).solved = (ds.getD i dCell).solved ∧
    (cs.getD i dCell).solution = (ds.getD i dCell).solution

/-- Cells equal in every field except possibly the highlight. -/
def CellEqX (c d : Cell) : Prop :=
  c.solved = d.solved ∧ c.solution = d.solution ∧ c.possible = d.possible ∧
  c.disallowed = d.disallowed ∧ c.ispaired = d.ispaired ∧ c.paired = d.paired

/-- Grids identical except possibly for the highlight values of their cells. -/
def Grid.SimX (g h : Grid) : Prop :=
  g.name = h.name ∧ g.state_dict = h.state_dict ∧ g.status = h.status ∧
  g.states = h.states ∧ g.isqrt = h.isqrt ∧ g.size = h.size ∧
  g.symbols = h.symbols ∧ g.cells.length = h.cells.length ∧
  ∀ i < g.cells.length, CellEqX (g.cells.getD i dCell) (h.cells.getD i dCell)

/-- Pointwise preservation of solvedness (the unsolved-to-solved transition
is never undone). -/
def SolvedMono (cs ds : List Cell) : Prop :=
  ∀ i < cs.length, (cs.getD i dCell).solved = true → (ds.getD i dCell).solved = true

/-- The 9-state scenario of the specification: row 0 loaded with
`[2,3,4,5,6,7,8,9,0]`, everything else unsolved. -/
def demoRowArr : List Nat := [2, 3, 4, 5, 6, 7, 8, 9, 0] ++ List.replicate 72 0

def demoRowGrid : Grid :=
  (((Grid.new "123456789").bodge "row0" demoRowArr).map Prod.fst).getD (Grid.new "123456789")

/-- The grid after the forced claim of the scenario: row 0 completed at its
last cell with stored value `0` (symbol "1"). -/
def demoRowGrid1 : Grid :=
  ((demoRowGrid.solve_next).map Prod.fst).getD demoRowGrid

/-- Projection of a cell to the fields the solving logic reads. -/
def cellSS (c : Cell) : Bool × Nat := (c.solved, c.solution)

/-- The second grid is the first with exactly one previously unsolved cell
claimed: solved, given some value, and carrying the claimed highlight. -/
def ClaimedFrom (g g2 : Grid) : Prop :=
  ∃ a v c, g.cells[a]? = some c ∧ c.solved = false ∧
    g2 = { g with
      cells := g.cells.set a ({ c with solved := true, solution := v, highlight := 1 }) }

/-- An in-range-length vector opening with an out-of-alphabet entry (200),
used to witness the missing per-element range check. -/
def bigArr : List Nat := 200 :: List.replicate 80 0

/-- The cells list `cells` equals `cells0` except that exactly the addresses
satisfying `S` carry the conflict highlight. -/
def FlagSpec (cells0 : List Cell) (S : Nat → Prop) (cells : List Cell) : Prop :=
  cells.length = cells0.length ∧
  ∀ i : Nat, ∀ c, cells0[i]? = some c →
    (S i → cells[i]? = some ({ c with highlight := 2 })) ∧
    (¬ S i → cells[i]? = some c)

/-- The scratch array `t` equals `t0` with exactly the values of `V` ticked. -/
def MarkSpec (t0 : List Bool) (V : List Nat) (t : List Bool) : Prop :=
  t.length = t0.length ∧
  ∀ v : Nat, v < t0.length → t.getD v false = (t0.getD v false || decide (v ∈ V))

/-- A 9-state grid with a duplicated 5 in row 0 (bulk-loaded), used to witness
the Validator claims. -/
def demoDupArr : List Nat := [5, 5] ++ List.replicate 79 0

def demoDupGrid : Grid :=
  (((Grid.new "123456789").bodge "dup" demoDupArr).map Prod.fst).getD (Grid.new "123456789")

/-- The grid produced by running the Validator on `demoDupGrid`. -/
def demoDupGridV : Grid :=
  ((demoDupGrid.validate).map Prod.fst).getD demoDupGrid

instance (cells : List Cell) (addrs : List Nat) (x : Nat) :
    Decidable (IsRepeatAt cells addrs x) := by
  unfold IsRepeatAt
  infer_instance

instance (g : Grid) (x : Nat) : Decidable (g.RepeatAny x) := by
  unfold Grid.RepeatAny
  infer_instance

instance (g : Grid) : Decidable g.dupFree := by
  unfold Grid.dupFree
  infer_instance

instance (g : Grid) : Decidable g.wf := by
  unfold Grid.wf
  infer_instance

instance (cs ds : List Cell) : Decidable (SolvedMono cs ds) := by
  unfold SolvedMono
  infer_instance

instance (cs ds : List Cell) : Decidable (CellsSim cs ds) := by
  unfold CellsSim
  infer_instance

instance (c d : Cell) : Decidable (CellEqX c d) := by
  unfold CellEqX
  infer_instance

instance (g h : Grid) : Decidable (Grid.SimX g h) := by
  unfold Grid.SimX
  infer_instance

/-! ## Bulk load characterization -/

/-- A value is marked in the row map when some processed pair of that row is
solved with that value. -/
def RowMark (cells : List Cell) (n : Nat) (pre : List (Nat × Nat)) (row v : Nat) : Prop :=
  ∃ p ∈ pre, p.1 = row ∧ solvedValAt cells (p.1 * n + p.2) = some v

/-- Column analogue of `RowMark`. -/
def ColMark (cells : List Cell) (n : Nat) (pre : List (Nat × Nat)) (col v : Nat) : Prop :=
  ∃ p ∈ pre, p.2 = col ∧ solvedValAt cells (p.1 * n + p.2) = some v

/-- What a `MAXSTATES × MAXSTATES` occupancy map holds: row `r` marks value
`v` exactly when `mark r v`. -/
def MapSpec (mark : Nat → Nat → Prop) (m : List (List Bool)) : Prop :=
  m.length = MAXSTATES ∧
  ∀ r : Nat, r < MAXSTATES → ∃ mr, m[r]? = some mr ∧ mr.length = MAXSTATES ∧
    ∀ v : Nat, v < MAXSTATES → (mr.getD v false = true ↔ mark r v)

/-- The `mema` accumulator of the block scan: the last address of the list
whose cell exists and is unsolved, the initial value if there is none. -/
def lastFree (cells : List Cell) : Nat → List Nat → Nat
  | m0, [] => m0
  | m0, a :: rest =>
    match cells[a]? with
    | some c => if c.solved then lastFree cells m0 rest else lastFree cells a rest
    | none => lastFree cells m0 rest

/-- Two cell vectors identical except possibly for per-cell highlights. -/
def CellsSimX (cs ds : List Cell) : Prop :=
  cs.length = ds.length ∧
  ∀ i < cs.length, CellEqX (cs.getD i dCell) (ds.getD i dCell)

/-- The scenario grid with one highlight artificially altered, used to witness
that highlights are never read by the logic. -/
def demoRowGridH : Grid :=
  { demoRowGrid with
    cells := demoRowGrid.cells.set 0
      ({ (demoRowGrid.cells.getD 0 dCell) with highlight := 2 }) }

instance (cs ds : List Cell) : Decidable (CellsSimX cs ds) := by
  unfold CellsSimX
  infer_instance

theorem countP_range_getD {α : Type} (p : α → Bool) (d : α) :
    ∀ l : List α, (List.range l.length).countP (fun i => p (l.getD i d)) = l.countP p := by
  intro l
  induction l with
  | nil => simp
  | cons a l ih =>
    rw [List.length_cons, List.range_succ_eq_map, List.countP_cons, List.countP_map]
    have h1 : ((fun i => p ((a :: l).getD i d)) ∘ (· + 1)) = fun i => p (l.getD i d) := by
      funext i; simp [List.getD_cons_succ]
    rw [h1, ih, List.countP_cons]
    simp [List.getD_cons_zero]

theorem bodgeGo_cons (arr : List Nat) (cells : List Cell) (used i : Nat) (rest : List Nat) :
    Grid.bodgeGo arr cells used (i :: rest) =
      if 0 < arr.getD i 0 then
        match cells[i]? with
        | none => none
        | some c =>
            Grid.bodgeGo arr
              (cells.set i { c with solved := true, solution := arr.getD i 0 - 1 })
              (used + 1) rest
      else Grid.bodgeGo arr cells used rest := rfl

theorem bodgeGo_spec (arr : List Nat) :
    ∀ (idxs : List Nat) (cells : List Cell) (used : Nat),
      (∀ i ∈ idxs, 0 < arr.getD i 0 → i < cells.length) →
      idxs.Nodup →
      ∃ cells2,
        Grid.bodgeGo arr cells used idxs =
          some (cells2, used + idxs.countP (fun i => decide (0 < arr.getD i 0))) ∧
        cells2.length = cells.length ∧
        (∀ j, j ∉ idxs → cells2[j]? = cells[j]?) ∧
        (∀ j ∈ idxs, 0 < arr.getD j 0 →
          cells2[j]? = (cells[j]?).map
            (fun c => { c with solved := true, solution := arr.getD j 0 - 1 })) ∧
        (∀ j ∈ idxs, arr.getD j 0 = 0 → cells2[j]? = cells[j]?) := by
  intro idxs
  induction idxs with
  | nil =>
    intro cells used hb hnd
    exact ⟨cells, by simp [Grid.bodgeGo], rfl, fun j _ => rfl, by simp, by simp⟩
  | cons i rest ih =>
    intro cells used hb hnd
    have hndr : rest.Nodup := (List.nodup_cons.mp hnd).2
    have hnmem : i ∉ rest := (List.nodup_cons.mp hnd).1
    by_cases hp : 0 < arr.getD i 0
    · have hilt : i < cells.length := hb i (by simp) hp
      obtain ⟨c, hc⟩ : ∃ c, cells[i]? = some c := ⟨_, List.getElem?_eq_getElem hilt⟩
      have hstep : Grid.bodgeGo arr cells used (i :: rest) =
          Grid.bodgeGo arr (cells.set i { c with solved := true, solution := arr.getD i 0 - 1 })
            (used + 1) rest := by
        rw [bodgeGo_cons, if_pos hp, hc]
      generalize hcells' : cells.set i { c with solved := true, solution := arr.getD i 0 - 1 }
         = cells' at hstep
      have hb' : ∀ j ∈ rest, 0 < arr.getD j 0 → j < cells'.length := by
        intro j hj hpj
        have := hb j (by simp [hj]) hpj
        rw [← hcells']
        simpa using this
      obtain ⟨cells2, heq, hlen, hfr, hpos, hzer⟩ := ih cells' (used + 1) hb' hndr
      refine ⟨cells2, ?_, ?_, ?_, ?_, ?_⟩
      · rw [hstep, heq]
        have hdec : decide (0 < arr.getD i 0) = true := decide_eq_true hp
        have : used + 1 + rest.countP (fun i => decide (0 < arr.getD i 0)) =
            used + (i :: rest).countP (fun i => decide (0 < arr.getD i 0)) := by
          rw [List.countP_cons, hdec, if_pos rfl]
          omega
        rw [this]
      · rw [hlen, ← hcells']; simp
      · intro j hj
        have hji : j ≠ i := by intro h; exact hj (h ▸ List.mem_cons_self i rest)
        have hjr : j ∉ rest := fun h => hj (List.mem_cons_of_mem i h)
        rw [hfr j hjr, ← hcells', List.getElem?_set_ne (fun h => hji h.symm)]
      · intro j hj hpj
        rcases List.mem_cons.mp hj with hji | hjr
        · subst hji
          rw [hfr j hnmem, ← hcells', List.getElem?_set_eq_of_lt _ hilt, hc]
          rfl
        · rw [hpos j hjr hpj]
          by_cases hji : j = i
          · exact absurd (hji ▸ hjr) hnmem
          · rw [← hcells', List.getElem?_set_ne (fun h => hji h.symm)]
      · intro j hj hpj
        rcases List.mem_cons.mp hj with hji | hjr
        · subst hji; omega
        · rw [hzer j hjr hpj]
          by_cases hji : j = i
          · exact absurd (hji ▸ hjr) hnmem
          · rw [← hcells', List.getElem?_set_ne (fun h => hji h.symm)]
    · obtain ⟨cells2, heq, hlen, hfr, hpos, hzer⟩ := ih cells used
        (fun j hj hpj => hb j (by simp [hj]) hpj) hndr
      refine ⟨cells2, ?_, hlen, ?_, ?_, ?_⟩
      · rw [bodgeGo_cons, if_neg hp, heq]
        have hz : arr[i]?.getD 0 = 0 := by
          rw [← List.getD_eq_getElem?_getD]; omega
        have : rest.countP (fun i => decide (0 < arr.getD i 0)) =
            (i :: rest).countP (fun i => decide (0 < arr.getD i 0)) := by
          rw [List.countP_cons]
          simp [hz]
        rw [this]
      · intro j hj
        exact hfr j (fun h => hj (List.mem_cons_of_mem i h))
      · intro j hj hpj
        rcases List.mem_cons.mp hj with hji | hjr
        · subst hji; omega
        · exact hpos j hjr hpj
      · intro j hj hpj
        rcases List.mem_cons.mp hj with hji | hjr
        · subst hji
          exact hfr j hnmem
        · exact hzer j hjr hpj

/-- C5 (amended): the length guard of bulk load compares lengths only modulo
256 (`self.size != arr.len() as u8`).  A vector whose length differs from the
grid size modulo 256 yields the error and leaves the cells untouched, with
the display name overwritten unconditionally; a vector of the correct actual
length yields Ok with the count of nonzero entries. -/
theorem C5_bodge_length_check (g : Grid) (title : String) (arr : List Nat) :
    (arr.length % 256 ≠ g.size →
      g.bodge title arr =
        some ({ g with name := title }, Except.error "wrong length vector provided")) ∧
    (arr.length % 256 = g.size → arr.length = g.cells.length →
      ∃ cells2, g.bodge title arr =
        some ({ g with name := title, cells := cells2 },
          Except.ok (arr.countP (fun v => decide (0 < v))))) := by
  constructor
  · intro h
    simp only [Grid.bodge]
    split
    · rfl
    · next hcond =>
      have hcc : g.size = arr.length % 256 := by simpa using hcond
      exact absurd hcc.symm h
  · intro hsz hlen
    have hb : ∀ i ∈ List.range arr.length, 0 < arr.getD i 0 → i < g.cells.length := by
      intro i hi _
      rw [← hlen]
      exact List.mem_range.mp hi
    obtain ⟨cells2, heq, hlen2, hfr, hpos, hzer⟩ :=
      bodgeGo_spec arr (List.range arr.length) g.cells 0 hb (List.nodup_range _)
    have hcnt : (List.range arr.length).countP (fun i => decide (0 < arr.getD i 0)) =
        arr.countP (fun v => decide (0 < v)) :=
      countP_range_getD (fun v => decide (0 < v)) 0 arr
    rw [hcnt, Nat.zero_add] at heq
    refine ⟨cells2, ?_⟩
    simp only [Grid.bodge]
    split
    · next hcond => exact absurd hsz.symm (by simpa using hcond)
    · simp [heq]

set_option maxRecDepth 10000 in
/-- C5 counterexample: on the standard 9-state grid, a vector of 337 zeros has
the wrong length (`337 ≠ 81 = states²`), yet bulk load does not return an
error: the u8-truncated guard sees `337 % 256 = 81` and the call returns
`Ok 0`.  This refutes the claim that every wrong-length vector yields an
error. -/
theorem C5_counterexample :
    (Grid.new "123456789").bodge "X" (List.replicate 337 0) =
      some ({ Grid.new "123456789" with name := "X" }, Except.ok 0) ∧
    (337 : Nat) ≠ (Grid.new "123456789").states * (Grid.new "123456789").states := by
  constructor
  · decide
  · decide

theorem C5_bodge_length_check_witness :
    ((Grid.new "123456789").bodge "w" [0] =
      some ({ Grid.new "123456789" with name := "w" },
        Except.error "wrong length vector provided")) ∧
    (∃ cells2, (Grid.new "123456789").bodge "r" demoRowArr =
      some ({ Grid.new "123456789" with name := "r", cells := cells2 },
        Except.ok (demoRowArr.countP (fun v => decide (0 < v))))) :=
  ⟨(C5_bodge_length_check (Grid.new "123456789") "w" [0]).1 (by decide),
   (C5_bodge_length_check (Grid.new "123456789") "r" demoRowArr).2 (by decide) (by decide)⟩

/-- C10: bulk load performs no per-element range check: for any `u8` vector of
the correct length, every nonzero entry `v` — with no upper bound tied to
`states` — makes the corresponding cell solved with stored value `v - 1` and
is counted in the Ok result; so values outside `[0, states)` enter the grid
through the public bulk-load interface. -/
theorem C10_bodge_no_range_check (g : Grid) (title : String) (arr : List Nat)
    (hu8 : ∀ v ∈ arr, v < 256) (hlen : arr.length = g.cells.length)
    (hsz : arr.length % 256 = g.size) :
    ∃ cells2,
      g.bodge title arr =
        some ({ g with name := title, cells := cells2 },
          Except.ok (arr.countP (fun v => decide (0 < v)))) ∧
      cells2.length = g.cells.length ∧
      (∀ j < arr.length, 0 < arr.getD j 0 →
        cells2[j]? = (g.cells[j]?).map
          (fun c => { c with solved := true, solution := arr.getD j 0 - 1 })) ∧
      (∀ j < arr.length, arr.getD j 0 = 0 → cells2[j]? = g.cells[j]?) := by
  have hb : ∀ i ∈ List.range arr.length, 0 < arr.getD i 0 → i < g.cells.length := by
    intro i hi _
    rw [← hlen]
    exact List.mem_range.mp hi
  obtain ⟨cells2, heq, hlen2, hfr, hpos, hzer⟩ :=
    bodgeGo_spec arr (List.range arr.length) g.cells 0 hb (List.nodup_range _)
  have hcnt : (List.range arr.length).countP (fun i => decide (0 < arr.getD i 0)) =
      arr.countP (fun v => decide (0 < v)) :=
    countP_range_getD (fun v => decide (0 < v)) 0 arr
  rw [hcnt, Nat.zero_add] at heq
  refine ⟨cells2, ?_, hlen2, ?_, ?_⟩
  · simp only [Grid.bodge]
    split
    · next hcond => exact absurd hsz.symm (by simpa using hcond)
    · simp [heq]
  · intro j hj hpj
    exact hpos j (List.mem_range.mpr hj) hpj
  · intro j hj hpj
    exact hzer j (List.mem_range.mpr hj) hpj

theorem C10_bodge_no_range_check_witness :
    ∃ cells2,
      (Grid.new "123456789").bodge "big" bigArr =
        some ({ Grid.new "123456789" with name := "big", cells := cells2 },
          Except.ok (bigArr.countP (fun v => decide (0 < v)))) ∧
      cells2.length = (Grid.new "123456789").cells.length ∧
      (∀ j < bigArr.length, 0 < bigArr.getD j 0 →
        cells2[j]? = ((Grid.new "123456789").cells[j]?).map
          (fun c => { c with solved := true, solution := bigArr.getD j 0 - 1 })) ∧
      (∀ j < bigArr.length, bigArr.getD j 0 = 0 → cells2[j]? = (Grid.new "123456789").cells[j]?) :=
  C10_bodge_no_range_check (Grid.new "123456789") "big" bigArr
    (by decide) (by decide) (by decide)

/-- C6: a Claim on an unsolved cell solves it with the given value and marks
it with the claimed highlight; a Claim on an already-solved cell aborts
fatally (modeled `none`): it neither overwrites the stored value nor returns
any recoverable outcome. -/
theorem C6_claim_precondition (g : Grid) (address sol : Nat) (c : Cell)
    (hsol : sol < 256) (hc : g.cells[address]? = some c) :
    (c.solved = false →
      g.claim_a address sol =
        some { g with
          cells := g.cells.set address
            ({ c with solved := true, solution := sol, highlight := 1 }) }) ∧
    (c.solved = true → g.claim_a address sol = none) := by
  constructor
  · intro hs
    unfold Grid.claim_a
    rw [hc]
    simp [hs]
  · intro hs
    unfold Grid.claim_a
    rw [hc]
    simp [hs]

theorem C6_claim_precondition_witness :
    (demoRowGrid.claim_a 8 4 =
      some { demoRowGrid with
        cells := demoRowGrid.cells.set 8
          ({ Cell.empty 9 with solved := true, solution := 4, highlight := 1 }) }) ∧
    demoRowGrid.claim_a 0 4 = none :=
  ⟨(C6_claim_precondition demoRowGrid 8 4 (Cell.empty 9) (by decide) (by decide)).1 (by decide),
   (C6_claim_precondition demoRowGrid 0 4
      { Cell.empty 9 with solved := true, solution := 1 } (by decide) (by decide)).2 (by decide)⟩

/-! ## Getter helpers and the single-claim shape of the deduction engine -/

theorem getD_set_ne {α : Type} (l : List α) (i j : Nat) (a d : α) (h : i ≠ j) :
    (l.set i a).getD j d = l.getD j d := by
  rw [List.getD_eq_getElem?_getD, List.getD_eq_getElem?_getD, List.getElem?_set_ne h]

theorem getD_set_self {α : Type} (l : List α) (i : Nat) (a d : α) (h : i < l.length) :
    (l.set i a).getD i d = a := by
  rw [List.getD_eq_getElem?_getD, List.getElem?_set_eq_of_lt a h]
  rfl

theorem SolvedMono.refl (cs : List Cell) : SolvedMono cs cs := fun _ _ h => h

theorem SolvedMono.comp {cs ds es : List Cell} (h1 : SolvedMono cs ds)
    (hlen : ds.length = cs.length) (h2 : SolvedMono ds es) : SolvedMono cs es := by
  intro i hi hs
  exact h2 i (by omega) (h1 i hi hs)

theorem solvedMono_set (cells : List Cell) (a : Nat) (upd : Cell)
    (hupd : upd.solved = true) : SolvedMono cells (cells.set a upd) := by
  intro i hi hs
  by_cases hia : a = i
  · subst hia
    rw [getD_set_self _ _ _ _ hi]
    exact hupd
  · rw [getD_set_ne _ _ _ _ _ hia]
    exact hs

theorem claim_a_some (g : Grid) (a v : Nat) (g2 : Grid) (h : g.claim_a a v = some g2) :
    ∃ c, g.cells[a]? = some c ∧ c.solved = false ∧
      g2 = { g with
        cells := g.cells.set a ({ c with solved := true, solution := v, highlight := 1 }) } := by
  unfold Grid.claim_a at h
  split at h
  · exact absurd h (by simp)
  · next c hc =>
    split at h
    · exact absurd h (by simp)
    · next hs =>
      exact ⟨c, hc, by simpa using hs, (Option.some.inj h).symm⟩

theorem claimedFrom_mono (g g2 : Grid) (h : ClaimedFrom g g2) :
    SolvedMono g.cells g2.cells := by
  obtain ⟨a, v, c, hc, hs, rfl⟩ := h
  exact solvedMono_set _ _ _ rfl

theorem claimFirstGap_some (g : Grid) (missed : Nat) :
    ∀ (addrs : List Nat) (res : Grid × Nat),
      claimFirstGap g missed addrs = some (some res) →
      res.2 = 1 ∧ ClaimedFrom g res.1 := by
  intro addrs
  induction addrs with
  | nil =>
    intro res h
    simp [claimFirstGap] at h
  | cons a rest ih =>
    intro res h
    unfold claimFirstGap at h
    cases hc : g.cells[a]? with
    | none =>
      simp only [hc] at h
      exact Option.noConfusion h
    | some c =>
      simp only [hc] at h
      by_cases hs : c.solved
      · rw [if_pos hs] at h
        exact ih res h
      · rw [if_neg hs] at h
        cases hg2 : g.claim_a a missed with
        | none =>
      simp only [hg2] at h
      exact Option.noConfusion h
        | some g2 =>
          simp only [hg2] at h
          obtain ⟨c2, hc2, hs2, hshape⟩ := claim_a_some g a missed g2 hg2
          have hres : res = (g2, 1) := (Option.some.inj (Option.some.inj h)).symm
          subst hres
          exact ⟨rfl, ⟨a, missed, c2, hc2, hs2, hshape⟩⟩

theorem rowPassGo_some (g : Grid) (rt : List (List Bool)) (n : Nat) :
    ∀ (rows : List Nat) (res : Grid × Nat),
      rowPassGo g rt n rows = some (some res) →
      res.2 = 1 ∧ ClaimedFrom g res.1 := by
  intro rows
  induction rows with
  | nil =>
    intro res h
    simp [rowPassGo] at h
  | cons row rest ih =>
    intro res h
    unfold rowPassGo at h
    cases hrt : rt[row]? with
    | none =>
      simp only [hrt] at h
      exact Option.noConfusion h
    | some trow =>
      simp only [hrt] at h
      cases hct : countTrue trow (List.range n) 0 with
      | none =>
      simp only [hct] at h
      exact Option.noConfusion h
      | some used =>
        simp only [hct] at h
        by_cases hused : used = n - 1
        · rw [if_pos hused] at h
          cases hff : findFirstFalse trow (List.range n) with
          | none =>
      simp only [hff] at h
      exact Option.noConfusion h
          | some missed =>
            simp only [hff] at h
            cases hcf : claimFirstGap g missed ((List.range n).map (fun col => row * n + col)) with
            | none =>
              simp only [hcf] at h
              exact Option.noConfusion h
            | some o =>
              cases o with
              | none =>
                simp only [hcf] at h
                exact ih res h
              | some res2 =>
                simp only [hcf] at h
                have h2 : res2 = res := Option.some.inj (Option.some.inj h)
                subst h2
                exact claimFirstGap_some g missed _ res2 hcf
        · rw [if_neg hused] at h
          exact ih res h

theorem colPassGo_some (g : Grid) (ct : List (List Bool)) (n : Nat) :
    ∀ (cols : List Nat) (res : Grid × Nat),
      colPassGo g ct n cols = some (some res) →
      res.2 = 1 ∧ ClaimedFrom g res.1 := by
  intro cols
  induction cols with
  | nil =>
    intro res h
    simp [colPassGo] at h
  | cons col rest ih =>
    intro res h
    unfold colPassGo at h
    cases hct0 : ct[col]? with
    | none =>
      simp only [hct0] at h
      exact Option.noConfusion h
    | some tcol =>
      simp only [hct0] at h
      cases hct : countTrue tcol (List.range n) 0 with
      | none =>
        simp only [hct] at h
        exact Option.noConfusion h
      | some used =>
        simp only [hct] at h
        by_cases hused : used = n - 1
        · rw [if_pos hused] at h
          cases hff : findFirstFalse tcol (List.range n) with
          | none =>
            simp only [hff] at h
            exact Option.noConfusion h
          | some missed =>
            simp only [hff] at h
            cases hcf : claimFirstGap g missed ((List.range n).map (fun row => row * n + col)) with
            | none =>
              simp only [hcf] at h
              exact Option.noConfusion h
            | some o =>
              cases o with
              | none =>
                simp only [hcf] at h
                exact ih res h
              | some res2 =>
                simp only [hcf] at h
                have h2 : res2 = res := Option.some.inj (Option.some.inj h)
                subst h2
                exact claimFirstGap_some g missed _ res2 hcf
        · rw [if_neg hused] at h
          exact ih res h

theorem blockPassGo_some (g : Grid) (n bw : Nat) :
    ∀ (bs : List Nat) (t : List Bool) (res : Grid × Nat),
      blockPassGo g n bw t bs = some (some res) →
      res.2 = 1 ∧ ClaimedFrom g res.1 := by
  intro bs
  induction bs with
  | nil =>
    intro t res h
    simp [blockPassGo] at h
  | cons b rest ih =>
    intro t res h
    unfold blockPassGo at h
    cases hr : resetFirst t n with
    | none =>
      simp only [hr] at h
      exact Option.noConfusion h
    | some t0 =>
      simp only [hr] at h
      cases hbs : blockScan g.cells t0 0 (blockAddrs n bw b) with
      | none =>
        simp only [hbs] at h
        exact Option.noConfusion h
      | some p =>
        obtain ⟨t1, mema⟩ := p
        simp only [hbs] at h
        cases hct : countTrue t1 (List.range n) 0 with
        | none =>
          simp only [hct] at h
          exact Option.noConfusion h
        | some used =>
          simp only [hct] at h
          by_cases hused : used = n - 1
          · rw [if_pos hused] at h
            cases hff : findFirstFalse t1 (List.range n) with
            | none =>
              simp only [hff] at h
              exact Option.noConfusion h
            | some missed =>
              simp only [hff] at h
              cases hcm : g.cells[mema]? with
              | none =>
                simp only [hcm] at h
                exact Option.noConfusion h
              | some c =>
                simp only [hcm] at h
                by_cases hcs : c.solved
                · rw [if_pos hcs] at h
                  exact Option.noConfusion h
                · rw [if_neg hcs] at h
                  cases hg2 : g.claim_a mema missed with
                  | none =>
                    simp only [hg2] at h
                    exact Option.noConfusion h
                  | some g2 =>
                    simp only [hg2] at h
                    obtain ⟨c2, hc2, hs2, hshape⟩ := claim_a_some g mema missed g2 hg2
                    have hres : res = (g2, 1) := (Option.some.inj (Option.some.inj h)).symm
                    subst hres
                    exact ⟨rfl, ⟨mema, missed, c2, hc2, hs2, hshape⟩⟩
          · rw [if_neg hused] at h
            exact ih t1 res h

theorem solve_next_shape (g gres : Grid) (k : Nat)
    (h : g.solve_next = some (gres, k)) :
    (gres = g ∧ k = 0) ∨ (k = 1 ∧ ClaimedFrom g gres) := by
  simp only [Grid.solve_next] at h
  cases hbm : buildMaps g.cells g.states with
  | none =>
    simp only [hbm] at h
    exact Option.noConfusion h
  | some maps =>
    obtain ⟨rt, ct⟩ := maps
    simp only [hbm] at h
    cases hsp : stripePass g.cells g.states g.isqrt with
    | none =>
      simp only [hsp] at h
      exact Option.noConfusion h
    | some u =>
      simp only [hsp] at h
      cases hrp : rowPassGo g rt g.states (List.range g.states) with
      | none =>
        simp only [hrp] at h
        exact Option.noConfusion h
      | some o =>
        cases o with
        | some res =>
          simp only [hrp] at h
          have h2 : res = (gres, k) := Option.some.inj h
          subst h2
          have hx := rowPassGo_some g rt g.states _ _ hrp
          exact Or.inr ⟨hx.1, hx.2⟩
        | none =>
          simp only [hrp] at h
          cases hcp : colPassGo g ct g.states (List.range g.states) with
          | none =>
            simp only [hcp] at h
            exact Option.noConfusion h
          | some o2 =>
            cases o2 with
            | some res =>
              simp only [hcp] at h
              have h2 : res = (gres, k) := Option.some.inj h
              subst h2
              have hx := colPassGo_some g ct g.states _ _ hcp
              exact Or.inr ⟨hx.1, hx.2⟩
            | none =>
              simp only [hcp] at h
              cases hbp : blockPassGo g g.states g.isqrt (List.replicate MAXSTATES false)
                  (List.range g.states) with
              | none =>
                simp only [hbp] at h
                exact Option.noConfusion h
              | some o3 =>
                cases o3 with
                | some res =>
                  simp only [hbp] at h
                  have h2 : res = (gres, k) := Option.some.inj h
                  subst h2
                  have hx := blockPassGo_some g g.states g.isqrt _ _ _ hbp
                  exact Or.inr ⟨hx.1, hx.2⟩
                | none =>
                  simp only [hbp] at h
                  have h2 : (g, 0) = (gres, k) := Option.some.inj h
                  cases h2
                  exact Or.inl ⟨rfl, rfl⟩

theorem lt_length_of_getElem?_some {α : Type} {l : List α} {i : Nat} {a : α}
    (h : l[i]? = some a) : i < l.length := by
  by_contra hh
  rw [List.getElem?_eq_none (by omega)] at h
  exact Option.noConfusion h

theorem map_cellSS_set (cells : List Cell) (a : Nat) (c u : Cell)
    (hc : cells[a]? = some c) (hss : cellSS u = cellSS c) :
    ∀ i : Nat, ((cells.set a u)[i]?).map cellSS = (cells[i]?).map cellSS := by
  intro i
  by_cases hia : a = i
  · subst hia
    rw [List.getElem?_set_eq_of_lt u (lt_length_of_getElem?_some hc), hc]
    simp [hss]
  · rw [List.getElem?_set_ne hia]

theorem checkAddrs_preserves :
    ∀ (addrs : List Nat) (cells : List Cell) (t : List Bool) (valid : Bool)
      (cells1 : List Cell) (t1 : List Bool) (valid1 : Bool),
      checkAddrs cells t valid addrs = some (cells1, t1, valid1) →
      cells1.length = cells.length ∧
      ∀ i : Nat, (cells1[i]?).map cellSS = (cells[i]?).map cellSS := by
  intro addrs
  induction addrs with
  | nil =>
    intro cells t valid cells1 t1 valid1 h
    simp only [checkAddrs, Option.some.injEq, Prod.mk.injEq] at h
    obtain ⟨h1, h2, h3⟩ := h
    subst h1
    exact ⟨rfl, fun i => rfl⟩
  | cons a rest ih =>
    intro cells t valid cells1 t1 valid1 h
    unfold checkAddrs at h
    cases hc : cells[a]? with
    | none =>
      simp only [hc] at h
      exact Option.noConfusion h
    | some c =>
      simp only [hc] at h
      by_cases hs : c.solved
      · rw [if_pos hs] at h
        cases ht : t[c.solution]? with
        | none =>
          simp only [ht] at h
          exact Option.noConfusion h
        | some b =>
          simp only [ht] at h
          by_cases hb : b
          · rw [if_pos hb] at h
            obtain ⟨hl, hp⟩ := ih _ _ _ _ _ _ h
            refine ⟨by rw [hl]; simp, fun i => ?_⟩
            rw [hp i, map_cellSS_set cells a c ({ c with highlight := 2 }) hc rfl]
          · rw [if_neg hb] at h
            exact ih _ _ _ _ _ _ h
      · rw [if_neg hs] at h
        exact ih _ _ _ _ _ _ h

theorem checkGroups_preserves (states : Nat) :
    ∀ (gs : List (List Nat)) (cells : List Cell) (t : List Bool) (valid : Bool)
      (cells1 : List Cell) (t1 : List Bool) (valid1 : Bool),
      checkGroups states cells t valid gs = some (cells1, t1, valid1) →
      cells1.length = cells.length ∧
      ∀ i : Nat, (cells1[i]?).map cellSS = (cells[i]?).map cellSS := by
  intro gs
  induction gs with
  | nil =>
    intro cells t valid cells1 t1 valid1 h
    simp only [checkGroups, Option.some.injEq, Prod.mk.injEq] at h
    obtain ⟨h1, h2, h3⟩ := h
    subst h1
    exact ⟨rfl, fun i => rfl⟩
  | cons addrs rest ih =>
    intro cells t valid cells1 t1 valid1 h
    unfold checkGroups at h
    cases hr : resetFirst t states with
    | none =>
      simp only [hr] at h
      exact Option.noConfusion h
    | some t0 =>
      simp only [hr] at h
      cases hca : checkAddrs cells t0 valid addrs with
      | none =>
        simp only [hca] at h
        exact Option.noConfusion h
      | some p =>
        obtain ⟨cellsa, ta, valida⟩ := p
        simp only [hca] at h
        obtain ⟨hl1, hp1⟩ := checkAddrs_preserves addrs cells t0 valid cellsa ta valida hca
        obtain ⟨hl2, hp2⟩ := ih _ _ _ _ _ _ h
        exact ⟨by rw [hl2, hl1], fun i => by rw [hp2 i, hp1 i]⟩

theorem validate_result (g : Grid) (g2 : Grid) (v : Bool)
    (h : g.validate = some (g2, v)) :
    g2.name = g.name ∧ g2.state_dict = g.state_dict ∧ g2.status = g.status ∧
    g2.states = g.states ∧ g2.isqrt = g.isqrt ∧ g2.size = g.size ∧
    g2.symbols = g.symbols ∧ g2.cells.length = g.cells.length ∧
    ∀ i : Nat, (g2.cells[i]?).map cellSS = (g.cells[i]?).map cellSS := by
  unfold Grid.validate at h
  cases hcg : checkGroups g.states g.cells (List.replicate MAXSTATES false) true g.allGroups with
  | none =>
    simp only [hcg] at h
    exact Option.noConfusion h
  | some p =>
    obtain ⟨cells1, t1, valid1⟩ := p
    simp only [hcg] at h
    obtain ⟨hg2, hv⟩ := Prod.mk.injEq .. ▸ Option.some.inj h
    subst hv
    obtain ⟨hl, hp⟩ := checkGroups_preserves g.states g.allGroups _ _ _ _ _ _ hcg
    rw [← hg2]
    exact ⟨rfl, rfl, rfl, rfl, rfl, rfl, rfl, hl, hp⟩

theorem bodgeGo_mono (arr : List Nat) :
    ∀ (idxs : List Nat) (cells : List Cell) (used : Nat) (cells2 : List Cell) (used2 : Nat),
      Grid.bodgeGo arr cells used idxs = some (cells2, used2) →
      cells2.length = cells.length ∧ SolvedMono cells cells2 := by
  intro idxs
  induction idxs with
  | nil =>
    intro cells used cells2 used2 h
    simp only [Grid.bodgeGo, Option.some.injEq, Prod.mk.injEq] at h
    obtain ⟨h1, h2⟩ := h
    subst h1
    exact ⟨rfl, SolvedMono.refl _⟩
  | cons i rest ih =>
    intro cells used cells2 used2 h
    rw [bodgeGo_cons] at h
    by_cases hp : 0 < arr.getD i 0
    · rw [if_pos hp] at h
      cases hc : cells[i]? with
      | none =>
        simp only [hc] at h
        exact Option.noConfusion h
      | some c =>
        simp only [hc] at h
        obtain ⟨hl, hm⟩ := ih _ _ _ _ h
        refine ⟨by rw [hl]; simp, ?_⟩
        exact SolvedMono.comp (solvedMono_set cells i _ rfl) (by simp) hm
    · rw [if_neg hp] at h
      exact ih _ _ _ _ h

/-- C8: the unsolved-to-solved transition is irreversible across the whole
core: bulk load, the Validator, Claim and the deduction engine each leave
every already-solved cell solved. -/
theorem C8_solved_irreversible :
    (∀ (g : Grid) (title : String) (arr : List Nat) (g2 : Grid) (r : Except String Nat),
      g.bodge title arr = some (g2, r) → SolvedMono g.cells g2.cells) ∧
    (∀ (g g2 : Grid) (v : Bool), g.validate = some (g2, v) → SolvedMono g.cells g2.cells) ∧
    (∀ (g : Grid) (a sol : Nat) (g2 : Grid), g.claim_a a sol = some g2 →
      SolvedMono g.cells g2.cells) ∧
    (∀ (g g2 : Grid) (k : Nat), g.solve_next = some (g2, k) → SolvedMono g.cells g2.cells) := by
  refine ⟨?_, ?_, ?_, ?_⟩
  · intro g title arr g2 r h
    simp only [Grid.bodge] at h
    split at h
    · obtain ⟨hg2, hr⟩ := Prod.mk.injEq .. ▸ Option.some.inj h
      rw [← hg2]
      exact SolvedMono.refl _
    · cases hbg : Grid.bodgeGo arr g.cells 0 (List.range arr.length) with
      | none =>
        simp only [hbg] at h
        exact Option.noConfusion h
      | some p =>
        obtain ⟨cells2, used2⟩ := p
        simp only [hbg] at h
        obtain ⟨hg2, hr⟩ := Prod.mk.injEq .. ▸ Option.some.inj h
        rw [← hg2]
        exact (bodgeGo_mono arr _ _ _ _ _ hbg).2
  · intro g g2 v h
    obtain ⟨_, _, _, _, _, _, _, hl, hp⟩ := validate_result g g2 v h
    intro i hi hs
    have := hp i
    rw [List.getElem?_eq_getElem hi, List.getElem?_eq_getElem (by omega : i < g2.cells.length)]
      at this
    have hss : cellSS g2.cells[i] = cellSS g.cells[i] := by
      simpa using this
    have h1 : (g2.cells.getD i dCell).solved = (g.cells.getD i dCell).solved := by
      rw [List.getD_eq_getElem?_getD, List.getD_eq_getElem?_getD,
        List.getElem?_eq_getElem hi, List.getElem?_eq_getElem (by omega : i < g2.cells.length)]
      exact congrArg Prod.fst hss
    rw [h1]
    exact hs
  · intro g a sol g2 h
    obtain ⟨c, hc, hs, rfl⟩ := claim_a_some g a sol g2 h
    exact solvedMono_set _ _ _ rfl
  · intro g g2 k h
    rcases solve_next_shape g g2 k h with ⟨rfl, _⟩ | ⟨_, hcf⟩
    · exact SolvedMono.refl _
    · exact claimedFrom_mono g g2 hcf

theorem C8_solved_irreversible_witness :
    SolvedMono (Grid.new "123456789").cells demoRowGrid.cells ∧
    SolvedMono demoRowGrid.cells demoRowGrid.cells ∧
    SolvedMono demoRowGrid.cells demoRowGrid1.cells ∧
    SolvedMono demoRowGrid.cells demoRowGrid1.cells :=
  ⟨C8_solved_irreversible.1 (Grid.new "123456789") "row0" demoRowArr demoRowGrid
      (Except.ok 8) (by decide),
   C8_solved_irreversible.2.1 demoRowGrid demoRowGrid true (by decide),
   C8_solved_irreversible.2.2.1 demoRowGrid 8 0 demoRowGrid1 (by decide),
   C8_solved_irreversible.2.2.2 demoRowGrid demoRowGrid1 1 (by decide)⟩

/-! ## Validator characterization -/

theorem groupVals_append (cells : List Cell) (l1 l2 : List Nat) :
    groupVals cells (l1 ++ l2) = groupVals cells l1 ++ groupVals cells l2 := by
  simp [groupVals, List.filterMap_append]

theorem groupVals_cons (cells : List Cell) (a : Nat) (l : List Nat) :
    groupVals cells (a :: l) =
      (match solvedValAt cells a with
        | some v => v :: groupVals cells l
        | none => groupVals cells l) := by
  cases h : solvedValAt cells a <;> simp [groupVals, List.filterMap_cons, h]

theorem isRepeatAt_nil (cells : List Cell) (x : Nat) : ¬ IsRepeatAt cells [] x := by
  rintro ⟨_, _, j, hj, _⟩
  simp at hj

theorem isRepeatAt_append_singleton (cells : List Cell) (pre : List Nat) (a x : Nat) :
    IsRepeatAt cells (pre ++ [a]) x ↔
      IsRepeatAt cells pre x ∨
        (a = x ∧ x < cells.length ∧ (cells.getD x dCell).solved = true ∧
          (cells.getD x dCell).solution ∈ groupVals cells pre) := by
  constructor
  · rintro ⟨hx, hs, j, hj, hja, hmem⟩
    rw [List.length_append, List.length_singleton] at hj
    by_cases hjp : j < pre.length
    · refine Or.inl ⟨hx, hs, j, hjp, ?_, ?_⟩
      · rw [← hja, List.getD_eq_getElem?_getD, List.getD_eq_getElem?_getD,
          List.getElem?_append_left hjp]
      · rw [List.take_append_eq_append_take] at hmem
        rw [show j - pre.length = 0 by omega] at hmem
        simpa using hmem
    · have hj2 : j = pre.length := by omega
      subst hj2
      refine Or.inr ⟨?_, hx, hs, ?_⟩
      · rw [← hja, List.getD_eq_getElem?_getD, List.getElem?_append_right (by omega)]
        simp
      · rw [List.take_append_eq_append_take] at hmem
        rw [Nat.sub_self] at hmem
        simpa using hmem
  · rintro (⟨hx, hs, j, hj, hja, hmem⟩ | ⟨rfl, hx, hs, hmem⟩)
    · refine ⟨hx, hs, j, by rw [List.length_append]; omega, ?_, ?_⟩
      · rw [← hja, List.getD_eq_getElem?_getD, List.getD_eq_getElem?_getD,
          List.getElem?_append_left hj]
      · rw [List.take_append_eq_append_take, show j - pre.length = 0 by omega]
        simpa using hmem
    · refine ⟨hx, hs, pre.length, by rw [List.length_append]; simp, ?_, ?_⟩
      · rw [List.getD_eq_getElem?_getD, List.getElem?_append_right (by omega)]
        simp
      · rw [List.take_append_eq_append_take, Nat.sub_self]
        simpa using hmem

theorem flagSpec_init (cells0 : List Cell) : FlagSpec cells0 (IsRepeatAt cells0 []) cells0 := by
  refine ⟨rfl, fun i c hc => ⟨fun hS => absurd hS (isRepeatAt_nil cells0 i), fun _ => hc⟩⟩

theorem flagSpec_congr (cells0 : List Cell) (S1 S2 : Nat → Prop) (cells : List Cell)
    (hiff : ∀ i, S1 i ↔ S2 i) (h : FlagSpec cells0 S1 cells) : FlagSpec cells0 S2 cells := by
  refine ⟨h.1, fun i c hc => ?_⟩
  obtain ⟨h1, h2⟩ := h.2 i c hc
  exact ⟨fun hS => h1 ((hiff i).mpr hS), fun hS => h2 (fun hs1 => hS ((hiff i).mp hs1))⟩

theorem markSpec_init (t0 : List Bool) : MarkSpec t0 [] t0 := by
  exact ⟨rfl, fun v hv => by simp⟩

theorem flagSpec_cellSS (cells0 : List Cell) (S : Nat → Prop) (cells : List Cell)
    (h : FlagSpec cells0 S cells) :
    ∀ i : Nat, (cells[i]?).map cellSS = (cells0[i]?).map cellSS := by
  intro i
  by_cases hi : i < cells0.length
  · obtain ⟨c, hc⟩ : ∃ c, cells0[i]? = some c := ⟨_, List.getElem?_eq_getElem hi⟩
    obtain ⟨h1, h2⟩ := h.2 i c hc
    by_cases hS : S i
    · rw [h1 hS, hc]
      rfl
    · rw [h2 hS, hc]
  · have h1 : cells0.length ≤ i := by omega
    have h2 : cells.length ≤ i := by rw [h.1]; omega
    rw [List.getElem?_eq_none h1, List.getElem?_eq_none h2]

theorem solvedValAt_congr (cells ds : List Cell)
    (h : ∀ i : Nat, (cells[i]?).map cellSS = (ds[i]?).map cellSS) :
    ∀ a : Nat, solvedValAt cells a = solvedValAt ds a := by
  intro a
  have hssa := h a
  cases hc : cells[a]? with
  | none =>
    rw [hc] at hssa
    cases hd : ds[a]? with
    | none => simp [solvedValAt, hc, hd]
    | some d => rw [hd] at hssa; exact Option.noConfusion hssa
  | some c =>
    rw [hc] at hssa
    cases hd : ds[a]? with
    | none => rw [hd] at hssa; exact Option.noConfusion hssa
    | some d =>
      rw [hd] at hssa
      have hss : cellSS c = cellSS d := Option.some.inj hssa
      have h1 : c.solved = d.solved := congrArg Prod.fst hss
      have h2 : c.solution = d.solution := congrArg Prod.snd hss
      simp [solvedValAt, hc, hd, h1, h2]

theorem groupVals_congr (cells ds : List Cell)
    (h : ∀ i : Nat, (cells[i]?).map cellSS = (ds[i]?).map cellSS) (l : List Nat) :
    groupVals cells l = groupVals ds l := by
  unfold groupVals
  congr 1
  funext a
  exact solvedValAt_congr cells ds h a

theorem checkAddrs_cons (cells : List Cell) (t : List Bool) (valid : Bool) (a : Nat)
    (rest : List Nat) :
    checkAddrs cells t valid (a :: rest) =
      match cells[a]? with
      | none => none
      | some c =>
        if c.solved then
          match t[c.solution]? with
          | none => none
          | some b =>
            if b then
              checkAddrs (cells.set a { c with highlight := 2 }) (t.set c.solution true)
                false rest
            else checkAddrs cells (t.set c.solution true) valid rest
        else checkAddrs cells t valid rest := rfl

theorem groupVals_singleton_none (cells : List Cell) (a : Nat)
    (h : solvedValAt cells a = none) : groupVals cells [a] = [] := by
  simp [groupVals, List.filterMap_cons, h]

theorem groupVals_singleton_some (cells : List Cell) (a v : Nat)
    (h : solvedValAt cells a = some v) : groupVals cells [a] = [v] := by
  simp [groupVals, List.filterMap_cons, h]

theorem markSpec_step (t0 : List Bool) (V : List Nat) (t : List Bool) (v : Nat)
    (hM : MarkSpec t0 V t) (hvlt : v < t0.length) :
    MarkSpec t0 (V ++ [v]) (t.set v true) := by
  obtain ⟨hlen, hm⟩ := hM
  refine ⟨by simpa using hlen, fun w hw => ?_⟩
  by_cases hwv : v = w
  · subst hwv
    rw [getD_set_self _ _ _ _ (by omega)]
    simp
  · rw [getD_set_ne _ _ _ _ _ hwv, hm w hw]
    have : (w ∈ V ++ [v]) ↔ w ∈ V := by
      simp [List.mem_append]
      intro hweq
      exact absurd hweq.symm hwv
    rw [decide_eq_decide.mpr this]

theorem getD_of_getElem?_some {α : Type} {l : List α} {i : Nat} {a : α} (d : α)
    (h : l[i]? = some a) : l.getD i d = a := by
  rw [List.getD_eq_getElem?_getD, h]
  rfl

theorem isRepeatAt_append_not_last (cells : List Cell) (pre : List Nat) (a x : Nat)
    (hne : a ≠ x) : IsRepeatAt cells (pre ++ [a]) x ↔ IsRepeatAt cells pre x := by
  rw [isRepeatAt_append_singleton]
  constructor
  · rintro (h | ⟨heq, _⟩)
    · exact h
    · exact absurd heq hne
  · exact Or.inl

theorem flagSpec_step_noflag (cells0 : List Cell) (pre : List Nat) (a : Nat)
    (cells : List Cell) (hF : FlagSpec cells0 (IsRepeatAt cells0 pre) cells)
    (hnorep : ¬ IsRepeatAt cells0 (pre ++ [a]) a) :
    FlagSpec cells0 (IsRepeatAt cells0 (pre ++ [a])) cells := by
  refine flagSpec_congr cells0 _ _ cells (fun i => ?_) hF
  by_cases hia : a = i
  · subst hia
    constructor
    · intro h
      by_contra
      exact hnorep ((isRepeatAt_append_singleton cells0 pre a a).mpr (Or.inl h))
    · intro h
      exact absurd h hnorep
  · exact (isRepeatAt_append_not_last cells0 pre a i hia).symm

theorem flagSpec_step_flag (cells0 : List Cell) (pre : List Nat) (a : Nat)
    (cells : List Cell) (c c0 : Cell)
    (hF : FlagSpec cells0 (IsRepeatAt cells0 pre) cells)
    (hc0 : cells0[a]? = some c0) (hc : cells[a]? = some c)
    (hch : ({ c with highlight := 2 } : Cell) = { c0 with highlight := 2 })
    (hrepa : IsRepeatAt cells0 (pre ++ [a]) a) :
    FlagSpec cells0 (IsRepeatAt cells0 (pre ++ [a]))
      (cells.set a ({ c with highlight := 2 })) := by
  obtain ⟨hlen, hFp⟩ := hF
  refine ⟨by simpa using hlen, fun i c1 hc1 => ?_⟩
  by_cases hia : a = i
  · subst hia
    have hc10 : c1 = c0 := Option.some.inj (hc1 ▸ hc0 ▸ rfl)
    subst hc10
    constructor
    · intro _
      rw [List.getElem?_set_eq_of_lt _ (lt_length_of_getElem?_some hc), hch]
    · intro hn
      exact absurd hrepa hn
  · obtain ⟨h1, h2⟩ := hFp i c1 hc1
    rw [isRepeatAt_append_not_last cells0 pre a i hia]
    constructor
    · intro hS
      rw [List.getElem?_set_ne hia]
      exact h1 hS
    · intro hS
      rw [List.getElem?_set_ne hia]
      exact h2 hS

theorem nodup_append_singleton {α : Type} (l : List α) (a : α) :
    (l ++ [a]).Nodup ↔ l.Nodup ∧ a ∉ l := by
  rw [List.nodup_append]
  constructor
  · rintro ⟨h1, _, h3⟩
    exact ⟨h1, fun hmem => h3 hmem (by simp)⟩
  · rintro ⟨h1, h2⟩
    refine ⟨h1, List.nodup_singleton a, fun x hx hxa => ?_⟩
    have hxe : x = a := by simpa using hxa
    exact h2 (hxe ▸ hx)

theorem getD_mem_of_lt {l : List Nat} {j : Nat} (d : Nat) (hj : j < l.length) :
    l.getD j d ∈ l := by
  rw [List.getD_eq_getElem?_getD, List.getElem?_eq_getElem hj]
  exact List.getElem_mem hj

set_option maxRecDepth 8000 in
theorem checkAddrs_spec (cells0 : List Cell) (t0 : List Bool) (valid0 : Bool)
    (full : List Nat) (hnd : full.Nodup)
    (hb : ∀ a ∈ full, a < cells0.length)
    (hvv : ∀ a ∈ full, ∀ v : Nat, solvedValAt cells0 a = some v → v < t0.length)
    (ht0 : ∀ a ∈ full, ∀ v : Nat, solvedValAt cells0 a = some v → t0.getD v false = false) :
    ∀ (rest pre : List Nat), full = pre ++ rest →
    ∀ (cells : List Cell) (t : List Bool) (valid : Bool),
      FlagSpec cells0 (IsRepeatAt cells0 pre) cells →
      MarkSpec t0 (groupVals cells0 pre) t →
      valid = (valid0 && decide (groupVals cells0 pre).Nodup) →
      ∃ cells1 t1,
        checkAddrs cells t valid rest =
          some (cells1, t1, valid0 && decide (groupVals cells0 full).Nodup) ∧
        FlagSpec cells0 (IsRepeatAt cells0 full) cells1 ∧
        MarkSpec t0 (groupVals cells0 full) t1 := by
  intro rest
  induction rest with
  | nil =>
    intro pre hfull cells t valid hF hM hV
    rw [List.append_nil] at hfull
    subst hfull
    exact ⟨cells, t, by simp only [checkAddrs, hV], hF, hM⟩
  | cons a rest2 ih =>
    intro pre hfull cells t valid hF hM hV
    have hfull2 : full = (pre ++ [a]) ++ rest2 := by
      rw [hfull, List.append_assoc]
      rfl
    have haf : a ∈ full := by
      rw [hfull]
      simp
    have hax : a < cells0.length := hb a haf
    obtain ⟨c0, hc0⟩ : ∃ c0, cells0[a]? = some c0 := ⟨_, List.getElem?_eq_getElem hax⟩
    have hgd0 : cells0.getD a dCell = c0 := getD_of_getElem?_some dCell hc0
    have hanp : a ∉ pre := by
      intro hmem
      have hnd2 : (pre ++ a :: rest2).Nodup := hfull ▸ hnd
      exact (List.nodup_append.mp hnd2).2.2 hmem (List.mem_cons_self a rest2)
    have hIRpre : ¬ IsRepeatAt cells0 pre a := by
      rintro ⟨_, _, j, hj, hja, _⟩
      exact hanp (hja ▸ getD_mem_of_lt 0 hj)
    have hcell : ∃ c, cells[a]? = some c ∧ c.solved = c0.solved ∧
        c.solution = c0.solution ∧
        ({ c with highlight := 2 } : Cell) = { c0 with highlight := 2 } := by
      by_cases hrep : IsRepeatAt cells0 pre a
      · exact ⟨_, (hF.2 a c0 hc0).1 hrep, rfl, rfl, rfl⟩
      · exact ⟨c0, (hF.2 a c0 hc0).2 hrep, rfl, rfl, rfl⟩
    obtain ⟨c, hc, hcs, hcsol, hch⟩ := hcell
    by_cases hsolved : c0.solved = true
    · have hsv : solvedValAt cells0 a = some c0.solution := by
        simp [solvedValAt, hc0, hsolved]
      have hvlt : c0.solution < t0.length := hvv a haf c0.solution hsv
      have hvlt2 : c0.solution < t.length := by rw [hM.1]; omega
      have htv : t[c0.solution]? = some (t.getD c0.solution false) := by
        rw [List.getD_eq_getElem?_getD, List.getElem?_eq_getElem hvlt2]
        rfl
      have hb0 : t.getD c0.solution false = decide (c0.solution ∈ groupVals cells0 pre) := by
        rw [hM.2 c0.solution hvlt, ht0 a haf c0.solution hsv]
        simp
      have hvals2 : groupVals cells0 (pre ++ [a]) =
          groupVals cells0 pre ++ [c0.solution] := by
        rw [groupVals_append, groupVals_singleton_some cells0 a c0.solution hsv]
      by_cases hmem : c0.solution ∈ groupVals cells0 pre
      · have hstep : checkAddrs cells t valid (a :: rest2) =
            checkAddrs (cells.set a ({ c with highlight := 2 }))
              (t.set c.solution true) false rest2 := by
          rw [checkAddrs_cons, hc]
          have hcsT : c.solved = true := by rw [hcs]; exact hsolved
          have hbT : t[c0.solution]? = some true := by
            rw [htv, hb0]
            simpa using hmem
          simp [hcsT, hcsol, hbT]
        have hrepa : IsRepeatAt cells0 (pre ++ [a]) a := by
          rw [isRepeatAt_append_singleton]
          exact Or.inr ⟨rfl, hax, by rw [hgd0]; exact hsolved, by rw [hgd0]; exact hmem⟩
        have hF2 : FlagSpec cells0 (IsRepeatAt cells0 (pre ++ [a]))
            (cells.set a ({ c with highlight := 2 })) :=
          flagSpec_step_flag cells0 pre a cells c c0 hF hc0 hc hch hrepa
        have hM2 : MarkSpec t0 (groupVals cells0 (pre ++ [a])) (t.set c.solution true) := by
          rw [hvals2, hcsol]
          exact markSpec_step t0 _ t c0.solution hM hvlt
        have hV2 : false = (valid0 && decide (groupVals cells0 (pre ++ [a])).Nodup) := by
          rw [hvals2]
          rw [decide_eq_false (by rw [nodup_append_singleton]; tauto)]
          simp
        obtain ⟨cells1, t1, heq, hF3, hM3⟩ :=
          ih (pre ++ [a]) hfull2 _ _ _ hF2 hM2 hV2
        exact ⟨cells1, t1, by rw [hstep, heq], hF3, hM3⟩
      · have hstep : checkAddrs cells t valid (a :: rest2) =
            checkAddrs cells (t.set c.solution true) valid rest2 := by
          rw [checkAddrs_cons, hc]
          have hcsT : c.solved = true := by rw [hcs]; exact hsolved
          have hbF : t[c0.solution]? = some false := by
            rw [htv, hb0]
            simpa using hmem
          simp [hcsT, hcsol, hbF]
        have hnorep : ¬ IsRepeatAt cells0 (pre ++ [a]) a := by
          rw [isRepeatAt_append_singleton]
          rintro (hrep | ⟨_, _, _, hmem2⟩)
          · exact hIRpre hrep
          · rw [hgd0] at hmem2
            exact hmem hmem2
        have hF2 : FlagSpec cells0 (IsRepeatAt cells0 (pre ++ [a])) cells :=
          flagSpec_step_noflag cells0 pre a cells hF hnorep
        have hM2 : MarkSpec t0 (groupVals cells0 (pre ++ [a])) (t.set c.solution true) := by
          rw [hvals2, hcsol]
          exact markSpec_step t0 _ t c0.solution hM hvlt
        have hV2 : valid = (valid0 && decide (groupVals cells0 (pre ++ [a])).Nodup) := by
          rw [hvals2, hV]
          have : (groupVals cells0 pre ++ [c0.solution]).Nodup ↔
              (groupVals cells0 pre).Nodup := by
            rw [nodup_append_singleton]
            tauto
          rw [decide_eq_decide.mpr this]
        obtain ⟨cells1, t1, heq, hF3, hM3⟩ :=
          ih (pre ++ [a]) hfull2 _ _ _ hF2 hM2 hV2
        exact ⟨cells1, t1, by rw [hstep, heq], hF3, hM3⟩
    · have hsv : solvedValAt cells0 a = none := by
        simp [solvedValAt, hc0, hsolved]
      have hstep : checkAddrs cells t valid (a :: rest2) =
          checkAddrs cells t valid rest2 := by
        rw [checkAddrs_cons, hc]
        have hcsF : c.solved = false := by
          rw [hcs]
          simpa using hsolved
        simp [hcsF]
      have hvals2 : groupVals cells0 (pre ++ [a]) = groupVals cells0 pre := by
        rw [groupVals_append, groupVals_singleton_none cells0 a hsv]
        simp
      have hnorep : ¬ IsRepeatAt cells0 (pre ++ [a]) a := by
        rw [isRepeatAt_append_singleton]
        rintro (hrep | ⟨_, _, hsol2, _⟩)
        · exact hIRpre hrep
        · rw [hgd0] at hsol2
          exact hsolved hsol2
      have hF2 : FlagSpec cells0 (IsRepeatAt cells0 (pre ++ [a])) cells :=
        flagSpec_step_noflag cells0 pre a cells hF hnorep
      have hM2 : MarkSpec t0 (groupVals cells0 (pre ++ [a])) t := by
        rw [hvals2]
        exact hM
      have hV2 : valid = (valid0 && decide (groupVals cells0 (pre ++ [a])).Nodup) := by
        rw [hvals2]
        exact hV
      obtain ⟨cells1, t1, heq, hF3, hM3⟩ :=
        ih (pre ++ [a]) hfull2 _ _ _ hF2 hM2 hV2
      exact ⟨cells1, t1, by rw [hstep, heq], hF3, hM3⟩

theorem checkAddrs_group (cells0 : List Cell) (t0 : List Bool) (valid0 : Bool)
    (addrs : List Nat) (hnd : addrs.Nodup)
    (hb : ∀ a ∈ addrs, a < cells0.length)
    (hvv : ∀ a ∈ addrs, ∀ v : Nat, solvedValAt cells0 a = some v → v < t0.length)
    (ht0 : ∀ a ∈ addrs, ∀ v : Nat, solvedValAt cells0 a = some v → t0.getD v false = false) :
    ∃ cells1 t1,
      checkAddrs cells0 t0 valid0 addrs =
        some (cells1, t1, valid0 && decide (groupVals cells0 addrs).Nodup) ∧
      FlagSpec cells0 (IsRepeatAt cells0 addrs) cells1 ∧
      MarkSpec t0 (groupVals cells0 addrs) t1 :=
  checkAddrs_spec cells0 t0 valid0 addrs hnd hb hvv ht0 addrs [] rfl
    cells0 t0 valid0 (flagSpec_init cells0) (markSpec_init t0) (by simp [groupVals])

theorem resetFirst_some (t : List Bool) (states : Nat) (h : states ≤ t.length) :
    ∃ t0, resetFirst t states = some t0 ∧ t0.length = t.length ∧
      ∀ v : Nat, v < states → t0.getD v false = false := by
  refine ⟨(List.range t.length).map
      (fun i => if i < states then false else t.getD i false), ?_, by simp, ?_⟩
  · unfold resetFirst
    rw [if_pos h]
  · intro v hv
    have hvl : v < t.length := by omega
    rw [List.getD_eq_getElem?_getD, List.getElem?_map, List.getElem?_range hvl]
    simp [hv]

theorem getD_cellSS_eq (cells ds : List Cell)
    (h : ∀ i : Nat, (cells[i]?).map cellSS = (ds[i]?).map cellSS) (y : Nat) :
    (cells.getD y dCell).solved = (ds.getD y dCell).solved ∧
    (cells.getD y dCell).solution = (ds.getD y dCell).solution := by
  have hy := h y
  cases hc : cells[y]? with
  | none =>
    cases hd : ds[y]? with
    | none =>
      rw [List.getD_eq_getElem?_getD, List.getD_eq_getElem?_getD, hc, hd]
      exact ⟨rfl, rfl⟩
    | some d =>
      rw [hc, hd] at hy
      exact Option.noConfusion hy
  | some c =>
    cases hd : ds[y]? with
    | none =>
      rw [hc, hd] at hy
      exact Option.noConfusion hy
    | some d =>
      rw [hc, hd] at hy
      have hss := Option.some.inj hy
      rw [List.getD_eq_getElem?_getD, List.getD_eq_getElem?_getD, hc, hd]
      exact ⟨congrArg Prod.fst hss, congrArg Prod.snd hss⟩

theorem isRepeatAt_congr (cells ds : List Cell)
    (h : ∀ i : Nat, (cells[i]?).map cellSS = (ds[i]?).map cellSS)
    (hlen : cells.length = ds.length) (gr : List Nat) (x : Nat) :
    IsRepeatAt cells gr x ↔ IsRepeatAt ds gr x := by
  obtain ⟨hs, hsol⟩ := getD_cellSS_eq cells ds h x
  unfold IsRepeatAt
  rw [hlen, hs, hsol]
  constructor <;> rintro ⟨hx, hsv, j, hj, hja, hm⟩ <;>
    exact ⟨hx, hsv, j, hj, hja, by rw [groupVals_congr cells ds h] at *; exact hm⟩

theorem checkGroups_cons (states : Nat) (cells : List Cell) (t : List Bool) (valid : Bool)
    (addrs : List Nat) (rest : List (List Nat)) :
    checkGroups states cells t valid (addrs :: rest) =
      match resetFirst t states with
      | none => none
      | some t0 =>
        match checkAddrs cells t0 valid addrs with
        | none => none
        | some (cells1, t1, valid1) => checkGroups states cells1 t1 valid1 rest := rfl

theorem checkGroups_spec (states L : Nat) (cells0 : List Cell) (hsl : states ≤ L) :
    ∀ (gs : List (List Nat)),
      (∀ gr ∈ gs, gr.Nodup) →
      (∀ gr ∈ gs, ∀ a ∈ gr, a < cells0.length) →
      (∀ gr ∈ gs, ∀ a ∈ gr, ∀ v : Nat, solvedValAt cells0 a = some v → v < states) →
    ∀ (S : Nat → Prop) (cells : List Cell) (t : List Bool) (valid : Bool),
      FlagSpec cells0 S cells →
      t.length = L →
      ∃ cells1 t1,
        checkGroups states cells t valid gs =
          some (cells1, t1, valid && decide (∀ gr ∈ gs, (groupVals cells0 gr).Nodup)) ∧
        FlagSpec cells0 (fun i => S i ∨ ∃ gr ∈ gs, IsRepeatAt cells0 gr i) cells1 ∧
        t1.length = L := by
  intro gs
  induction gs with
  | nil =>
    intro _ _ _ S cells t valid hF htl
    refine ⟨cells, t, by simp [checkGroups], ?_, htl⟩
    exact flagSpec_congr cells0 S _ cells (fun i => by simp) hF
  | cons gr rest ih =>
    intro hnd hb hvv S cells t valid hF htl
    obtain ⟨t0, hrt0, ht0len, ht0lt⟩ := resetFirst_some t states (by omega)
    have hcss : ∀ i : Nat, (cells[i]?).map cellSS = (cells0[i]?).map cellSS :=
      flagSpec_cellSS cells0 S cells hF
    have hsvc : ∀ a : Nat, solvedValAt cells a = solvedValAt cells0 a :=
      solvedValAt_congr _ _ hcss
    have hgvc : ∀ l, groupVals cells l = groupVals cells0 l :=
      fun l => groupVals_congr _ _ hcss l
    have hb2 : ∀ a ∈ gr, a < cells.length := by
      intro a ha
      rw [hF.1]
      exact hb gr (by simp) a ha
    have hvv2 : ∀ a ∈ gr, ∀ v : Nat, solvedValAt cells a = some v → v < t0.length := by
      intro a ha v hv
      rw [hsvc a] at hv
      have hvs := hvv gr (by simp) a ha v hv
      omega
    have ht02 : ∀ a ∈ gr, ∀ v : Nat, solvedValAt cells a = some v → t0.getD v false = false := by
      intro a ha v hv
      rw [hsvc a] at hv
      exact ht0lt v (hvv gr (by simp) a ha v hv)
    obtain ⟨cellsA, tA, heqA, hFA, hMA⟩ :=
      checkAddrs_group cells t0 valid gr (hnd gr (by simp)) hb2 hvv2 ht02
    have hstep : checkGroups states cells t valid (gr :: rest) =
        checkGroups states cellsA tA (valid && decide (groupVals cells gr).Nodup) rest := by
      rw [checkGroups_cons, hrt0]
      simp only [heqA]
    have hFA2 : FlagSpec cells0 (fun i => S i ∨ IsRepeatAt cells0 gr i) cellsA := by
      have hcomp : FlagSpec cells0 (fun i => S i ∨ IsRepeatAt cells gr i) cellsA := by
        obtain ⟨hl1, hp1⟩ := hF
        obtain ⟨hl2, hp2⟩ := hFA
        refine ⟨by rw [hl2, hl1], fun i c hc => ?_⟩
        have hi : i < cells0.length := lt_length_of_getElem?_some hc
        obtain ⟨cI, hcI⟩ : ∃ cI, cells[i]? = some cI :=
          ⟨_, List.getElem?_eq_getElem (by omega : i < cells.length)⟩
        obtain ⟨hq1, hq2⟩ := hp1 i c hc
        obtain ⟨hr1, hr2⟩ := hp2 i cI hcI
        by_cases hrep : IsRepeatAt cells gr i
        · have hcI2 : cells[i]? = some ({ c with highlight := 2 }) ∨ cells[i]? = some c := by
            by_cases hSi : S i
            · exact Or.inl (hq1 hSi)
            · exact Or.inr (hq2 hSi)
          constructor
          · intro _
            rcases hcI2 with hx | hx
            · have hcc : cI = { c with highlight := 2 } :=
                Option.some.inj (hcI.symm.trans hx)
              rw [hr1 hrep, hcc]
            · have hcc : cI = c := Option.some.inj (hcI.symm.trans hx)
              rw [hr1 hrep, hcc]
          · intro hn
            exact absurd (Or.inr hrep) hn
        · constructor
          · rintro (hSi | hri)
            · have hcc : cI = { c with highlight := 2 } :=
                Option.some.inj (hcI.symm.trans (hq1 hSi))
              rw [hr2 hrep, hcc]
            · exact absurd hri hrep
          · intro hn
            have hSn : ¬ S i := fun hSi => hn (Or.inl hSi)
            have hcc : cI = c := Option.some.inj (hcI.symm.trans (hq2 hSn))
            rw [hr2 hrep, hcc]
      refine flagSpec_congr cells0 _ _ cellsA (fun i => ?_) hcomp
      rw [isRepeatAt_congr cells cells0 hcss hF.1 gr i]
    obtain ⟨cells1, t1, heq1, hF1, ht1⟩ :=
      ih (fun g hg => hnd g (by simp [hg])) (fun g hg => hb g (by simp [hg]))
        (fun g hg => hvv g (by simp [hg])) _ cellsA tA
        (valid && decide (groupVals cells gr).Nodup) hFA2
        (by rw [hMA.1, ht0len, htl])
    refine ⟨cells1, t1, ?_, ?_, ht1⟩
    · rw [hstep, heq1]
      have hiff : (∀ g ∈ gr :: rest, (groupVals cells0 g).Nodup) ↔
          ((groupVals cells0 gr).Nodup ∧ ∀ g ∈ rest, (groupVals cells0 g).Nodup) := by
        constructor
        · intro hall
          exact ⟨hall gr (by simp), fun g hg => hall g (by simp [hg])⟩
        · rintro ⟨h1, h2⟩ g hg
          rcases List.mem_cons.mp hg with rfl | hgr
          · exact h1
          · exact h2 g hgr
      have hvalid : ((valid && decide (groupVals cells gr).Nodup) &&
          decide (∀ g ∈ rest, (groupVals cells0 g).Nodup)) =
          (valid && decide (∀ g ∈ gr :: rest, (groupVals cells0 g).Nodup)) := by
        rw [hgvc gr]
        by_cases h1 : (groupVals cells0 gr).Nodup <;>
          by_cases h2 : ∀ g ∈ rest, (groupVals cells0 g).Nodup <;>
            simp [h1, h2, hiff, Bool.and_assoc]
      rw [hvalid]
    · refine flagSpec_congr cells0 _ _ cells1 (fun i => ?_) hF1
      constructor
      · rintro ((hSi | hri) | ⟨g, hg, hri⟩)
        · exact Or.inl hSi
        · exact Or.inr ⟨gr, by simp, hri⟩
        · exact Or.inr ⟨g, by simp [hg], hri⟩
      · rintro (hSi | ⟨g, hg, hri⟩)
        · exact Or.inl (Or.inl hSi)
        · rcases List.mem_cons.mp hg with rfl | hgr
          · exact Or.inl (Or.inr hri)
          · exact Or.inr ⟨g, hgr, hri⟩

theorem mem_of_getElem?_some {α : Type} {l : List α} {i : Nat} {a : α}
    (h : l[i]? = some a) : a ∈ l := by
  have hi : i < l.length := lt_length_of_getElem?_some h
  rw [List.getElem?_eq_getElem hi] at h
  exact (Option.some.inj h) ▸ List.getElem_mem hi

theorem rowAddrs_nodup (s y : Nat) : (rowAddrs s y).Nodup := by
  unfold rowAddrs
  exact (List.nodup_range s).map (fun a b h => by omega)

theorem colAddrs_nodup (s x : Nat) : (colAddrs s x).Nodup := by
  unfold colAddrs
  rcases Nat.eq_zero_or_pos s with hs | hs
  · subst hs
    simp
  · refine (List.nodup_range s).map (fun a b h => ?_)
    have h2 : a * s = b * s := by omega
    exact Nat.eq_of_mul_eq_mul_right hs h2

theorem blockAddrs_nodup (s bw b : Nat) (hbw : bw * bw = s) : (blockAddrs s bw b).Nodup := by
  unfold blockAddrs
  rcases Nat.eq_zero_or_pos bw with hbw0 | hbw0
  · subst hbw0
    simp
  · have hbws : bw ≤ s := by nlinarith
    rw [List.nodup_flatten]
    constructor
    · intro l hl
      obtain ⟨y, hy, rfl⟩ := List.mem_map.mp hl
      exact (List.nodup_range bw).map (fun a c h => by omega)
    · rw [List.pairwise_map]
      refine (List.pairwise_lt_range bw).imp ?_
      intro y1 y2 hylt v hv1 hv2
      obtain ⟨x1, hx1, he1⟩ := List.mem_map.mp hv1
      obtain ⟨x2, hx2, he2⟩ := List.mem_map.mp hv2
      rw [List.mem_range] at hx1 hx2
      have hx1s : x1 < s := by omega
      have hx2s : x2 < s := by omega
      have : x1 + y1 * s = x2 + y2 * s := by omega
      have hyy : y1 = y2 := by
        rcases Nat.lt_trichotomy y1 y2 with hlt | heq | hgt
        · nlinarith
        · exact heq
        · nlinarith
      omega

theorem rowAddrs_lt (s y : Nat) (hy : y < s) : ∀ a ∈ rowAddrs s y, a < s * s := by
  intro a ha
  obtain ⟨x, hx, rfl⟩ := List.mem_map.mp ha
  rw [List.mem_range] at hx
  nlinarith

theorem colAddrs_lt (s x : Nat) (hx : x < s) : ∀ a ∈ colAddrs s x, a < s * s := by
  intro a ha
  obtain ⟨y, hy, rfl⟩ := List.mem_map.mp ha
  rw [List.mem_range] at hy
  nlinarith

theorem blockAddrs_lt (s bw b : Nat) (hbw : bw * bw = s) (hb : b < s) :
    ∀ a ∈ blockAddrs s bw b, a < s * s := by
  intro a ha
  unfold blockAddrs at ha
  rw [List.mem_flatten] at ha
  obtain ⟨l, hl, hal⟩ := ha
  obtain ⟨y, hy, rfl⟩ := List.mem_map.mp hl
  obtain ⟨x, hx, rfl⟩ := List.mem_map.mp hal
  rw [List.mem_range] at hy hx
  have hbw0 : 0 < bw := by omega
  have h1 : b % bw < bw := Nat.mod_lt b hbw0
  have h2 : b / bw < bw := by
    rw [Nat.div_lt_iff_lt_mul hbw0]
    omega
  have h3 : b % bw * bw + x < s := by
    rw [← hbw]
    nlinarith
  have h4 : (b / bw * bw + y + 1) * s ≤ (bw * bw) * s :=
    Nat.mul_le_mul_right s (by nlinarith)
  have h5 : (b / bw * bw + y) * s + s ≤ s * s := by
    rw [hbw] at h4
    nlinarith [h4]
  nlinarith [h3, h5]

theorem allGroups_props (g : Grid) (hwf : g.wf) :
    (∀ gr ∈ g.allGroups, gr.Nodup) ∧
    (∀ gr ∈ g.allGroups, ∀ a ∈ gr, a < g.cells.length) ∧
    (∀ gr ∈ g.allGroups, ∀ a ∈ gr, ∀ v : Nat, solvedValAt g.cells a = some v → v < g.states) := by
  obtain ⟨hs9, hi3, hisq, hlen, hvals⟩ := hwf
  refine ⟨?_, ?_, ?_⟩
  · intro gr hgr
    unfold Grid.allGroups at hgr
    rw [List.mem_append, List.mem_append] at hgr
    rcases hgr with (hr | hc) | hb
    · obtain ⟨y, _, rfl⟩ := List.mem_map.mp hr
      exact rowAddrs_nodup g.states y
    · obtain ⟨x, _, rfl⟩ := List.mem_map.mp hc
      exact colAddrs_nodup g.states x
    · obtain ⟨b, _, rfl⟩ := List.mem_map.mp hb
      exact blockAddrs_nodup g.states g.isqrt b hisq
  · intro gr hgr a ha
    rw [hlen]
    unfold Grid.allGroups at hgr
    rw [List.mem_append, List.mem_append] at hgr
    rcases hgr with (hr | hc) | hb
    · obtain ⟨y, hy, rfl⟩ := List.mem_map.mp hr
      exact rowAddrs_lt g.states y (List.mem_range.mp hy) a ha
    · obtain ⟨x, hx, rfl⟩ := List.mem_map.mp hc
      exact colAddrs_lt g.states x (List.mem_range.mp hx) a ha
    · obtain ⟨b, hbm, rfl⟩ := List.mem_map.mp hb
      exact blockAddrs_lt g.states g.isqrt b hisq (List.mem_range.mp hbm) a ha
  · intro gr hgr a ha v hv
    cases hc : g.cells[a]? with
    | none => simp [solvedValAt, hc] at hv
    | some c =>
      by_cases hs : c.solved = true
      · simp [solvedValAt, hc, hs] at hv
        exact hv ▸ hvals c (mem_of_getElem?_some hc) hs
      · simp [solvedValAt, hc, hs] at hv

theorem validate_spec (g : Grid) (hwf : g.wf) :
    ∃ cells1,
      g.validate = some ({ g with cells := cells1 },
        decide (∀ gr ∈ g.allGroups, (groupVals g.cells gr).Nodup)) ∧
      FlagSpec g.cells (Grid.RepeatAny g) cells1 := by
  obtain ⟨hnd, hb, hvv⟩ := allGroups_props g hwf
  have hFinit : FlagSpec g.cells (fun _ => False) g.cells :=
    ⟨rfl, fun i c hc => ⟨False.elim, fun _ => hc⟩⟩
  obtain ⟨cells1, t1, heq, hF, _⟩ :=
    checkGroups_spec g.states MAXSTATES g.cells hwf.1 g.allGroups hnd hb hvv
      (fun _ => False) g.cells (List.replicate MAXSTATES false) true hFinit (by simp)
  refine ⟨cells1, ?_, ?_⟩
  · unfold Grid.validate
    rw [heq]
    simp
  · refine flagSpec_congr g.cells _ _ cells1 (fun i => ?_) hF
    unfold Grid.RepeatAny
    simp

theorem not_nodup_of_isRepeatAt (cells : List Cell) (gr : List Nat) (x : Nat)
    (h : IsRepeatAt cells gr x) : ¬ (groupVals cells gr).Nodup := by
  obtain ⟨hx, hs, j, hj, hja, hm⟩ := h
  intro hnd
  obtain ⟨c, hc⟩ : ∃ c, cells[x]? = some c := ⟨_, List.getElem?_eq_getElem hx⟩
  have hgd : cells.getD x dCell = c := getD_of_getElem?_some dCell hc
  rw [hgd] at hs hm
  have hsv : solvedValAt cells x = some c.solution := by
    simp [solvedValAt, hc, hs]
  have hsplit : gr = gr.take j ++ gr.drop j := (List.take_append_drop j gr).symm
  have hdrop : gr.drop j = x :: gr.drop (j + 1) := by
    rw [List.drop_eq_getElem_cons hj]
    congr 1
    rw [← hja, List.getD_eq_getElem?_getD, List.getElem?_eq_getElem hj]
    rfl
  rw [hsplit, groupVals_append, hdrop, groupVals_cons, hsv] at hnd
  obtain ⟨_, _, hdisj⟩ := List.nodup_append.mp hnd
  exact hdisj hm (by simp)



/-- C3: for a well-formed grid the Validator returns true exactly when no row,
column or block holds two equal solved values; on a duplicate-free grid it
changes nothing at all (in particular it flags no cell). -/
theorem C3_validator_iff (g : Grid) (hwf : g.wf) :
    ∃ g2 v, g.validate = some (g2, v) ∧
      (v = true ↔ ∀ gr ∈ g.allGroups, (groupVals g.cells gr).Nodup) ∧
      (v = true → g2 = g) := by
  obtain ⟨cells1, heq, hF⟩ := validate_spec g hwf
  refine ⟨_, _, heq, ?_, ?_⟩
  · exact decide_eq_true_iff
  · intro hv
    have hall : ∀ gr ∈ g.allGroups, (groupVals g.cells gr).Nodup := of_decide_eq_true hv
    have hnorep : ∀ i, ¬ g.RepeatAny i := by
      rintro i ⟨gr, hgr, hrep⟩
      exact not_nodup_of_isRepeatAt g.cells gr i hrep (hall gr hgr)
    have hcells : cells1 = g.cells := by
      apply List.ext_getElem?
      intro i
      by_cases hi : i < g.cells.length
      · obtain ⟨c, hc⟩ : ∃ c, g.cells[i]? = some c := ⟨_, List.getElem?_eq_getElem hi⟩
        rw [(hF.2 i c hc).2 (hnorep i), hc]
      · rw [List.getElem?_eq_none (by rw [hF.1]; omega), List.getElem?_eq_none (by omega)]
    rw [hcells]

theorem C3_validator_iff_witness :
    ∃ g2 v, demoRowGrid.validate = some (g2, v) ∧
      (v = true ↔ ∀ gr ∈ demoRowGrid.allGroups, (groupVals demoRowGrid.cells gr).Nodup) ∧
      (v = true → g2 = demoRowGrid) :=
  C3_validator_iff demoRowGrid (by decide)

/-- C4: a single Validator pass never short-circuits: every repeated
occurrence in every row, column and block of a well-formed grid ends up with
the conflict highlight, while cells that repeat nowhere are unchanged, and
the grid's status, name and dimension fields as well as every cell's solved
flag and solution are untouched. -/
theorem C4_validator_exhaustive (g : Grid) (hwf : g.wf) (g2 : Grid) (v : Bool)
    (h : g.validate = some (g2, v)) :
    g2.name = g.name ∧ g2.state_dict = g.state_dict ∧ g2.status = g.status ∧
    g2.states = g.states ∧ g2.isqrt = g.isqrt ∧ g2.size = g.size ∧
    g2.symbols = g.symbols ∧ g2.cells.length = g.cells.length ∧
    ∀ i : Nat, ∀ c, g.cells[i]? = some c →
      (g.RepeatAny i → g2.cells[i]? = some ({ c with highlight := 2 })) ∧
      (¬ g.RepeatAny i → g2.cells[i]? = some c) := by
  obtain ⟨cells1, heq, hF⟩ := validate_spec g hwf
  rw [heq] at h
  have h2 := Option.some.inj h
  have hg2 : g2 = { g with cells := cells1 } := (congrArg Prod.fst h2).symm
  subst hg2
  exact ⟨rfl, rfl, rfl, rfl, rfl, rfl, rfl, hF.1, hF.2⟩

theorem C4_validator_exhaustive_witness :
    demoDupGridV.name = demoDupGrid.name ∧
    demoDupGridV.state_dict = demoDupGrid.state_dict ∧
    demoDupGridV.status = demoDupGrid.status ∧
    demoDupGridV.states = demoDupGrid.states ∧
    demoDupGridV.isqrt = demoDupGrid.isqrt ∧
    demoDupGridV.size = demoDupGrid.size ∧
    demoDupGridV.symbols = demoDupGrid.symbols ∧
    demoDupGridV.cells.length = demoDupGrid.cells.length ∧
    ∀ i : Nat, ∀ c, demoDupGrid.cells[i]? = some c →
      (demoDupGrid.RepeatAny i → demoDupGridV.cells[i]? = some ({ c with highlight := 2 })) ∧
      (¬ demoDupGrid.RepeatAny i → demoDupGridV.cells[i]? = some c) :=
  C4_validator_exhaustive demoDupGrid (by decide) demoDupGridV false (by decide)

theorem mem_groupVals (cells : List Cell) (addrs : List Nat) (a v : Nat)
    (ha : a ∈ addrs) (hv : solvedValAt cells a = some v) : v ∈ groupVals cells addrs :=
  List.mem_filterMap.mpr ⟨a, ha, hv⟩

theorem two_mem_not_nodup (cells : List Cell) (v : Nat) :
    ∀ (addrs : List Nat) (a1 a2 : Nat), addrs.Nodup → a1 ∈ addrs → a2 ∈ addrs → a1 ≠ a2 →
      solvedValAt cells a1 = some v → solvedValAt cells a2 = some v →
      ¬ (groupVals cells addrs).Nodup := by
  intro addrs
  induction addrs with
  | nil =>
    intro a1 a2 _ h1 _ _ _ _
    simp at h1
  | cons a rest ih =>
    intro a1 a2 hnd h1 h2 hne hv1 hv2 hgnd
    have hndr : rest.Nodup := (List.nodup_cons.mp hnd).2
    rcases List.mem_cons.mp h1 with rfl | h1r
    · have h2r : a2 ∈ rest := by
        rcases List.mem_cons.mp h2 with h | h
        · exact absurd h.symm hne
        · exact h
      rw [groupVals_cons, hv1] at hgnd
      exact (List.nodup_cons.mp hgnd).1 (mem_groupVals cells rest a2 v h2r hv2)
    · rcases List.mem_cons.mp h2 with rfl | h2r
      · rw [groupVals_cons, hv2] at hgnd
        exact (List.nodup_cons.mp hgnd).1 (mem_groupVals cells rest a1 v h1r hv1)
      · refine ih a1 a2 hndr h1r h2r hne hv1 hv2 ?_
        rw [groupVals_cons] at hgnd
        cases hsv : solvedValAt cells a with
        | none => rw [hsv] at hgnd; exact hgnd
        | some w => rw [hsv] at hgnd; exact (List.nodup_cons.mp hgnd).2

theorem countP_range_mem (n : Nat) (V : List Nat) (hnd : V.Nodup)
    (hlt : ∀ v ∈ V, v < n) :
    (List.range n).countP (fun v => decide (v ∈ V)) = V.length := by
  rw [List.countP_eq_length_filter]
  have hperm : List.Perm ((List.range n).filter (fun v => decide (v ∈ V))) V := by
    rw [List.perm_ext_iff_of_nodup ((List.nodup_range n).filter _) hnd]
    intro a
    rw [List.mem_filter, List.mem_range]
    constructor
    · rintro ⟨_, hm⟩
      exact of_decide_eq_true hm
    · intro hm
      exact ⟨hlt a hm, decide_eq_true hm⟩
  exact hperm.length_eq

theorem gridPairs_mem (n : Nat) (p : Nat × Nat) :
    p ∈ gridPairs n ↔ p.1 < n ∧ p.2 < n := by
  unfold gridPairs
  rw [List.mem_flatten]
  constructor
  · rintro ⟨l, hl, hpl⟩
    obtain ⟨r, hr, rfl⟩ := List.mem_map.mp hl
    obtain ⟨c, hc, rfl⟩ := List.mem_map.mp hpl
    exact ⟨List.mem_range.mp hr, List.mem_range.mp hc⟩
  · rintro ⟨h1, h2⟩
    refine ⟨(List.range n).map (fun col => (p.1, col)), ?_, ?_⟩
    · exact List.mem_map.mpr ⟨p.1, List.mem_range.mpr h1, rfl⟩
    · exact List.mem_map.mpr ⟨p.2, List.mem_range.mpr h2, by simp⟩

theorem gridPairs_nodup (n : Nat) : (gridPairs n).Nodup := by
  unfold gridPairs
  rw [List.nodup_flatten]
  constructor
  · intro l hl
    obtain ⟨r, hr, rfl⟩ := List.mem_map.mp hl
    exact (List.nodup_range n).map (fun a b h => by
      have := congrArg Prod.snd h
      simpa using this)
  · rw [List.pairwise_map]
    refine (List.pairwise_lt_range n).imp ?_
    intro r1 r2 hlt p hp1 hp2
    obtain ⟨c1, _, rfl⟩ := List.mem_map.mp hp1
    obtain ⟨c2, _, he⟩ := List.mem_map.mp hp2
    have := congrArg Prod.fst he
    simp at this
    omega

theorem mapSpec_congr (m1 m2 : Nat → Nat → Prop) (m : List (List Bool))
    (hiff : ∀ r v, r < MAXSTATES → v < MAXSTATES → (m1 r v ↔ m2 r v))
    (h : MapSpec m1 m) : MapSpec m2 m := by
  obtain ⟨hl, hp⟩ := h
  refine ⟨hl, fun r hr => ?_⟩
  obtain ⟨mr, h1, h2, h3⟩ := hp r hr
  exact ⟨mr, h1, h2, fun v hv => (h3 v hv).trans (hiff r v hr hv)⟩

theorem mapSpec_init (mark : Nat → Nat → Prop)
    (hm : ∀ r v, r < MAXSTATES → v < MAXSTATES → ¬ mark r v) :
    MapSpec mark (List.replicate MAXSTATES (List.replicate MAXSTATES false)) := by
  refine ⟨by simp, fun r hr => ?_⟩
  refine ⟨List.replicate MAXSTATES false, ?_, by simp, fun v hv => ?_⟩
  · rw [List.getElem?_replicate]
    simp [hr]
  · constructor
    · intro hg
      rw [List.getD_eq_getElem?_getD, List.getElem?_replicate] at hg
      simp [hv] at hg
    · intro hmk
      exact absurd hmk (hm r v hr hv)

theorem mapSpec_set (mark : Nat → Nat → Prop) (m : List (List Bool))
    (h : MapSpec mark m) (row v : Nat) (hr : row < MAXSTATES) (hv : v < MAXSTATES)
    (mr : List Bool) (hmr : m[row]? = some mr) :
    MapSpec (fun r w => mark r w ∨ (r = row ∧ w = v)) (m.set row (mr.set v true)) := by
  obtain ⟨hl, hp⟩ := h
  obtain ⟨mr2, hmr2, hmrl2, hmrp2⟩ := hp row hr
  have hmreq : mr2 = mr := Option.some.inj (hmr2.symm.trans hmr)
  have hmrl : mr.length = MAXSTATES := hmreq ▸ hmrl2
  have hmrp : ∀ v2 : Nat, v2 < MAXSTATES → (mr.getD v2 false = true ↔ mark row v2) :=
    hmreq ▸ hmrp2
  refine ⟨by simpa using hl, fun r hrr => ?_⟩
  by_cases hre : row = r
  · subst hre
    refine ⟨mr.set v true, ?_, by simpa using hmrl, fun w hw => ?_⟩
    · exact List.getElem?_set_eq_of_lt _ (lt_length_of_getElem?_some hmr)
    · by_cases hwv : v = w
      · subst hwv
        rw [getD_set_self _ _ _ _ (by omega)]
        simp
      · rw [getD_set_ne _ _ _ _ _ hwv]
        rw [hmrp w hw]
        constructor
        · exact fun hm2 => Or.inl hm2
        · rintro (hm2 | ⟨_, hwv2⟩)
          · exact hm2
          · exact absurd hwv2.symm hwv
  · obtain ⟨mrr, h1, h2, h3⟩ := hp r hrr
    refine ⟨mrr, ?_, h2, fun w hw => ?_⟩
    · rw [List.getElem?_set_ne hre]
      exact h1
    · rw [h3 w hw]
      constructor
      · exact fun hm2 => Or.inl hm2
      · rintro (hm2 | ⟨hre2, _⟩)
        · exact hm2
        · exact absurd hre2.symm hre

theorem rowMark_append (cells : List Cell) (n : Nat) (pre : List (Nat × Nat))
    (p0 : Nat × Nat) (r w : Nat) :
    RowMark cells n (pre ++ [p0]) r w ↔
      RowMark cells n pre r w ∨
        (p0.1 = r ∧ solvedValAt cells (p0.1 * n + p0.2) = some w) := by
  unfold RowMark
  constructor
  · rintro ⟨p, hp, h1, h2⟩
    rcases List.mem_append.mp hp with hl | hr
    · exact Or.inl ⟨p, hl, h1, h2⟩
    · have : p = p0 := by simpa using hr
      subst this
      exact Or.inr ⟨h1, h2⟩
  · rintro (⟨p, hp, h1, h2⟩ | ⟨h1, h2⟩)
    · exact ⟨p, List.mem_append.mpr (Or.inl hp), h1, h2⟩
    · exact ⟨p0, List.mem_append.mpr (Or.inr (by simp)), h1, h2⟩

theorem colMark_append (cells : List Cell) (n : Nat) (pre : List (Nat × Nat))
    (p0 : Nat × Nat) (r w : Nat) :
    ColMark cells n (pre ++ [p0]) r w ↔
      ColMark cells n pre r w ∨
        (p0.2 = r ∧ solvedValAt cells (p0.1 * n + p0.2) = some w) := by
  unfold ColMark
  constructor
  · rintro ⟨p, hp, h1, h2⟩
    rcases List.mem_append.mp hp with hl | hr
    · exact Or.inl ⟨p, hl, h1, h2⟩
    · have : p = p0 := by simpa using hr
      subst this
      exact Or.inr ⟨h1, h2⟩
  · rintro (⟨p, hp, h1, h2⟩ | ⟨h1, h2⟩)
    · exact ⟨p, List.mem_append.mpr (Or.inl hp), h1, h2⟩
    · exact ⟨p0, List.mem_append.mpr (Or.inr (by simp)), h1, h2⟩

theorem buildMapsGo_cons (cells : List Cell) (n : Nat) (rt ct : List (List Bool))
    (row col : Nat) (rest : List (Nat × Nat)) :
    buildMapsGo cells n rt ct ((row, col) :: rest) =
      match cells[row * n + col]? with
      | none => none
      | some c =>
        if c.solved then
          match rt[row]? with
          | none => none
          | some rrow =>
            match rrow[c.solution]? with
            | none => none
            | some rb =>
              match ct[col]? with
              | none => none
              | some crow =>
                match crow[c.solution]? with
                | none => none
                | some cb =>
                  if rb || cb then none
                  else
                    buildMapsGo cells n (rt.set row (rrow.set c.solution true))
                      (ct.set col (crow.set c.solution true)) rest
        else buildMapsGo cells n rt ct rest := rfl

theorem mem_rowAddrs (n r a : Nat) : a ∈ rowAddrs n r ↔ ∃ x, x < n ∧ a = r * n + x := by
  unfold rowAddrs
  rw [List.mem_map]
  constructor
  · rintro ⟨x, hx, rfl⟩
    exact ⟨x, List.mem_range.mp hx, rfl⟩
  · rintro ⟨x, hx, rfl⟩
    exact ⟨x, List.mem_range.mpr hx, rfl⟩

theorem mem_colAddrs (n c a : Nat) : a ∈ colAddrs n c ↔ ∃ y, y < n ∧ a = c + y * n := by
  unfold colAddrs
  rw [List.mem_map]
  constructor
  · rintro ⟨y, hy, rfl⟩
    exact ⟨y, List.mem_range.mp hy, rfl⟩
  · rintro ⟨y, hy, rfl⟩
    exact ⟨y, List.mem_range.mpr hy, rfl⟩

theorem buildMapsGo_spec (cells : List Cell) (n : Nat) (hn9 : n ≤ MAXSTATES)
    (full : List (Nat × Nat)) (hnd : full.Nodup)
    (hcomp : ∀ p ∈ full, p.1 < n ∧ p.2 < n)
    (hb : ∀ p ∈ full, p.1 * n + p.2 < cells.length)
    (hsol : ∀ p ∈ full, ∀ v : Nat, solvedValAt cells (p.1 * n + p.2) = some v → v < n)
    (hrows : ∀ r, r < n → (groupVals cells (rowAddrs n r)).Nodup)
    (hcols : ∀ c, c < n → (groupVals cells (colAddrs n c)).Nodup) :
    ∀ (rest pre : List (Nat × Nat)), full = pre ++ rest →
    ∀ (rt ct : List (List Bool)),
      MapSpec (RowMark cells n pre) rt → MapSpec (ColMark cells n pre) ct →
      ∃ rt1 ct1, buildMapsGo cells n rt ct rest = some (rt1, ct1) ∧
        MapSpec (RowMark cells n full) rt1 ∧ MapSpec (ColMark cells n full) ct1 := by
  intro rest
  induction rest with
  | nil =>
    intro pre hfull rt ct hR hC
    rw [List.append_nil] at hfull
    subst hfull
    exact ⟨rt, ct, by simp [buildMapsGo], hR, hC⟩
  | cons p0 rest2 ih =>
    intro pre hfull rt ct hR hC
    obtain ⟨row, col⟩ := p0
    have hfull2 : full = (pre ++ [(row, col)]) ++ rest2 := by
      rw [hfull, List.append_assoc]
      rfl
    have hpf : (row, col) ∈ full := by
      rw [hfull]
      simp
    have hrow : row < n := (hcomp _ hpf).1
    have hcol : col < n := (hcomp _ hpf).2
    have hadb : row * n + col < cells.length := hb _ hpf
    obtain ⟨c, hc⟩ : ∃ c, cells[row * n + col]? = some c :=
      ⟨_, List.getElem?_eq_getElem hadb⟩
    have hpnp : (row, col) ∉ pre := by
      intro hmem
      have hnd2 : (pre ++ (row, col) :: rest2).Nodup := hfull ▸ hnd
      exact (List.nodup_append.mp hnd2).2.2 hmem (List.mem_cons_self _ rest2)
    by_cases hsolved : c.solved = true
    · have hsv : solvedValAt cells (row * n + col) = some c.solution := by
        simp [solvedValAt, hc, hsolved]
      have hvn : c.solution < n := hsol _ hpf c.solution hsv
      have hv9 : c.solution < MAXSTATES := by omega
      obtain ⟨rrow, hrrow, hrrowl, hrrowp⟩ := hR.2 row (by omega)
      obtain ⟨crow, hcrow, hcrowl, hcrowp⟩ := hC.2 col (by omega)
      have hrb : rrow.getD c.solution false = false := by
        by_contra hrb
        have hrbT : rrow.getD c.solution false = true := by
          cases hx : rrow.getD c.solution false
          · exact absurd hx hrb
          · rfl
        obtain ⟨p, hp, hp1, hp2⟩ := (hrrowp c.solution hv9).mp hrbT
        have hpfull : p ∈ full := by
          rw [hfull]
          exact List.mem_append.mpr (Or.inl hp)
        have hpcn : p.2 < n := (hcomp p hpfull).2
        have hpne : p.2 ≠ col := by
          intro he
          apply hpnp
          have : p = (row, col) := by
            rcases p with ⟨pa, pb⟩
            simp at hp1 he
            rw [hp1, he]
          exact this ▸ hp
        refine two_mem_not_nodup cells c.solution (rowAddrs n row)
          (p.1 * n + p.2) (row * n + col) (rowAddrs_nodup n row) ?_ ?_ ?_ hp2 hsv
          (hrows row hrow)
        · rw [mem_rowAddrs]
          exact ⟨p.2, hpcn, by rw [hp1]⟩
        · rw [mem_rowAddrs]
          exact ⟨col, hcol, rfl⟩
        · rw [hp1]
          omega
      have hcb : crow.getD c.solution false = false := by
        by_contra hcb
        have hcbT : crow.getD c.solution false = true := by
          cases hx : crow.getD c.solution false
          · exact absurd hx hcb
          · rfl
        obtain ⟨p, hp, hp1, hp2⟩ := (hcrowp c.solution hv9).mp hcbT
        have hpfull : p ∈ full := by
          rw [hfull]
          exact List.mem_append.mpr (Or.inl hp)
        have hprn : p.1 < n := (hcomp p hpfull).1
        have hpne : p.1 ≠ row := by
          intro he
          apply hpnp
          have : p = (row, col) := by
            rcases p with ⟨pa, pb⟩
            simp at hp1 he
            rw [hp1, he]
          exact this ▸ hp
        refine two_mem_not_nodup cells c.solution (colAddrs n col)
          (p.1 * n + p.2) (row * n + col) (colAddrs_nodup n col) ?_ ?_ ?_ hp2 hsv
          (hcols col hcol)
        · rw [mem_colAddrs]
          exact ⟨p.1, hprn, by rw [hp1]; ring⟩
        · rw [mem_colAddrs]
          exact ⟨row, hrow, by ring⟩
        · rw [hp1]
          have h1 : p.1 * n ≠ row * n := by
            intro he
            exact hpne (Nat.eq_of_mul_eq_mul_right (by omega) he)
          omega
      have hrread : rrow[c.solution]? = some (rrow.getD c.solution false) := by
        rw [List.getD_eq_getElem?_getD, List.getElem?_eq_getElem (by omega : c.solution < rrow.length)]
        rfl
      have hcread : crow[c.solution]? = some (crow.getD c.solution false) := by
        rw [List.getD_eq_getElem?_getD, List.getElem?_eq_getElem (by omega : c.solution < crow.length)]
        rfl
      have hstep : buildMapsGo cells n rt ct ((row, col) :: rest2) =
          buildMapsGo cells n (rt.set row (rrow.set c.solution true))
            (ct.set col (crow.set c.solution true)) rest2 := by
        rw [buildMapsGo_cons, hc]
        rw [hrb] at hrread
        rw [hcb] at hcread
        simp [hsolved, hrrow, hcrow, hrread, hcread]
      have hR2 : MapSpec (RowMark cells n (pre ++ [(row, col)]))
          (rt.set row (rrow.set c.solution true)) := by
        refine mapSpec_congr _ _ _ (fun r w hr2 hw2 => ?_)
          (mapSpec_set _ rt hR row c.solution (by omega) hv9 rrow hrrow)
        rw [rowMark_append]
        constructor
        · rintro (hm | ⟨h1, h2⟩)
          · exact Or.inl hm
          · subst h1
            subst h2
            exact Or.inr ⟨rfl, hsv⟩
        · rintro (hm | ⟨h1, h2⟩)
          · exact Or.inl hm
          · simp only at h1 h2
            subst h1
            rw [hsv] at h2
            exact Or.inr ⟨rfl, (Option.some.inj h2).symm⟩
      have hC2 : MapSpec (ColMark cells n (pre ++ [(row, col)]))
          (ct.set col (crow.set c.solution true)) := by
        refine mapSpec_congr _ _ _ (fun r w hr2 hw2 => ?_)
          (mapSpec_set _ ct hC col c.solution (by omega) hv9 crow hcrow)
        rw [colMark_append]
        constructor
        · rintro (hm | ⟨h1, h2⟩)
          · exact Or.inl hm
          · subst h1
            subst h2
            exact Or.inr ⟨rfl, hsv⟩
        · rintro (hm | ⟨h1, h2⟩)
          · exact Or.inl hm
          · simp only at h1 h2
            subst h1
            rw [hsv] at h2
            exact Or.inr ⟨rfl, (Option.some.inj h2).symm⟩
      obtain ⟨rt1, ct1, heq, hR3, hC3⟩ := ih (pre ++ [(row, col)]) hfull2 _ _ hR2 hC2
      exact ⟨rt1, ct1, by rw [hstep, heq], hR3, hC3⟩
    · have hsv : solvedValAt cells (row * n + col) = none := by
        simp [solvedValAt, hc, hsolved]
      have hstep : buildMapsGo cells n rt ct ((row, col) :: rest2) =
          buildMapsGo cells n rt ct rest2 := by
        rw [buildMapsGo_cons, hc]
        simp [hsolved]
      have hR2 : MapSpec (RowMark cells n (pre ++ [(row, col)])) rt := by
        refine mapSpec_congr _ _ _ (fun r w hr2 hw2 => ?_) hR
        rw [rowMark_append]
        constructor
        · exact Or.inl
        · rintro (hm | ⟨h1, h2⟩)
          · exact hm
          · simp only at h1 h2
            subst h1
            rw [hsv] at h2
            exact Option.noConfusion h2
      have hC2 : MapSpec (ColMark cells n (pre ++ [(row, col)])) ct := by
        refine mapSpec_congr _ _ _ (fun r w hr2 hw2 => ?_) hC
        rw [colMark_append]
        constructor
        · exact Or.inl
        · rintro (hm | ⟨h1, h2⟩)
          · exact hm
          · simp only at h1 h2
            subst h1
            rw [hsv] at h2
            exact Option.noConfusion h2
      obtain ⟨rt1, ct1, heq, hR3, hC3⟩ := ih (pre ++ [(row, col)]) hfull2 _ _ hR2 hC2
      exact ⟨rt1, ct1, by rw [hstep, heq], hR3, hC3⟩

theorem wf_solvedValAt (g : Grid) (hwf : g.wf) :
    ∀ (a v : Nat), solvedValAt g.cells a = some v → v < g.states := by
  intro a v hv
  cases hc : g.cells[a]? with
  | none => simp [solvedValAt, hc] at hv
  | some c =>
    by_cases hs : c.solved = true
    · simp [solvedValAt, hc, hs] at hv
      exact hv ▸ hwf.2.2.2.2 c (mem_of_getElem?_some hc) hs
    · simp [solvedValAt, hc, hs] at hv

theorem buildMaps_spec (cells : List Cell) (n : Nat) (hn9 : n ≤ MAXSTATES)
    (hlen : cells.length = n * n)
    (hvals : ∀ (a v : Nat), solvedValAt cells a = some v → v < n)
    (hrows : ∀ r, r < n → (groupVals cells (rowAddrs n r)).Nodup)
    (hcols : ∀ c, c < n → (groupVals cells (colAddrs n c)).Nodup) :
    ∃ rt ct, buildMaps cells n = some (rt, ct) ∧
      MapSpec (fun r v => r < n ∧ v ∈ groupVals cells (rowAddrs n r)) rt ∧
      MapSpec (fun c v => c < n ∧ v ∈ groupVals cells (colAddrs n c)) ct := by
  have hcomp : ∀ p ∈ gridPairs n, p.1 < n ∧ p.2 < n := fun p hp => (gridPairs_mem n p).mp hp
  have hb : ∀ p ∈ gridPairs n, p.1 * n + p.2 < cells.length := by
    intro p hp
    obtain ⟨h1, h2⟩ := (gridPairs_mem n p).mp hp
    rw [hlen]
    nlinarith
  have hsol : ∀ p ∈ gridPairs n, ∀ v : Nat,
      solvedValAt cells (p.1 * n + p.2) = some v → v < n :=
    fun p _ v hv => hvals _ v hv
  obtain ⟨rt, ct, heq, hR, hC⟩ :=
    buildMapsGo_spec cells n hn9 (gridPairs n) (gridPairs_nodup n) hcomp hb hsol hrows hcols
      (gridPairs n) [] rfl
      (List.replicate MAXSTATES (List.replicate MAXSTATES false))
      (List.replicate MAXSTATES (List.replicate MAXSTATES false))
      (mapSpec_init _ (fun r v _ _ => by rintro ⟨p, hp, _⟩; simp at hp))
      (mapSpec_init _ (fun r v _ _ => by rintro ⟨p, hp, _⟩; simp at hp))
  refine ⟨rt, ct, heq, ?_, ?_⟩
  · refine mapSpec_congr _ _ _ (fun r v hr hv => ?_) hR
    unfold RowMark
    constructor
    · rintro ⟨p, hp, h1, h2⟩
      obtain ⟨hpn1, hpn2⟩ := (gridPairs_mem n p).mp hp
      subst h1
      refine ⟨hpn1, mem_groupVals cells _ (p.1 * n + p.2) v ?_ h2⟩
      rw [mem_rowAddrs]
      exact ⟨p.2, hpn2, rfl⟩
    · rintro ⟨hrn, hm⟩
      obtain ⟨a, ha, hsv⟩ := List.mem_filterMap.mp hm
      obtain ⟨x, hx, rfl⟩ := (mem_rowAddrs n r a).mp ha
      exact ⟨(r, x), (gridPairs_mem n (r, x)).mpr ⟨hrn, hx⟩, rfl, hsv⟩
  · refine mapSpec_congr _ _ _ (fun r v hr hv => ?_) hC
    unfold ColMark
    constructor
    · rintro ⟨p, hp, h1, h2⟩
      obtain ⟨hpn1, hpn2⟩ := (gridPairs_mem n p).mp hp
      subst h1
      refine ⟨hpn2, mem_groupVals cells _ (p.1 * n + p.2) v ?_ h2⟩
      rw [mem_colAddrs]
      exact ⟨p.1, hpn1, by ring⟩
    · rintro ⟨hrn, hm⟩
      obtain ⟨a, ha, hsv⟩ := List.mem_filterMap.mp hm
      obtain ⟨y, hy, rfl⟩ := (mem_colAddrs n r a).mp ha
      exact ⟨(y, r), (gridPairs_mem n (y, r)).mpr ⟨hy, hrn⟩, rfl, by rw [show y * n + r = r + y * n by ring]; exact hsv⟩

theorem countTrue_spec (t : List Bool) :
    ∀ (idxs : List Nat) (acc : Nat), (∀ i ∈ idxs, i < t.length) →
      countTrue t idxs acc = some (acc + idxs.countP (fun i => t.getD i false)) := by
  intro idxs
  induction idxs with
  | nil =>
    intro acc _
    simp [countTrue]
  | cons i rest ih =>
    intro acc hb
    have hi : i < t.length := hb i (by simp)
    have hread : t[i]? = some (t.getD i false) := by
      rw [List.getD_eq_getElem?_getD, List.getElem?_eq_getElem hi]
      rfl
    unfold countTrue
    simp only [hread]
    rw [ih _ (fun j hj => hb j (by simp [hj])), List.countP_cons]
    cases hx : t.getD i false
    · simp [hx]
    · simp [hx]
      omega

theorem findFirstFalse_total (t : List Bool) :
    ∀ (idxs : List Nat), (∀ i ∈ idxs, i < t.length) →
      ∃ m, findFirstFalse t idxs = some m := by
  intro idxs
  induction idxs with
  | nil => exact fun _ => ⟨0, rfl⟩
  | cons i rest ih =>
    intro hb
    have hi : i < t.length := hb i (by simp)
    have hread : t[i]? = some (t.getD i false) := by
      rw [List.getD_eq_getElem?_getD, List.getElem?_eq_getElem hi]
      rfl
    unfold findFirstFalse
    simp only [hread]
    cases hx : t.getD i false
    · exact ⟨i, by simp [hx]⟩
    · obtain ⟨m, hm⟩ := ih (fun j hj => hb j (by simp [hj]))
      exact ⟨m, by simp [hx, hm]⟩

theorem findFirstFalse_mem (t : List Bool) :
    ∀ (idxs : List Nat) (m : Nat), (∀ i ∈ idxs, i < t.length) →
      (∃ i ∈ idxs, t.getD i false = false) →
      findFirstFalse t idxs = some m → m ∈ idxs ∧ t.getD m false = false := by
  intro idxs
  induction idxs with
  | nil =>
    rintro m _ ⟨i, hi, _⟩ _
    simp at hi
  | cons i rest ih =>
    intro m hb hex heq
    have hi : i < t.length := hb i (by simp)
    have hread : t[i]? = some (t.getD i false) := by
      rw [List.getD_eq_getElem?_getD, List.getElem?_eq_getElem hi]
      rfl
    unfold findFirstFalse at heq
    simp only [hread] at heq
    cases hx : t.getD i false
    · rw [hx] at heq
      simp at heq
      subst heq
      exact ⟨by simp, hx⟩
    · rw [hx] at heq
      simp at heq
      have hex2 : ∃ j ∈ rest, t.getD j false = false := by
        obtain ⟨j, hj, hjf⟩ := hex
        rcases List.mem_cons.mp hj with rfl | hjr
        · rw [hx] at hjf
          exact Bool.noConfusion hjf
        · exact ⟨j, hjr, hjf⟩
      obtain ⟨h1, h2⟩ := ih m (fun j hj => hb j (by simp [hj])) hex2 heq
      exact ⟨by simp [h1], h2⟩

theorem claimFirstGap_total (g : Grid) (missed : Nat) :
    ∀ (addrs : List Nat), (∀ a ∈ addrs, a < g.cells.length) →
      ∃ o, claimFirstGap g missed addrs = some o := by
  intro addrs
  induction addrs with
  | nil => exact fun _ => ⟨none, rfl⟩
  | cons a rest ih =>
    intro hb
    have ha : a < g.cells.length := hb a (by simp)
    obtain ⟨c, hc⟩ : ∃ c, g.cells[a]? = some c := ⟨_, List.getElem?_eq_getElem ha⟩
    unfold claimFirstGap
    simp only [hc]
    by_cases hs : c.solved = true
    · rw [if_pos hs]
      exact ih (fun b hbm => hb b (by simp [hbm]))
    · rw [if_neg hs]
      have hclaim : g.claim_a a missed =
          some { g with
            cells := g.cells.set a
              ({ c with solved := true, solution := missed, highlight := 1 }) } := by
        unfold Grid.claim_a
        simp only [hc]
        simp [hs]
      rw [hclaim]
      exact ⟨_, rfl⟩

theorem blockScan_cons (cells : List Cell) (t : List Bool) (mema a : Nat) (rest : List Nat) :
    blockScan cells t mema (a :: rest) =
      match cells[a]? with
      | none => none
      | some c =>
        if c.solved then
          match t[c.solution]? with
          | none => none
          | some b => if b then none else blockScan cells (t.set c.solution true) mema rest
        else blockScan cells t a rest := rfl

theorem lastFree_cons (cells : List Cell) (m0 a : Nat) (rest : List Nat) :
    lastFree cells m0 (a :: rest) =
      match cells[a]? with
      | some c => if c.solved then lastFree cells m0 rest else lastFree cells a rest
      | none => lastFree cells m0 rest := rfl

theorem blockScan_spec (cells : List Cell) (t0 : List Bool) (addrs : List Nat)
    (hb : ∀ a ∈ addrs, a < cells.length)
    (hvlt : ∀ a ∈ addrs, ∀ v : Nat, solvedValAt cells a = some v → v < t0.length)
    (ht0 : ∀ a ∈ addrs, ∀ v : Nat, solvedValAt cells a = some v → t0.getD v false = false)
    (hnd : (groupVals cells addrs).Nodup) :
    ∀ (rest pre : List Nat), addrs = pre ++ rest →
    ∀ (t : List Bool) (m : Nat), MarkSpec t0 (groupVals cells pre) t →
      ∃ t1, blockScan cells t m rest = some (t1, lastFree cells m rest) ∧
        MarkSpec t0 (groupVals cells addrs) t1 := by
  intro rest
  induction rest with
  | nil =>
    intro pre hfull t m hM
    rw [List.append_nil] at hfull
    subst hfull
    exact ⟨t, rfl, hM⟩
  | cons a rest2 ih =>
    intro pre hfull t m hM
    have hfull2 : addrs = (pre ++ [a]) ++ rest2 := by
      rw [hfull, List.append_assoc]
      rfl
    have haf : a ∈ addrs := by
      rw [hfull]
      simp
    have hax : a < cells.length := hb a haf
    obtain ⟨c, hc⟩ : ∃ c, cells[a]? = some c := ⟨_, List.getElem?_eq_getElem hax⟩
    by_cases hsolved : c.solved = true
    · have hsv : solvedValAt cells a = some c.solution := by
        simp [solvedValAt, hc, hsolved]
      have hvt : c.solution < t0.length := hvlt a haf c.solution hsv
      have hvt2 : c.solution < t.length := by rw [hM.1]; omega
      have hread : t[c.solution]? = some (t.getD c.solution false) := by
        rw [List.getD_eq_getElem?_getD, List.getElem?_eq_getElem hvt2]
        rfl
      have hnmem : c.solution ∉ groupVals cells pre := by
        intro hmem
        have : ¬ (groupVals cells (pre ++ (a :: rest2))).Nodup := by
          rw [groupVals_append, groupVals_cons, hsv]
          intro hndx
          obtain ⟨_, _, hdisj⟩ := List.nodup_append.mp hndx
          exact hdisj hmem (by simp)
        exact this (hfull ▸ hnd)
      have hgetD : t.getD c.solution false = false := by
        rw [hM.2 c.solution hvt, ht0 a haf c.solution hsv]
        simpa using hnmem
      have hstep : blockScan cells t m (a :: rest2) =
          blockScan cells (t.set c.solution true) m rest2 := by
        rw [blockScan_cons]
        simp only [hc]
        rw [hgetD] at hread
        simp [hsolved, hread]
      have hlf : lastFree cells m (a :: rest2) = lastFree cells m rest2 := by
        rw [lastFree_cons]
        simp [hc, hsolved]
      have hM2 : MarkSpec t0 (groupVals cells (pre ++ [a])) (t.set c.solution true) := by
        rw [groupVals_append, groupVals_singleton_some cells a c.solution hsv]
        exact markSpec_step t0 _ t c.solution hM hvt
      obtain ⟨t1, heq, hM3⟩ := ih (pre ++ [a]) hfull2 _ m hM2
      exact ⟨t1, by rw [hstep, heq, hlf], hM3⟩
    · have hsv : solvedValAt cells a = none := by
        simp [solvedValAt, hc, hsolved]
      have hstep : blockScan cells t m (a :: rest2) = blockScan cells t a rest2 := by
        rw [blockScan_cons]
        simp [hc, hsolved]
      have hlf : lastFree cells m (a :: rest2) = lastFree cells a rest2 := by
        rw [lastFree_cons]
        simp [hc, hsolved]
      have hM2 : MarkSpec t0 (groupVals cells (pre ++ [a])) t := by
        rw [groupVals_append, groupVals_singleton_none cells a hsv]
        simpa using hM
      obtain ⟨t1, heq, hM3⟩ := ih (pre ++ [a]) hfull2 _ a hM2
      exact ⟨t1, by rw [hstep, heq, hlf], hM3⟩

theorem lastFree_all_solved (cells : List Cell) :
    ∀ (addrs : List Nat) (m0 : Nat),
      (∀ a ∈ addrs, ∀ c, cells[a]? = some c → c.solved = true) →
      lastFree cells m0 addrs = m0 := by
  intro addrs
  induction addrs with
  | nil => exact fun m0 _ => rfl
  | cons a rest ih =>
    intro m0 hall
    rw [lastFree_cons]
    cases hc : cells[a]? with
    | none => exact ih m0 (fun b hb c hcb => hall b (by simp [hb]) c hcb)
    | some c =>
      have hs : c.solved = true := hall a (by simp) c hc
      simp [hs]
      exact ih m0 (fun b hb c2 hcb => hall b (by simp [hb]) c2 hcb)

theorem lastFree_spec (cells : List Cell) :
    ∀ (addrs : List Nat) (m0 : Nat),
      (∃ a ∈ addrs, ∃ c, cells[a]? = some c ∧ c.solved = false) →
      (lastFree cells m0 addrs ∈ addrs ∧
        ∃ c, cells[(lastFree cells m0 addrs)]? = some c ∧ c.solved = false) := by
  intro addrs
  induction addrs with
  | nil =>
    rintro m0 ⟨a, ha, _⟩
    simp at ha
  | cons a rest ih =>
    rintro m0 hex
    rw [lastFree_cons]
    by_cases hrest : ∃ b ∈ rest, ∃ c, cells[b]? = some c ∧ c.solved = false
    · cases hc : cells[a]? with
      | none =>
        obtain ⟨h1, h2⟩ := ih m0 hrest
        exact ⟨by simp [h1], h2⟩
      | some c =>
        by_cases hs : c.solved = true
        · simp only [hs, if_pos]
          obtain ⟨h1, h2⟩ := ih m0 hrest
          exact ⟨by simp [h1], h2⟩
        · simp only [hs, if_neg, Bool.false_eq_true, not_false_eq_true]
          obtain ⟨h1, h2⟩ := ih a hrest
          exact ⟨by simp [h1], h2⟩
    · obtain ⟨b, hb, c, hcb, hcs⟩ := hex
      have hba : b = a := by
        rcases List.mem_cons.mp hb with rfl | hbr
        · rfl
        · exact absurd ⟨b, hbr, c, hcb, hcs⟩ hrest
      subst hba
      rw [hcb]
      simp only [hcs]
      have hall : ∀ x ∈ rest, ∀ c2, cells[x]? = some c2 → c2.solved = true := by
        intro x hx c2 hc2
        by_contra hns
        exact hrest ⟨x, hx, c2, hc2, by simpa using hns⟩
      rw [if_neg (by simp)]
      rw [lastFree_all_solved cells rest b hall]
      exact ⟨by simp, c, hcb, hcs⟩

theorem exists_unsolved_of_count (cells : List Cell) :
    ∀ (addrs : List Nat), (∀ a ∈ addrs, a < cells.length) →
      solvedCount cells addrs < addrs.length →
      ∃ a ∈ addrs, ∃ c, cells[a]? = some c ∧ c.solved = false := by
  intro addrs
  induction addrs with
  | nil =>
    intro _ h
    simp [solvedCount, groupVals] at h
  | cons a rest ih =>
    intro hb hcnt
    have ha : a < cells.length := hb a (by simp)
    obtain ⟨c, hc⟩ : ∃ c, cells[a]? = some c := ⟨_, List.getElem?_eq_getElem ha⟩
    by_cases hs : c.solved = true
    · have hsv : solvedValAt cells a = some c.solution := by
        simp [solvedValAt, hc, hs]
      have hcnt2 : solvedCount cells rest < rest.length := by
        unfold solvedCount at hcnt ⊢
        rw [groupVals_cons, hsv] at hcnt
        simp at hcnt
        omega
      obtain ⟨b, hbm, hbu⟩ := ih (fun x hx => hb x (by simp [hx])) hcnt2
      exact ⟨b, by simp [hbm], hbu⟩
    · exact ⟨a, by simp, c, hc, by simpa using hs⟩

theorem stripeCells_cons (cells : List Cell) (bw state start row : Nat)
    (used : Nat) (rowusage : List Bool) (slugmap : List (List Bool)) (el : Nat) (rest : List Nat) :
    stripeCells cells bw state start row (used, rowusage, slugmap) (el :: rest) =
      match cells[start + el]? with
      | none => none
      | some c =>
        if c.solved && c.solution = state then
          if row < rowusage.length then
            match slugmap[row]? with
            | none => none
            | some srow =>
              if el / bw < srow.length then
                stripeCells cells bw state start row
                  (used + 1, rowusage.set row true, slugmap.set row (srow.set (el / bw) true)) rest
              else none
          else none
        else stripeCells cells bw state start row (used, rowusage, slugmap) rest := rfl

theorem stripeCells_total (cells : List Cell) (bw state start row : Nat)
    (hrow9 : row < MAXSTATES) (hrow3 : row < MAXROOTS) :
    ∀ (idxs : List Nat) (used : Nat) (ru : List Bool) (sm : List (List Bool)),
      (∀ el ∈ idxs, start + el < cells.length) →
      (∀ el ∈ idxs, el / bw < MAXROOTS) →
      ru.length = MAXSTATES →
      sm.length = MAXROOTS →
      (∀ sr ∈ sm, sr.length = MAXROOTS) →
      ∃ used2 ru2 sm2,
        stripeCells cells bw state start row (used, ru, sm) idxs = some (used2, ru2, sm2) ∧
        ru2.length = MAXSTATES ∧ sm2.length = MAXROOTS ∧
        (∀ sr ∈ sm2, sr.length = MAXROOTS) := by
  intro idxs
  induction idxs with
  | nil =>
    intro used ru sm _ _ h1 h2 h3
    exact ⟨used, ru, sm, rfl, h1, h2, h3⟩
  | cons el rest ih =>
    intro used ru sm hb hdiv h1 h2 h3
    have hel : start + el < cells.length := hb el (by simp)
    obtain ⟨c, hc⟩ : ∃ c, cells[start + el]? = some c := ⟨_, List.getElem?_eq_getElem hel⟩
    rw [stripeCells_cons]
    simp only [hc]
    by_cases hcond : (c.solved && decide (c.solution = state)) = true
    · have hru : row < ru.length := by omega
      have hsm : row < sm.length := by omega
      obtain ⟨srow, hsrow⟩ : ∃ srow, sm[row]? = some srow := ⟨_, List.getElem?_eq_getElem hsm⟩
      have hsl : srow.length = MAXROOTS := h3 srow (mem_of_getElem?_some hsrow)
      have hdl : el / bw < srow.length := by
        rw [hsl]
        exact hdiv el (by simp)
      rw [if_pos hcond, if_pos hru]
      simp only [hsrow]
      rw [if_pos hdl]
      refine ih (used + 1) (ru.set row true) (sm.set row (srow.set (el / bw) true))
        (fun x hx => hb x (by simp [hx])) (fun x hx => hdiv x (by simp [hx]))
        (by simp [h1]) (by simp [h2]) ?_
      intro sr hsr
      rcases List.mem_or_eq_of_mem_set hsr with hmem | rfl
      · exact h3 sr hmem
      · simp [hsl]
    · rw [if_neg hcond]
      exact ih used ru sm (fun x hx => hb x (by simp [hx]))
        (fun x hx => hdiv x (by simp [hx])) h1 h2 h3

theorem stripeRows_cons (cells : List Cell) (n bw state grid_block : Nat)
    (acc : Nat × List Bool × List (List Bool)) (row : Nat) (rest : List Nat) :
    stripeRows cells n bw state grid_block acc (row :: rest) =
      match stripeCells cells bw state ((grid_block * bw + row) * n) row acc (List.range n) with
      | none => none
      | some acc1 => stripeRows cells n bw state grid_block acc1 rest := rfl

theorem stripeRows_total (cells : List Cell) (n bw state grid_block : Nat)
    (hbw : bw ≤ MAXROOTS) (hnbw : bw * bw = n) (hcl : cells.length = n * n)
    (hgb : grid_block < bw)
    (hdiv : ∀ el, el < n → el / bw < MAXROOTS) :
    ∀ (rows : List Nat), (∀ r ∈ rows, r < bw) →
    ∀ (used : Nat) (ru : List Bool) (sm : List (List Bool)),
      ru.length = MAXSTATES → sm.length = MAXROOTS → (∀ sr ∈ sm, sr.length = MAXROOTS) →
      ∃ used2 ru2 sm2,
        stripeRows cells n bw state grid_block (used, ru, sm) rows = some (used2, ru2, sm2) ∧
        ru2.length = MAXSTATES ∧ sm2.length = MAXROOTS ∧
        (∀ sr ∈ sm2, sr.length = MAXROOTS) := by
  intro rows
  induction rows with
  | nil =>
    intro _ used ru sm h1 h2 h3
    exact ⟨used, ru, sm, rfl, h1, h2, h3⟩
  | cons row rest ih =>
    intro hrows used ru sm h1 h2 h3
    have hrbw : row < bw := hrows row (by simp)
    have hrow3 : row < MAXROOTS := lt_of_lt_of_le hrbw hbw
    have hrow9 : row < MAXSTATES := by
      unfold MAXROOTS at hrow3
      unfold MAXSTATES
      omega
    have hbound : ∀ el ∈ List.range n, (grid_block * bw + row) * n + el < cells.length := by
      intro el hln
      have hel : el < n := List.mem_range.mp hln
      have h1x : (grid_block + 1) * bw ≤ bw * bw := Nat.mul_le_mul_right bw hgb
      have h2x : grid_block * bw + bw ≤ bw * bw := by
        rw [Nat.succ_mul] at h1x
        omega
      have hk : grid_block * bw + row < n := by omega
      have : (grid_block * bw + row) * n + el ≤ (n - 1) * n + (n - 1) := by
        have h1x : grid_block * bw + row ≤ n - 1 := by omega
        have h2x : (grid_block * bw + row) * n ≤ (n - 1) * n :=
          Nat.mul_le_mul_right n h1x
        omega
      have hnn : (n - 1) * n + (n - 1) < n * n := by
        have hn0 : 0 < n := by omega
        have hs : (n - 1) * n = n * n - n := by
          rw [Nat.sub_mul, Nat.one_mul]
        have hle : n ≤ n * n := Nat.le_mul_of_pos_left n hn0
        omega
      omega
    obtain ⟨u2, ru2, sm2, heq, g1, g2, g3⟩ :=
      stripeCells_total cells bw state ((grid_block * bw + row) * n) row hrow9 hrow3
        (List.range n) used ru sm hbound
        (fun el hln => hdiv el (List.mem_range.mp hln)) h1 h2 h3
    rw [stripeRows_cons]
    simp only [heq]
    exact ih (fun r hr => hrows r (by simp [hr])) u2 ru2 sm2 g1 g2 g3

theorem findEmptySlug_total (slugmap : List (List Bool)) :
    ∀ (rs : List Nat), (∀ r ∈ rs, r < slugmap.length) →
      ∃ x, findEmptySlug slugmap rs = some x := by
  intro rs
  induction rs with
  | nil => exact fun _ => ⟨0, rfl⟩
  | cons r rest ih =>
    intro hb
    have hr : r < slugmap.length := hb r (by simp)
    obtain ⟨srow, hsrow⟩ : ∃ srow, slugmap[r]? = some srow := ⟨_, List.getElem?_eq_getElem hr⟩
    unfold findEmptySlug
    simp only [hsrow]
    by_cases hcase : srow = [false, false, false]
    · exact ⟨r, by simp [hcase]⟩
    · rw [if_neg hcase]
      exact ih (fun x hx => hb x (by simp [hx]))

theorem stripeOne_total (cells : List Cell) (n bw grid_block state : Nat)
    (hbw : bw ≤ MAXROOTS) (hnbw : bw * bw = n) (hcl : cells.length = n * n)
    (hgb : grid_block < bw)
    (hdiv : ∀ el, el < n → el / bw < MAXROOTS) :
    stripeOne cells n bw grid_block state = some () := by
  obtain ⟨u2, ru2, sm2, heq, g1, g2, g3⟩ :=
    stripeRows_total cells n bw state grid_block hbw hnbw hcl hgb hdiv
      (List.range bw) (fun r hr => List.mem_range.mp hr)
      0 (List.replicate MAXSTATES false)
      (List.replicate MAXROOTS (List.replicate MAXROOTS false))
      (by simp) (by simp) (by intro sr hsr; simp at hsr; simp [hsr])
  unfold stripeOne
  simp only [heq]
  by_cases hused : u2 = 2
  · simp only [hused, if_pos rfl]
    obtain ⟨m, hm⟩ := findFirstFalse_total ru2 (List.range bw)
      (by
        intro i hi
        have : i < bw := List.mem_range.mp hi
        unfold MAXROOTS at hbw
        unfold MAXSTATES at g1
        omega)
    obtain ⟨s, hs⟩ := findEmptySlug_total sm2 (List.range bw)
      (by
        intro r hr
        have : r < bw := List.mem_range.mp hr
        omega)
    simp [hm, hs]
  · simp [hused]

theorem stripeStates_total (cells : List Cell) (n bw grid_block : Nat)
    (hbw : bw ≤ MAXROOTS) (hnbw : bw * bw = n) (hcl : cells.length = n * n)
    (hgb : grid_block < bw)
    (hdiv : ∀ el, el < n → el / bw < MAXROOTS) :
    ∀ (states : List Nat), stripeStates cells n bw grid_block states = some () := by
  intro states
  induction states with
  | nil => rfl
  | cons s rest ih =>
    unfold stripeStates
    rw [stripeOne_total cells n bw grid_block s hbw hnbw hcl hgb hdiv]
    exact ih

theorem stripeBlocks_total (cells : List Cell) (n bw : Nat)
    (hbw : bw ≤ MAXROOTS) (hnbw : bw * bw = n) (hcl : cells.length = n * n)
    (hdiv : ∀ el, el < n → el / bw < MAXROOTS) :
    ∀ (bs : List Nat), (∀ b ∈ bs, b < bw) → stripeBlocks cells n bw bs = some () := by
  intro bs
  induction bs with
  | nil => exact fun _ => rfl
  | cons b rest ih =>
    intro hb
    unfold stripeBlocks
    rw [stripeStates_total cells n bw b hbw hnbw hcl (hb b (by simp)) hdiv]
    exact ih (fun x hx => hb x (by simp [hx]))

theorem stripePass_total (cells : List Cell) (n bw : Nat)
    (hbw : bw ≤ MAXROOTS) (hnbw : bw * bw = n) (hcl : cells.length = n * n) :
    stripePass cells n bw = some () := by
  have hdiv : ∀ el, el < n → el / bw < MAXROOTS := by
    intro el hel
    have hbw0 : 0 < bw := by
      rcases Nat.eq_zero_or_pos bw with h0 | h0
      · subst h0
        simp at hnbw
        omega
      · exact h0
    have : el / bw < bw := by
      rw [Nat.div_lt_iff_lt_mul hbw0]
      omega
    omega
  exact stripeBlocks_total cells n bw hbw hnbw hcl hdiv (List.range bw)
    (fun b hb => List.mem_range.mp hb)

theorem bool_eq_decide {b : Bool} {P : Prop} [Decidable P] (h : b = true ↔ P) : b = decide P := by
  cases hb : b
  · rw [hb] at h
    have hnp : ¬ P := fun hp => Bool.noConfusion (h.mpr hp)
    simp [hnp]
  · rw [hb] at h
    simp [h.mp rfl]

theorem blockAddrs_length (s bw b : Nat) : (blockAddrs s bw b).length = bw * bw := by
  unfold blockAddrs
  rw [List.length_flatten, List.map_map]
  have hconst : ∀ y ∈ List.range bw,
      (List.length ∘ fun y =>
        List.map (fun x => b % bw * bw + b / bw * bw * s + x + y * s) (List.range bw)) y = bw := by
    intro y _
    simp
  rw [List.map_congr_left hconst]
  have hrep : List.map (fun _ : Nat => bw) (List.range bw) = List.replicate bw bw := by
    simp
  rw [hrep, List.sum_replicate, smul_eq_mul]

theorem val_lt_of_mem_groupVals (cells : List Cell) (n : Nat)
    (hvals : ∀ a v : Nat, solvedValAt cells a = some v → v < n) :
    ∀ (addrs : List Nat) (v : Nat), v ∈ groupVals cells addrs → v < n := by
  intro addrs v hv
  obtain ⟨a, _, hsv⟩ := List.mem_filterMap.mp hv
  exact hvals a v hsv

theorem count_marks_eq (t1 t0 : List Bool) (V : List Nat) (n : Nat)
    (hM : MarkSpec t0 V t1) (hn : n ≤ t0.length)
    (ht0 : ∀ v : Nat, v < n → t0.getD v false = false)
    (hVn : ∀ v ∈ V, v < n) (hnd : V.Nodup) :
    (List.range n).countP (fun i => t1.getD i false) = V.length := by
  have hpt : ∀ i ∈ List.range n, (t1.getD i false) = decide (i ∈ V) := by
    intro i hi
    have hin : i < n := List.mem_range.mp hi
    rw [hM.2 i (by omega), ht0 i hin]
    simp
  rw [List.countP_congr (fun i hi => by rw [hpt i hi])]
  exact countP_range_mem n V hnd hVn

theorem blockPassGo_cons (g : Grid) (n bw : Nat) (t : List Bool) (b : Nat) (rest : List Nat) :
    blockPassGo g n bw t (b :: rest) =
      match resetFirst t n with
      | none => none
      | some t0 =>
        match blockScan g.cells t0 0 (blockAddrs n bw b) with
        | none => none
        | some (t1, mema) =>
          match countTrue t1 (List.range n) 0 with
          | none => none
          | some used =>
            if used = n - 1 then
              match findFirstFalse t1 (List.range n) with
              | none => none
              | some missed =>
                match g.cells[mema]? with
                | none => none
                | some c =>
                  if c.solved then none
                  else
                    match Grid.claim_a g mema missed with
                    | none => none
                    | some g2 => some (some (g2, 1))
            else blockPassGo g n bw t1 rest := rfl

theorem blockPassGo_run (g : Grid) (n bw : Nat) (hn9 : n ≤ MAXSTATES)
    (hlen : g.cells.length = n * n) (hbwn : bw * bw = n)
    (hvals : ∀ a v : Nat, solvedValAt g.cells a = some v → v < n) :
    ∀ (bs : List Nat) (t : List Bool), (∀ b ∈ bs, b < n) → t.length = MAXSTATES →
      (∀ b ∈ bs, (groupVals g.cells (blockAddrs n bw b)).Nodup) →
      ∃ o, blockPassGo g n bw t bs = some o ∧
        ((∀ b ∈ bs, solvedCount g.cells (blockAddrs n bw b) ≠ n - 1) → o = none) := by
  intro bs
  induction bs with
  | nil =>
    intro t _ _ _
    exact ⟨none, rfl, fun _ => rfl⟩
  | cons b rest ih =>
    intro t hbs htl hnd
    have hbn : b < n := hbs b (by simp)
    have hn0 : 0 < n := by omega
    have hnt : n ≤ t.length := by omega
    obtain ⟨t0, hreset, ht0l, ht0z⟩ := resetFirst_some t n hnt
    have ht0l9 : t0.length = MAXSTATES := by rw [ht0l, htl]
    have haddrb : ∀ a ∈ blockAddrs n bw b, a < g.cells.length := by
      intro a ha
      rw [hlen]
      exact blockAddrs_lt n bw b hbwn hbn a ha
    obtain ⟨t1, hscan, hM⟩ := blockScan_spec g.cells t0 (blockAddrs n bw b)
      haddrb
      (fun a _ v hv => by
        rw [ht0l9]
        exact lt_of_lt_of_le (hvals a v hv) hn9)
      (fun a _ v hv => ht0z v (hvals a v hv))
      (hnd b (by simp))
      (blockAddrs n bw b) [] rfl t0 0 (markSpec_init t0)
    have ht1l : t1.length = MAXSTATES := by rw [hM.1, ht0l9]
    have hcnt := countTrue_spec t1 (List.range n) 0
      (fun i hi => by
        rw [ht1l]
        have := List.mem_range.mp hi
        omega)
    have hVn : ∀ v ∈ groupVals g.cells (blockAddrs n bw b), v < n :=
      val_lt_of_mem_groupVals g.cells n hvals (blockAddrs n bw b)
    have hcmarks : (List.range n).countP (fun i => t1.getD i false) =
        (groupVals g.cells (blockAddrs n bw b)).length :=
      count_marks_eq t1 t0 (groupVals g.cells (blockAddrs n bw b)) n hM
        (by rw [ht0l9]; omega) ht0z hVn (hnd b (by simp))
    rw [blockPassGo_cons]
    simp only [hreset, hscan, hcnt]
    rw [Nat.zero_add, hcmarks]
    by_cases hcase : (groupVals g.cells (blockAddrs n bw b)).length = n - 1
    · rw [if_pos hcase]
      obtain ⟨missed, hmissed⟩ := findFirstFalse_total t1 (List.range n)
        (fun i hi => by
          rw [ht1l]
          have := List.mem_range.mp hi
          omega)
      have hcountlt : solvedCount g.cells (blockAddrs n bw b) < (blockAddrs n bw b).length := by
        unfold solvedCount
        rw [blockAddrs_length, hbwn, hcase]
        omega
      obtain ⟨hmem, c, hcread, hcsolved⟩ :=
        lastFree_spec g.cells (blockAddrs n bw b) 0
          (exists_unsolved_of_count g.cells (blockAddrs n bw b) haddrb hcountlt)
      simp only [hmissed, hcread, hcsolved]
      rw [if_neg (by simp)]
      obtain ⟨g2, hclaim⟩ : ∃ g2,
          g.claim_a (lastFree g.cells 0 (blockAddrs n bw b)) missed = some g2 := by
        unfold Grid.claim_a
        simp [hcread, hcsolved]
      rw [hclaim]
      refine ⟨some (g2, 1), rfl, ?_⟩
      intro hstall
      exact absurd hcase (hstall b (by simp))
    · rw [if_neg hcase]
      obtain ⟨o, ho, himp⟩ := ih t1 (fun x hx => hbs x (by simp [hx])) ht1l
        (fun x hx => hnd x (by simp [hx]))
      exact ⟨o, ho, fun hstall => himp (fun x hx => hstall x (by simp [hx]))⟩

theorem rowPassGo_cons (g : Grid) (rt : List (List Bool)) (n row : Nat) (rest : List Nat) :
    rowPassGo g rt n (row :: rest) =
      match rt[row]? with
      | none => none
      | some trow =>
        match countTrue trow (List.range n) 0 with
        | none => none
        | some used =>
          if used = n - 1 then
            match findFirstFalse trow (List.range n) with
            | none => none
            | some missed =>
              match claimFirstGap g missed ((List.range n).map (fun col => row * n + col)) with
              | none => none
              | some none => rowPassGo g rt n rest
              | some (some res) => some (some res)
          else rowPassGo g rt n rest := rfl

theorem colPassGo_cons (g : Grid) (ct : List (List Bool)) (n col : Nat) (rest : List Nat) :
    colPassGo g ct n (col :: rest) =
      match ct[col]? with
      | none => none
      | some tcol =>
        match countTrue tcol (List.range n) 0 with
        | none => none
        | some used =>
          if used = n - 1 then
            match findFirstFalse tcol (List.range n) with
            | none => none
            | some missed =>
              match claimFirstGap g missed ((List.range n).map (fun row => row * n + col)) with
              | none => none
              | some none => colPassGo g ct n rest
              | some (some res) => some (some res)
          else colPassGo g ct n rest := rfl

theorem map_marks_count (m : List (List Bool)) (mark : Nat → Nat → Prop)
    (hms : MapSpec mark m) (n r : Nat) (hr : r < n) (hn9 : n ≤ MAXSTATES)
    (V : List Nat) (hnd : V.Nodup) (hVn : ∀ v ∈ V, v < n)
    (hiff : ∀ v : Nat, v < MAXSTATES → (mark r v ↔ v ∈ V)) :
    ∃ mr, m[r]? = some mr ∧ mr.length = MAXSTATES ∧
      countTrue mr (List.range n) 0 = some V.length := by
  obtain ⟨mr, hmr, hml, hmarks⟩ := hms.2 r (by omega)
  refine ⟨mr, hmr, hml, ?_⟩
  rw [countTrue_spec mr (List.range n) 0
    (fun i hi => by
      rw [hml]
      have := List.mem_range.mp hi
      omega)]
  rw [Nat.zero_add]
  congr 1
  have hpt : ∀ i ∈ List.range n, (mr.getD i false) = decide (i ∈ V) := by
    intro i hi
    have hin : i < n := List.mem_range.mp hi
    exact bool_eq_decide ((hmarks i (by omega)).trans (hiff i (by omega)))
  rw [List.countP_congr (fun i hi => by rw [hpt i hi])]
  exact countP_range_mem n V hnd hVn

theorem rowPassGo_run (g : Grid) (rt : List (List Bool)) (n : Nat)
    (hn9 : n ≤ MAXSTATES) (hlen : g.cells.length = n * n)
    (hrt : MapSpec (fun r v => r < n ∧ v ∈ groupVals g.cells (rowAddrs n r)) rt)
    (hvals : ∀ a v : Nat, solvedValAt g.cells a = some v → v < n)
    (hrows : ∀ r, r < n → (groupVals g.cells (rowAddrs n r)).Nodup) :
    ∀ (rows : List Nat), (∀ r ∈ rows, r < n) →
      ∃ o, rowPassGo g rt n rows = some o ∧
        ((∀ r ∈ rows, solvedCount g.cells (rowAddrs n r) ≠ n - 1) → o = none) := by
  intro rows
  induction rows with
  | nil =>
    intro _
    exact ⟨none, rfl, fun _ => rfl⟩
  | cons row rest ih =>
    intro hrs
    have hrn : row < n := hrs row (by simp)
    have hVn : ∀ v ∈ groupVals g.cells (rowAddrs n row), v < n :=
      val_lt_of_mem_groupVals g.cells n hvals (rowAddrs n row)
    obtain ⟨mr, hmr, hml, hcnt⟩ := map_marks_count rt _ hrt n row hrn hn9
      (groupVals g.cells (rowAddrs n row)) (hrows row hrn) hVn
      (fun v _ => by
        constructor
        · exact fun hp => hp.2
        · exact fun hm => ⟨hrn, hm⟩)
    rw [rowPassGo_cons]
    simp only [hmr, hcnt]
    by_cases hcase : (groupVals g.cells (rowAddrs n row)).length = n - 1
    · rw [if_pos hcase]
      obtain ⟨missed, hmissed⟩ := findFirstFalse_total mr (List.range n)
        (fun i hi => by
          rw [hml]
          have := List.mem_range.mp hi
          omega)
      obtain ⟨o2, ho2⟩ := claimFirstGap_total g missed
        ((List.range n).map (fun col => row * n + col))
        (by
          intro a ha
          obtain ⟨col, hcol, rfl⟩ := List.mem_map.mp ha
          rw [List.mem_range] at hcol
          rw [hlen]
          nlinarith)
      simp only [hmissed, ho2]
      cases o2 with
      | none =>
        obtain ⟨o, ho, _⟩ := ih (fun x hx => hrs x (by simp [hx]))
        exact ⟨o, ho, fun hstall => absurd hcase (hstall row (by simp))⟩
      | some res =>
        exact ⟨some res, rfl, fun hstall => absurd hcase (hstall row (by simp))⟩
    · rw [if_neg hcase]
      obtain ⟨o, ho, himp⟩ := ih (fun x hx => hrs x (by simp [hx]))
      exact ⟨o, ho, fun hstall => himp (fun x hx => hstall x (by simp [hx]))⟩

theorem colPassGo_run (g : Grid) (ct : List (List Bool)) (n : Nat)
    (hn9 : n ≤ MAXSTATES) (hlen : g.cells.length = n * n)
    (hct : MapSpec (fun c v => c < n ∧ v ∈ groupVals g.cells (colAddrs n c)) ct)
    (hvals : ∀ a v : Nat, solvedValAt g.cells a = some v → v < n)
    (hcols : ∀ c, c < n → (groupVals g.cells (colAddrs n c)).Nodup) :
    ∀ (cols : List Nat), (∀ c ∈ cols, c < n) →
      ∃ o, colPassGo g ct n cols = some o ∧
        ((∀ c ∈ cols, solvedCount g.cells (colAddrs n c) ≠ n - 1) → o = none) := by
  intro cols
  induction cols with
  | nil =>
    intro _
    exact ⟨none, rfl, fun _ => rfl⟩
  | cons col rest ih =>
    intro hcs
    have hcn : col < n := hcs col (by simp)
    have hVn : ∀ v ∈ groupVals g.cells (colAddrs n col), v < n :=
      val_lt_of_mem_groupVals g.cells n hvals (colAddrs n col)
    obtain ⟨mc, hmc, hml, hcnt⟩ := map_marks_count ct _ hct n col hcn hn9
      (groupVals g.cells (colAddrs n col)) (hcols col hcn) hVn
      (fun v _ => by
        constructor
        · exact fun hp => hp.2
        · exact fun hm => ⟨hcn, hm⟩)
    rw [colPassGo_cons]
    simp only [hmc, hcnt]
    by_cases hcase : (groupVals g.cells (colAddrs n col)).length = n - 1
    · rw [if_pos hcase]
      obtain ⟨missed, hmissed⟩ := findFirstFalse_total mc (List.range n)
        (fun i hi => by
          rw [hml]
          have := List.mem_range.mp hi
          omega)
      obtain ⟨o2, ho2⟩ := claimFirstGap_total g missed
        ((List.range n).map (fun row => row * n + col))
        (by
          intro a ha
          obtain ⟨row, hrow, rfl⟩ := List.mem_map.mp ha
          rw [List.mem_range] at hrow
          rw [hlen]
          nlinarith)
      simp only [hmissed, ho2]
      cases o2 with
      | none =>
        obtain ⟨o, ho, _⟩ := ih (fun x hx => hcs x (by simp [hx]))
        exact ⟨o, ho, fun hstall => absurd hcase (hstall col (by simp))⟩
      | some res =>
        exact ⟨some res, rfl, fun hstall => absurd hcase (hstall col (by simp))⟩
    · rw [if_neg hcase]
      obtain ⟨o, ho, himp⟩ := ih (fun x hx => hcs x (by simp [hx]))
      exact ⟨o, ho, fun hstall => himp (fun x hx => hstall x (by simp [hx]))⟩

theorem groups_mem (g : Grid) :
    (∀ r : Nat, r < g.states → rowAddrs g.states r ∈ g.allGroups) ∧
    (∀ c : Nat, c < g.states → colAddrs g.states c ∈ g.allGroups) ∧
    (∀ b : Nat, b < g.states → blockAddrs g.states g.isqrt b ∈ g.allGroups) := by
  refine ⟨?_, ?_, ?_⟩
  · intro r hr
    unfold Grid.allGroups
    rw [List.mem_append]
    exact Or.inl (List.mem_append.mpr
      (Or.inl (List.mem_map.mpr ⟨r, List.mem_range.mpr hr, rfl⟩)))
  · intro c hc
    unfold Grid.allGroups
    rw [List.mem_append]
    exact Or.inl (List.mem_append.mpr
      (Or.inr (List.mem_map.mpr ⟨c, List.mem_range.mpr hc, rfl⟩)))
  · intro b hb
    unfold Grid.allGroups
    rw [List.mem_append]
    exact Or.inr (List.mem_map.mpr ⟨b, List.mem_range.mpr hb, rfl⟩)

theorem solve_next_run (g : Grid) (hwf : g.wf) (hdf : g.dupFree) :
    ∃ res, g.solve_next = some res ∧
      ((∀ gr ∈ g.allGroups, solvedCount g.cells gr ≠ g.states - 1) → res = (g, 0)) := by
  have hvals : ∀ a v : Nat, solvedValAt g.cells a = some v → v < g.states :=
    wf_solvedValAt g hwf
  obtain ⟨hn9, hbw3, hbwn, hlen, _⟩ := hwf
  obtain ⟨hmr, hmc, hmb⟩ := groups_mem g
  have hrows : ∀ r, r < g.states → (groupVals g.cells (rowAddrs g.states r)).Nodup :=
    fun r hr => hdf _ (hmr r hr)
  have hcols : ∀ c, c < g.states → (groupVals g.cells (colAddrs g.states c)).Nodup :=
    fun c hc => hdf _ (hmc c hc)
  have hblocks : ∀ b ∈ List.range g.states,
      (groupVals g.cells (blockAddrs g.states g.isqrt b)).Nodup :=
    fun b hb => hdf _ (hmb b (List.mem_range.mp hb))
  obtain ⟨rt, ct, hbm, hrtspec, hctspec⟩ :=
    buildMaps_spec g.cells g.states hn9 hlen hvals hrows hcols
  have hsp := stripePass_total g.cells g.states g.isqrt hbw3 hbwn hlen
  obtain ⟨orow, horow, hrimp⟩ := rowPassGo_run g rt g.states hn9 hlen hrtspec hvals hrows
    (List.range g.states) (fun r hr => List.mem_range.mp hr)
  obtain ⟨ocol, hocol, hcimp⟩ := colPassGo_run g ct g.states hn9 hlen hctspec hvals hcols
    (List.range g.states) (fun c hc => List.mem_range.mp hc)
  obtain ⟨oblk, hoblk, hbimp⟩ := blockPassGo_run g g.states g.isqrt hn9 hlen hbwn hvals
    (List.range g.states) (List.replicate MAXSTATES false)
    (fun b hb => List.mem_range.mp hb) (by simp) hblocks
  simp only [Grid.solve_next, hbm, hsp]
  cases orow with
  | some res =>
    simp only [horow]
    exact ⟨res, rfl, fun hstall => by
      have hno : (some res : Option (Grid × Nat)) = none := hrimp (fun r hr =>
        hstall (rowAddrs g.states r) (hmr r (List.mem_range.mp hr)))
      exact Option.noConfusion hno⟩
  | none =>
    simp only [horow]
    cases ocol with
    | some res =>
      simp only [hocol]
      exact ⟨res, rfl, fun hstall => by
        have hno : (some res : Option (Grid × Nat)) = none := hcimp (fun c hc =>
          hstall (colAddrs g.states c) (hmc c (List.mem_range.mp hc)))
        exact Option.noConfusion hno⟩
    | none =>
      simp only [hocol]
      cases oblk with
      | some res =>
        simp only [hoblk]
        exact ⟨res, rfl, fun hstall => by
          have hno : (some res : Option (Grid × Nat)) = none := hbimp (fun b hb =>
            hstall (blockAddrs g.states g.isqrt b) (hmb b (List.mem_range.mp hb)))
          exact Option.noConfusion hno⟩
      | none =>
        simp only [hoblk]
        exact ⟨(g, 0), rfl, fun _ => rfl⟩

/-- C7: for every well-formed grid that the Validator has accepted (`validate`
returned `true`), the integrity aborts inside `solve_next` — the occupancy
panic of pass (a), the block-scan panic and the solved-target panic of pass
(e), and every out-of-range read — are unreachable: the call returns. -/
theorem C7_validator_accepted_no_aborts (g g2 : Grid) (hwf : g.wf)
    (hacc : g.validate = some (g2, true)) :
    ∃ res, g.solve_next = some res := by
  obtain ⟨cells1, hval, _⟩ := validate_spec g hwf
  rw [hacc] at hval
  have hpair := Option.some.inj hval
  have hb : true = decide (∀ gr ∈ g.allGroups, (groupVals g.cells gr).Nodup) :=
    congrArg Prod.snd hpair
  have hdf : g.dupFree := of_decide_eq_true hb.symm
  obtain ⟨res, hres, _⟩ := solve_next_run g hwf hdf
  exact ⟨res, hres⟩

theorem C7_validator_accepted_no_aborts_witness :
    ∃ res, demoRowGrid.solve_next = some res :=
  C7_validator_accepted_no_aborts demoRowGrid demoRowGrid (by decide) (by decide)

/-- C1: one call to `Grid::solve_next` either returns `0` leaving the grid
unchanged or returns `1` having claimed exactly one previously unsolved cell;
and on a well-formed duplicate-free grid in which no row, column or block has
exactly `states - 1` solved cells, the call returns `0` and changes nothing
(the stripe pass only diagnoses, it never claims). -/
theorem C1_solve_next_frame (g : Grid) :
    (∀ (gres : Grid) (k : Nat), g.solve_next = some (gres, k) →
      (gres = g ∧ k = 0) ∨ (k = 1 ∧ ClaimedFrom g gres)) ∧
    (g.wf → g.dupFree →
      (∀ gr ∈ g.allGroups, solvedCount g.cells gr ≠ g.states - 1) →
      g.solve_next = some (g, 0)) := by
  constructor
  · exact fun gres k h => solve_next_shape g gres k h
  · intro hwf hdf hstall
    obtain ⟨res, hres, himp⟩ := solve_next_run g hwf hdf
    rw [himp hstall] at hres
    exact hres

theorem C1_solve_next_frame_witness :
    ((demoRowGrid1 = demoRowGrid ∧ 1 = 0) ∨ (1 = 1 ∧ ClaimedFrom demoRowGrid demoRowGrid1)) ∧
    (Grid.new "123456789").solve_next = some (Grid.new "123456789", 0) :=
  ⟨(C1_solve_next_frame demoRowGrid).1 demoRowGrid1 1 (by decide),
   (C1_solve_next_frame (Grid.new "123456789")).2 (by decide) (by decide) (by decide)⟩

theorem nodup_two_le_length {l : List Nat} (hnd : l.Nodup) {v w : Nat}
    (hv : v ∈ l) (hw : w ∈ l) (hne : v ≠ w) : 2 ≤ l.length := by
  have hcard := List.toFinset_card_of_nodup hnd
  have h1 : 1 < l.toFinset.card := Finset.one_lt_card.mpr
    ⟨v, List.mem_toFinset.mpr hv, w, List.mem_toFinset.mpr hw, hne⟩
  omega

theorem countP_one_unique {l : List Nat} (p : Nat → Bool) (hnd : l.Nodup)
    (hcp : l.countP (fun x => !p x) = 1) {v w : Nat} (hv : v ∈ l) (hw : w ∈ l)
    (hpv : p v = false) (hpw : p w = false) : v = w := by
  by_contra hne
  have hfl : (l.filter (fun x => !p x)).length = 1 := by
    rw [← List.countP_eq_length_filter]
    exact hcp
  have hvf : v ∈ l.filter (fun x => !p x) :=
    List.mem_filter.mpr ⟨hv, by simp [hpv]⟩
  have hwf : w ∈ l.filter (fun x => !p x) :=
    List.mem_filter.mpr ⟨hw, by simp [hpw]⟩
  have h2 := nodup_two_le_length (hnd.filter _) hvf hwf hne
  omega

theorem solvedCount_countP (cells : List Cell) :
    ∀ (addrs : List Nat),
      solvedCount cells addrs = addrs.countP (fun a => (solvedValAt cells a).isSome) := by
  intro addrs
  induction addrs with
  | nil => rfl
  | cons a rest ih =>
    unfold solvedCount groupVals at ih ⊢
    rw [List.filterMap_cons, List.countP_cons]
    cases h : solvedValAt cells a
    · simp [h, ih]
    · simp [h]
      rw [ih]

theorem countP_self_add_neg (l : List Nat) (p : Nat → Bool) :
    l.countP p + l.countP (fun x => !p x) = l.length := by
  induction l with
  | nil => rfl
  | cons a rest ih =>
    rw [List.countP_cons, List.countP_cons]
    cases h : p a
    · simp [h]
      omega
    · simp [h]
      omega

theorem missing_val_unique (n : Nat) (V : List Nat) (hnd : V.Nodup)
    (hVn : ∀ x ∈ V, x < n) (hlenV : V.length = n - 1) (hn0 : 0 < n)
    {v w : Nat} (hv : v < n) (hvm : v ∉ V) (hw : w < n) (hwm : w ∉ V) : v = w := by
  have hc1 : (List.range n).countP (fun x => decide (x ∈ V)) = n - 1 := by
    rw [countP_range_mem n V hnd hVn, hlenV]
  have hsum := countP_self_add_neg (List.range n) (fun x => decide (x ∈ V))
  rw [List.length_range] at hsum
  have hc2 : (List.range n).countP (fun x => !decide (x ∈ V)) = 1 := by omega
  exact countP_one_unique (fun x => decide (x ∈ V)) (List.nodup_range n) hc2
    (List.mem_range.mpr hv) (List.mem_range.mpr hw) (by simp [hvm]) (by simp [hwm])

theorem unsolved_addr_unique (cells : List Cell) (addrs : List Nat) (n : Nat)
    (hnd : addrs.Nodup) (hlenA : addrs.length = n) (hn0 : 0 < n)
    (hcount : solvedCount cells addrs = n - 1)
    {a b : Nat} (ha : a ∈ addrs) (hb : b ∈ addrs)
    (hua : (solvedValAt cells a).isSome = false)
    (hub : (solvedValAt cells b).isSome = false) : a = b := by
  have hcp : addrs.countP (fun x => (solvedValAt cells x).isSome) = n - 1 := by
    rw [← solvedCount_countP]
    exact hcount
  have hsum := countP_self_add_neg addrs (fun x => (solvedValAt cells x).isSome)
  rw [hlenA] at hsum
  have hc2 : addrs.countP (fun x => !(solvedValAt cells x).isSome) = 1 := by omega
  exact countP_one_unique (fun x => (solvedValAt cells x).isSome) hnd hc2 ha hb hua hub

theorem claimFirstGap_claims (g : Grid) (missed : Nat) :
    ∀ (addrs : List Nat), (∀ a ∈ addrs, a < g.cells.length) →
      (∃ x ∈ addrs, ∃ c, g.cells[x]? = some c ∧ c.solved = false) →
      ∃ a c g2, claimFirstGap g missed addrs = some (some (g2, 1)) ∧
        a ∈ addrs ∧ g.cells[a]? = some c ∧ c.solved = false ∧
        Grid.claim_a g a missed = some g2 := by
  intro addrs
  induction addrs with
  | nil =>
    rintro _ ⟨x, hx, _⟩
    simp at hx
  | cons x rest ih =>
    rintro hb hex
    have hx : x < g.cells.length := hb x (by simp)
    obtain ⟨c0, hc0⟩ : ∃ c0, g.cells[x]? = some c0 := ⟨_, List.getElem?_eq_getElem hx⟩
    unfold claimFirstGap
    simp only [hc0]
    by_cases hs : c0.solved = true
    · rw [if_pos hs]
      have hex2 : ∃ y ∈ rest, ∃ c, g.cells[y]? = some c ∧ c.solved = false := by
        obtain ⟨y, hy, c, hcy, hcs⟩ := hex
        rcases List.mem_cons.mp hy with rfl | hyr
        · rw [hc0] at hcy
          cases Option.some.inj hcy
          exact absurd hs (by simp [hcs])
        · exact ⟨y, hyr, c, hcy, hcs⟩
      obtain ⟨a, c, g2, heq, ham, hread, hcs, hclaim⟩ :=
        ih (fun y hy => hb y (by simp [hy])) hex2
      exact ⟨a, c, g2, heq, by simp [ham], hread, hcs, hclaim⟩
    · rw [if_neg hs]
      have hs2 : c0.solved = false := by simpa using hs
      obtain ⟨g2, hclaim⟩ : ∃ g2, g.claim_a x missed = some g2 := by
        unfold Grid.claim_a
        simp [hc0, hs2]
      rw [hclaim]
      exact ⟨x, c0, g2, rfl, by simp, hc0, hs2, hclaim⟩

theorem rowAddrs_length (s y : Nat) : (rowAddrs s y).length = s := by
  unfold rowAddrs
  simp

theorem rowPassGo_claims (g : Grid) (rt : List (List Bool)) (n : Nat)
    (hn9 : n ≤ MAXSTATES) (hlen : g.cells.length = n * n)
    (hrt : MapSpec (fun r v => r < n ∧ v ∈ groupVals g.cells (rowAddrs n r)) rt)
    (hvals : ∀ a v : Nat, solvedValAt g.cells a = some v → v < n)
    (hrows : ∀ r2, r2 < n → (groupVals g.cells (rowAddrs n r2)).Nodup)
    (r : Nat) (hr : r < n)
    (hcount : solvedCount g.cells (rowAddrs n r) = n - 1) :
    ∀ (pre : List Nat), (∀ x ∈ pre, x < n) →
      (∀ x ∈ pre, solvedCount g.cells (rowAddrs n x) ≠ n - 1) →
      ∀ (post : List Nat),
      ∃ a c g2 v, rowPassGo g rt n (pre ++ r :: post) = some (some (g2, 1)) ∧
        a ∈ rowAddrs n r ∧ g.cells[a]? = some c ∧ c.solved = false ∧
        v < n ∧ v ∉ groupVals g.cells (rowAddrs n r) ∧
        Grid.claim_a g a v = some g2 := by
  intro pre
  induction pre with
  | nil =>
    intro _ _ post
    have hVn : ∀ x ∈ groupVals g.cells (rowAddrs n r), x < n :=
      val_lt_of_mem_groupVals g.cells n hvals (rowAddrs n r)
    obtain ⟨mr, hmr, hml, hcnt⟩ := map_marks_count rt _ hrt n r hr hn9
      (groupVals g.cells (rowAddrs n r)) (hrows r hr) hVn
      (fun v _ => ⟨fun hp => hp.2, fun hm => ⟨hr, hm⟩⟩)
    rw [List.nil_append, rowPassGo_cons]
    simp only [hmr, hcnt]
    unfold solvedCount at hcount
    rw [if_pos hcount]
    have hbnd : ∀ i ∈ List.range n, i < mr.length := by
      intro i hi
      rw [hml]
      have := List.mem_range.mp hi
      omega
    obtain ⟨missed, hmissed⟩ := findFirstFalse_total mr (List.range n) hbnd
    have hexf : ∃ i ∈ List.range n, mr.getD i false = false := by
      by_contra hall
      push_neg at hall
      have hcall : ∀ i ∈ List.range n, (fun i => mr.getD i false) i = true := by
        intro i hi
        cases hx : mr.getD i false
        · exact absurd hx (hall i hi)
        · exact hx
      have := List.countP_eq_length.mpr hcall
      rw [List.length_range] at this
      rw [countTrue_spec mr (List.range n) 0 hbnd, Nat.zero_add] at hcnt
      have hcnt2 := Option.some.inj hcnt
      rw [this] at hcnt2
      have hn0 : 0 < n := by omega
      omega
    obtain ⟨hmm, hmf⟩ := findFirstFalse_mem mr (List.range n) missed hbnd hexf hmissed
    have hmn : missed < n := List.mem_range.mp hmm
    obtain ⟨mr2, hmr2, hml2, hiff⟩ := hrt.2 r (by omega)
    have hmreq : mr2 = mr := by
      rw [hmr] at hmr2
      exact (Option.some.inj hmr2).symm
    subst hmreq
    have hnotmem : missed ∉ groupVals g.cells (rowAddrs n r) := by
      intro hmem
      have := (hiff missed (by omega)).mpr ⟨hr, hmem⟩
      rw [hmf] at this
      exact Bool.noConfusion this
    have haddrb : ∀ a ∈ rowAddrs n r, a < g.cells.length := by
      intro a ha
      rw [hlen]
      exact rowAddrs_lt n r hr a ha
    have hn0 : 0 < n := by omega
    have hexu : ∃ x ∈ rowAddrs n r, ∃ c, g.cells[x]? = some c ∧ c.solved = false := by
      apply exists_unsolved_of_count g.cells (rowAddrs n r) haddrb
      unfold solvedCount
      rw [hcount, rowAddrs_length]
      omega
    obtain ⟨a, c, g2, hcg, ham, hread, hcs, hclaim⟩ :=
      claimFirstGap_claims g missed (rowAddrs n r) haddrb hexu
    simp only [hmissed]
    have hrl : rowAddrs n r = (List.range n).map (fun col => r * n + col) := rfl
    rw [hrl] at hcg
    simp only [hcg]
    exact ⟨a, c, g2, missed, rfl, ham, hread, hcs, hmn, hnotmem, hclaim⟩
  | cons x pre2 ih =>
    intro hpn hpc post
    have hxn : x < n := hpn x (by simp)
    have hVnx : ∀ y ∈ groupVals g.cells (rowAddrs n x), y < n :=
      val_lt_of_mem_groupVals g.cells n hvals (rowAddrs n x)
    obtain ⟨mx, hmx, hmlx, hcntx⟩ := map_marks_count rt _ hrt n x hxn hn9
      (groupVals g.cells (rowAddrs n x)) (hrows x hxn) hVnx
      (fun v _ => ⟨fun hp => hp.2, fun hm => ⟨hxn, hm⟩⟩)
    rw [List.cons_append, rowPassGo_cons]
    simp only [hmx, hcntx]
    have hxne : (groupVals g.cells (rowAddrs n x)).length ≠ n - 1 := hpc x (by simp)
    rw [if_neg hxne]
    exact ih (fun y hy => hpn y (by simp [hy])) (fun y hy => hpc y (by simp [hy])) post

/-- C2: on every well-formed duplicate-free grid some row `r` of which has
exactly `states - 1` solved cells (and no earlier row does, rows being tried
in order), `solve_next` returns `1` having claimed an unsolved cell of that
row — the row's single unsolved cell — with the unique value missing from the
row; a second call returns `0` on any resulting well-formed duplicate-free
grid with no remaining `states - 1` group. Concretely, on the 9-state grid
with row 0 loaded as `[2,3,4,5,6,7,8,9,0]`, the engine claims row 0's last
cell (address 8) with stored value `0` (symbol "1") and returns `1`, and the
second call returns `0` leaving the grid unchanged. -/
theorem C2_row_completion :
    (∀ (g : Grid) (r : Nat), g.wf → g.dupFree → r < g.states →
      solvedCount g.cells (rowAddrs g.states r) = g.states - 1 →
      (∀ r2 : Nat, r2 < r → solvedCount g.cells (rowAddrs g.states r2) ≠ g.states - 1) →
      ∃ a c g2 v, g.solve_next = some (g2, 1) ∧
        a ∈ rowAddrs g.states r ∧ g.cells[a]? = some c ∧ c.solved = false ∧
        (∀ b ∈ rowAddrs g.states r, b ≠ a → ∃ c2, g.cells[b]? = some c2 ∧ c2.solved = true) ∧
        v < g.states ∧ v ∉ groupVals g.cells (rowAddrs g.states r) ∧
        (∀ w : Nat, w < g.states → w ∉ groupVals g.cells (rowAddrs g.states r) → w = v) ∧
        Grid.claim_a g a v = some g2) ∧
    (∀ g2 : Grid, g2.wf → g2.dupFree →
      (∀ gr ∈ g2.allGroups, solvedCount g2.cells gr ≠ g2.states - 1) →
      g2.solve_next = some (g2, 0)) ∧
    demoRowGrid.solve_next = some (demoRowGrid1, 1) ∧
    (demoRowGrid.cells.getD 8 dCell).solved = false ∧
    (demoRowGrid1.cells.getD 8 dCell).solved = true ∧
    (demoRowGrid1.cells.getD 8 dCell).solution = 0 ∧
    demoRowGrid1.symbols[0]? = some '1' ∧
    demoRowGrid1.solve_next = some (demoRowGrid1, 0) := by
  refine ⟨?_, ?_, by decide, by decide, by decide, by decide, by decide, by decide⟩
  · intro g r hwf hdf hr hcount hpre
    have hvals : ∀ a v : Nat, solvedValAt g.cells a = some v → v < g.states :=
      wf_solvedValAt g hwf
    obtain ⟨hmr, hmc, hmb⟩ := groups_mem g
    have hrows : ∀ r2, r2 < g.states → (groupVals g.cells (rowAddrs g.states r2)).Nodup :=
      fun r2 hr2 => hdf _ (hmr r2 hr2)
    have hcols : ∀ c, c < g.states → (groupVals g.cells (colAddrs g.states c)).Nodup :=
      fun c hc => hdf _ (hmc c hc)
    obtain ⟨hn9, hbw3, hbwn, hlen, _⟩ := hwf
    obtain ⟨rt, ct, hbm, hrtspec, _⟩ :=
      buildMaps_spec g.cells g.states hn9 hlen hvals hrows hcols
    have hsp := stripePass_total g.cells g.states g.isqrt hbw3 hbwn hlen
    obtain ⟨a, c, g2, v, hcg, ham, hread, hcs, hvn, hvm, hclaim⟩ :=
      rowPassGo_claims g rt g.states hn9 hlen hrtspec hvals hrows r hr hcount
        (List.range r) (fun x hx => lt_trans (List.mem_range.mp hx) hr)
        (fun x hx => hpre x (List.mem_range.mp hx))
        ((List.range (g.states - r - 1)).map (fun i => r + 1 + i))
    have hdecomp : List.range g.states =
        List.range r ++ r :: (List.range (g.states - r - 1)).map (fun i => r + 1 + i) := by
      have h1 : g.states = (r + 1) + (g.states - r - 1) := by omega
      conv_lhs => rw [h1]
      rw [List.range_add, List.range_succ, List.append_assoc]
      rfl
    refine ⟨a, c, g2, v, ?_, ham, hread, hcs, ?_, hvn, hvm, ?_, hclaim⟩
    · simp only [Grid.solve_next, hbm, hsp, hdecomp, hcg]
    · intro b hbm2 hba
      have hblt : b < g.cells.length := by
        rw [hlen]
        exact rowAddrs_lt g.states r hr b hbm2
      obtain ⟨c2, hc2⟩ : ∃ c2, g.cells[b]? = some c2 := ⟨_, List.getElem?_eq_getElem hblt⟩
      refine ⟨c2, hc2, ?_⟩
      by_contra hns
      have hc2s : c2.solved = false := by simpa using hns
      have hub : (solvedValAt g.cells b).isSome = false := by
        simp [solvedValAt, hc2, hc2s]
      have hua : (solvedValAt g.cells a).isSome = false := by
        simp [solvedValAt, hread, hcs]
      have hn0 : 0 < g.states := by omega
      exact hba (unsolved_addr_unique g.cells (rowAddrs g.states r) g.states
        (rowAddrs_nodup g.states r) (rowAddrs_length g.states r) hn0 hcount
        hbm2 ham hub hua)
    · intro w hw hwm
      have hVn : ∀ x ∈ groupVals g.cells (rowAddrs g.states r), x < g.states :=
        val_lt_of_mem_groupVals g.cells g.states hvals (rowAddrs g.states r)
      have hn0 : 0 < g.states := by omega
      exact missing_val_unique g.states (groupVals g.cells (rowAddrs g.states r))
        (hrows r hr) hVn hcount hn0 hw hwm hvn hvm
  · intro g2 hwf hdf hstall
    obtain ⟨res, hres, himp⟩ := solve_next_run g2 hwf hdf
    rw [himp hstall] at hres
    exact hres

theorem C2_row_completion_witness :
    ∃ a c g2 v, demoRowGrid.solve_next = some (g2, 1) ∧
      a ∈ rowAddrs demoRowGrid.states 0 ∧ demoRowGrid.cells[a]? = some c ∧
      c.solved = false ∧
      (∀ b ∈ rowAddrs demoRowGrid.states 0, b ≠ a →
        ∃ c2, demoRowGrid.cells[b]? = some c2 ∧ c2.solved = true) ∧
      v < demoRowGrid.states ∧
      v ∉ groupVals demoRowGrid.cells (rowAddrs demoRowGrid.states 0) ∧
      (∀ w : Nat, w < demoRowGrid.states →
        w ∉ groupVals demoRowGrid.cells (rowAddrs demoRowGrid.states 0) → w = v) ∧
      Grid.claim_a demoRowGrid a v = some g2 :=
  C2_row_completion.1 demoRowGrid 0 (by decide) (by decide) (by decide) (by decide)
    (fun r2 hr2 => absurd hr2 (Nat.not_lt_zero r2))

theorem cellsSimX_read (cs ds : List Cell) (h : CellsSimX cs ds) (a : Nat) :
    (cs[a]? = none ∧ ds[a]? = none) ∨
    ∃ c d, cs[a]? = some c ∧ ds[a]? = some d ∧ CellEqX c d := by
  by_cases ha : a < cs.length
  · have ha2 : a < ds.length := h.1 ▸ ha
    have hc : cs[a]? = some (cs.getD a dCell) := by
      rw [List.getD_eq_getElem?_getD, List.getElem?_eq_getElem ha]
      rfl
    have hd : ds[a]? = some (ds.getD a dCell) := by
      rw [List.getD_eq_getElem?_getD, List.getElem?_eq_getElem ha2]
      rfl
    exact Or.inr ⟨_, _, hc, hd, h.2 a ha⟩
  · have ha2 : ¬ a < ds.length := by rw [← h.1]; exact ha
    exact Or.inl ⟨List.getElem?_eq_none (by omega), List.getElem?_eq_none (by omega)⟩

theorem cellsSimX_set (cs ds : List Cell) (h : CellsSimX cs ds) (a : Nat) (x y : Cell)
    (hxy : CellEqX x y) : CellsSimX (cs.set a x) (ds.set a y) := by
  refine ⟨by simp [h.1], ?_⟩
  intro i hi
  rw [List.length_set] at hi
  by_cases hia : i = a
  · subst hia
    rw [getD_set_self cs i x dCell hi, getD_set_self ds i y dCell (h.1 ▸ hi)]
    exact hxy
  · rw [getD_set_ne cs a i x dCell (fun hh => hia hh.symm),
      getD_set_ne ds a i y dCell (fun hh => hia hh.symm)]
    exact h.2 i hi

theorem buildMapsGo_rel (cs ds : List Cell) (n : Nat) (h : CellsSimX cs ds) :
    ∀ (ps : List (Nat × Nat)) (rt ct : List (List Bool)),
      buildMapsGo cs n rt ct ps = buildMapsGo ds n rt ct ps := by
  intro ps
  induction ps with
  | nil =>
    intro rt ct
    rfl
  | cons p rest ih =>
    intro rt ct
    obtain ⟨row, col⟩ := p
    rw [buildMapsGo_cons, buildMapsGo_cons]
    rcases cellsSimX_read cs ds h (row * n + col) with ⟨hc, hd⟩ | ⟨c, d, hc, hd, heqx⟩
    · rw [hc, hd]
    · simp only [hc, hd]
      rw [show d.solved = c.solved from heqx.1.symm,
        show d.solution = c.solution from heqx.2.1.symm]
      by_cases hcs : c.solved = true
      · rw [if_pos hcs, if_pos hcs]
        cases hrt : rt[row]? with
        | none => rfl
        | some rrow =>
          dsimp only
          cases hrb : rrow[c.solution]? with
          | none => rfl
          | some rb =>
            dsimp only
            cases hct : ct[col]? with
            | none => rfl
            | some crow =>
              dsimp only
              cases hcb : crow[c.solution]? with
              | none => rfl
              | some cb =>
                dsimp only
                by_cases horb : (rb || cb) = true
                · rw [if_pos horb, if_pos horb]
                · rw [if_neg horb, if_neg horb]
                  exact ih _ _
      · rw [if_neg hcs, if_neg hcs]
        exact ih rt ct

theorem stripeCells_rel (cs ds : List Cell) (h : CellsSimX cs ds)
    (bw state start row : Nat) :
    ∀ (idxs : List Nat) (acc : Nat × List Bool × List (List Bool)),
      stripeCells cs bw state start row acc idxs =
        stripeCells ds bw state start row acc idxs := by
  intro idxs
  induction idxs with
  | nil =>
    intro acc
    rfl
  | cons el rest ih =>
    intro acc
    obtain ⟨used, ru, sm⟩ := acc
    rw [stripeCells_cons, stripeCells_cons]
    rcases cellsSimX_read cs ds h (start + el) with ⟨hc, hd⟩ | ⟨c, d, hc, hd, heqx⟩
    · rw [hc, hd]
    · simp only [hc, hd]
      rw [show d.solved = c.solved from heqx.1.symm,
        show d.solution = c.solution from heqx.2.1.symm]
      by_cases hcond : (c.solved && decide (c.solution = state)) = true
      · rw [if_pos hcond, if_pos hcond]
        by_cases hlt : row < ru.length
        · rw [if_pos hlt, if_pos hlt]
          cases hsm : sm[row]? with
          | none => rfl
          | some srow =>
            dsimp only
            by_cases hel : el / bw < srow.length
            · rw [if_pos hel, if_pos hel]
              exact ih _
            · rw [if_neg hel, if_neg hel]
        · rw [if_neg hlt, if_neg hlt]
      · rw [if_neg hcond, if_neg hcond]
        exact ih _

theorem stripeRows_rel (cs ds : List Cell) (h : CellsSimX cs ds)
    (n bw state grid_block : Nat) :
    ∀ (rows : List Nat) (acc : Nat × List Bool × List (List Bool)),
      stripeRows cs n bw state grid_block acc rows =
        stripeRows ds n bw state grid_block acc rows := by
  intro rows
  induction rows with
  | nil =>
    intro acc
    rfl
  | cons row rest ih =>
    intro acc
    rw [stripeRows_cons, stripeRows_cons,
      stripeCells_rel cs ds h bw state ((grid_block * bw + row) * n) row (List.range n) acc]
    cases hsc : stripeCells ds bw state ((grid_block * bw + row) * n) row acc
      (List.range n) with
    | none => rfl
    | some acc1 => exact ih acc1

theorem stripeOne_rel (cs ds : List Cell) (h : CellsSimX cs ds)
    (n bw grid_block state : Nat) :
    stripeOne cs n bw grid_block state = stripeOne ds n bw grid_block state := by
  unfold stripeOne
  rw [stripeRows_rel cs ds h n bw state grid_block (List.range bw)]

theorem stripeStates_rel (cs ds : List Cell) (h : CellsSimX cs ds) (n bw grid_block : Nat) :
    ∀ (states : List Nat),
      stripeStates cs n bw grid_block states = stripeStates ds n bw grid_block states := by
  intro states
  induction states with
  | nil => rfl
  | cons s rest ih =>
    unfold stripeStates
    rw [stripeOne_rel cs ds h n bw grid_block s]
    cases stripeOne ds n bw grid_block s with
    | none => rfl
    | some u => exact ih

theorem stripeBlocks_rel (cs ds : List Cell) (h : CellsSimX cs ds) (n bw : Nat) :
    ∀ (bs : List Nat), stripeBlocks cs n bw bs = stripeBlocks ds n bw bs := by
  intro bs
  induction bs with
  | nil => rfl
  | cons b rest ih =>
    unfold stripeBlocks
    rw [stripeStates_rel cs ds h n bw b (List.range n)]
    cases stripeStates ds n bw b (List.range n) with
    | none => rfl
    | some u => exact ih

theorem stripePass_rel (cs ds : List Cell) (h : CellsSimX cs ds) (n bw : Nat) :
    stripePass cs n bw = stripePass ds n bw :=
  stripeBlocks_rel cs ds h n bw (List.range bw)

theorem blockScan_rel (cs ds : List Cell) (h : CellsSimX cs ds) :
    ∀ (addrs : List Nat) (t : List Bool) (mema : Nat),
      blockScan cs t mema addrs = blockScan ds t mema addrs := by
  intro addrs
  induction addrs with
  | nil =>
    intro t mema
    rfl
  | cons a rest ih =>
    intro t mema
    rw [blockScan_cons, blockScan_cons]
    rcases cellsSimX_read cs ds h a with ⟨hc, hd⟩ | ⟨c, d, hc, hd, heqx⟩
    · rw [hc, hd]
    · simp only [hc, hd]
      rw [show d.solved = c.solved from heqx.1.symm,
        show d.solution = c.solution from heqx.2.1.symm]
      by_cases hcs : c.solved = true
      · rw [if_pos hcs, if_pos hcs]
        cases ht : t[c.solution]? with
        | none => rfl
        | some b =>
          dsimp only
          by_cases hb : b = true
          · rw [if_pos hb, if_pos hb]
          · rw [if_neg hb, if_neg hb]
            exact ih _ mema
      · rw [if_neg hcs, if_neg hcs]
        exact ih t a

theorem cellEqX_flag (c d : Cell) (hx : CellEqX c d) :
    CellEqX { c with highlight := 2 } { d with highlight := 2 } :=
  ⟨hx.1, hx.2.1, hx.2.2.1, hx.2.2.2.1, hx.2.2.2.2.1, hx.2.2.2.2.2⟩

theorem cellEqX_update (c d : Cell) (hx : CellEqX c d) (v : Nat) :
    CellEqX { c with solved := true, solution := v, highlight := 1 }
      { d with solved := true, solution := v, highlight := 1 } :=
  ⟨rfl, rfl, hx.2.2.1, hx.2.2.2.1, hx.2.2.2.2.1, hx.2.2.2.2.2⟩

theorem checkAddrs_rel :
    ∀ (addrs : List Nat) (cs ds : List Cell), CellsSimX cs ds →
    ∀ (t : List Bool) (valid : Bool),
      (checkAddrs cs t valid addrs = none ∧ checkAddrs ds t valid addrs = none) ∨
      ∃ cs1 ds1 t1 v1, checkAddrs cs t valid addrs = some (cs1, t1, v1) ∧
        checkAddrs ds t valid addrs = some (ds1, t1, v1) ∧ CellsSimX cs1 ds1 := by
  intro addrs
  induction addrs with
  | nil =>
    intro cs ds h t valid
    exact Or.inr ⟨cs, ds, t, valid, rfl, rfl, h⟩
  | cons a rest ih =>
    intro cs ds h t valid
    rw [checkAddrs_cons, checkAddrs_cons]
    rcases cellsSimX_read cs ds h a with ⟨hc, hd⟩ | ⟨c, d, hc, hd, heqx⟩
    · rw [hc, hd]
      exact Or.inl ⟨rfl, rfl⟩
    · simp only [hc, hd]
      rw [show d.solved = c.solved from heqx.1.symm,
        show d.solution = c.solution from heqx.2.1.symm]
      by_cases hcs : c.solved = true
      · rw [if_pos hcs, if_pos hcs]
        cases ht : t[c.solution]? with
        | none => exact Or.inl ⟨rfl, rfl⟩
        | some b =>
          dsimp only
          by_cases hb : b = true
          · rw [if_pos hb, if_pos hb]
            refine ih _ _ (cellsSimX_set cs ds h a _ _ ?_) _ _
            refine ⟨?_, ?_, ?_, ?_, ?_, ?_⟩ <;>
              first
              | rfl
              | exact heqx.2.2.1
              | exact heqx.2.2.2.1
              | exact heqx.2.2.2.2.1
              | exact heqx.2.2.2.2.2
          · rw [if_neg hb, if_neg hb]
            exact ih _ _ h _ _
      · rw [if_neg hcs, if_neg hcs]
        exact ih _ _ h _ _

theorem checkGroups_rel (states : Nat) :
    ∀ (groups : List (List Nat)) (cs ds : List Cell), CellsSimX cs ds →
    ∀ (t : List Bool) (valid : Bool),
      (checkGroups states cs t valid groups = none ∧
        checkGroups states ds t valid groups = none) ∨
      ∃ cs1 ds1 t1 v1, checkGroups states cs t valid groups = some (cs1, t1, v1) ∧
        checkGroups states ds t valid groups = some (ds1, t1, v1) ∧ CellsSimX cs1 ds1 := by
  intro groups
  induction groups with
  | nil =>
    intro cs ds h t valid
    exact Or.inr ⟨cs, ds, t, valid, rfl, rfl, h⟩
  | cons addrs rest ih =>
    intro cs ds h t valid
    rw [checkGroups_cons, checkGroups_cons]
    cases hr : resetFirst t states with
    | none => exact Or.inl ⟨rfl, rfl⟩
    | some t0 =>
      dsimp only
      rcases checkAddrs_rel addrs cs ds h t0 valid with ⟨h1, h2⟩ | ⟨cs1, ds1, t1, v1, h1, h2, hsim1⟩
      · rw [h1, h2]
        exact Or.inl ⟨rfl, rfl⟩
      · rw [h1, h2]
        exact ih cs1 ds1 hsim1 t1 v1

theorem validate_rel (g g2 : Grid) (h : Grid.SimX g g2) :
    (g.validate = none ∧ g2.validate = none) ∨
    ∃ h1 h2 b, g.validate = some (h1, b) ∧ g2.validate = some (h2, b) ∧ Grid.SimX h1 h2 := by
  obtain ⟨hname, hdict, hstatus, hstates, hisqrt, hsize, hsym, hlen, hcells⟩ := h
  have hsim : CellsSimX g.cells g2.cells := ⟨hlen, hcells⟩
  have hgroups : g2.allGroups = g.allGroups := by
    unfold Grid.allGroups
    rw [hstates, hisqrt]
  unfold Grid.validate
  rw [← hstates, hgroups]
  rcases checkGroups_rel g.states g.allGroups g.cells g2.cells hsim
      (List.replicate MAXSTATES false) true with ⟨h1, h2⟩ | ⟨cs1, ds1, t1, v1, h1, h2, hsim1⟩
  · rw [h1, h2]
    exact Or.inl ⟨rfl, rfl⟩
  · rw [h1, h2]
    refine Or.inr ⟨_, _, v1, rfl, rfl, ?_⟩
    exact ⟨hname, hdict, hstatus, rfl, hisqrt, hsize, hsym, hsim1.1, hsim1.2⟩

theorem claim_a_rel (g g2 : Grid) (h : Grid.SimX g g2) (a v : Nat) :
    (g.claim_a a v = none ∧ g2.claim_a a v = none) ∨
    ∃ r1 r2, g.claim_a a v = some r1 ∧ g2.claim_a a v = some r2 ∧ Grid.SimX r1 r2 := by
  obtain ⟨hname, hdict, hstatus, hstates, hisqrt, hsize, hsym, hlen, hcells⟩ := h
  have hsim : CellsSimX g.cells g2.cells := ⟨hlen, hcells⟩
  unfold Grid.claim_a
  rcases cellsSimX_read g.cells g2.cells hsim a with ⟨hc, hd⟩ | ⟨c, d, hc, hd, heqx⟩
  · rw [hc, hd]
    exact Or.inl ⟨rfl, rfl⟩
  · simp only [hc, hd]
    rw [show d.solved = c.solved from heqx.1.symm]
    by_cases hcs : c.solved = true
    · rw [if_pos hcs, if_pos hcs]
      exact Or.inl ⟨rfl, rfl⟩
    · rw [if_neg hcs, if_neg hcs]
      have hset := cellsSimX_set g.cells g2.cells hsim a _ _ (cellEqX_update c d heqx v)
      exact Or.inr ⟨_, _, rfl, rfl,
        hname, hdict, hstatus, hstates, hisqrt, hsize, hsym, hset.1, hset.2⟩

theorem claimFirstGap_rel (g g2 : Grid) (h : Grid.SimX g g2) (missed : Nat) :
    ∀ (addrs : List Nat),
      (claimFirstGap g missed addrs = none ∧ claimFirstGap g2 missed addrs = none) ∨
      (claimFirstGap g missed addrs = some none ∧ claimFirstGap g2 missed addrs = some none) ∨
      ∃ r1 r2 k, claimFirstGap g missed addrs = some (some (r1, k)) ∧
        claimFirstGap g2 missed addrs = some (some (r2, k)) ∧ Grid.SimX r1 r2 := by
  have hsim : CellsSimX g.cells g2.cells := ⟨h.2.2.2.2.2.2.2.1, h.2.2.2.2.2.2.2.2⟩
  intro addrs
  induction addrs with
  | nil => exact Or.inr (Or.inl ⟨rfl, rfl⟩)
  | cons a rest ih =>
    unfold claimFirstGap
    rcases cellsSimX_read g.cells g2.cells hsim a with ⟨hc, hd⟩ | ⟨c, d, hc, hd, heqx⟩
    · rw [hc, hd]
      exact Or.inl ⟨rfl, rfl⟩
    · simp only [hc, hd]
      rw [show d.solved = c.solved from heqx.1.symm]
      by_cases hcs : c.solved = true
      · rw [if_pos hcs, if_pos hcs]
        exact ih
      · rw [if_neg hcs, if_neg hcs]
        rcases claim_a_rel g g2 h a missed with ⟨h1, h2⟩ | ⟨r1, r2, h1, h2, hsx⟩
        · rw [h1, h2]
          exact Or.inl ⟨rfl, rfl⟩
        · rw [h1, h2]
          exact Or.inr (Or.inr ⟨r1, r2, 1, rfl, rfl, hsx⟩)

theorem rowPassGo_rel (g g2 : Grid) (h : Grid.SimX g g2) (rt : List (List Bool)) (n : Nat) :
    ∀ (rows : List Nat),
      (rowPassGo g rt n rows = none ∧ rowPassGo g2 rt n rows = none) ∨
      (rowPassGo g rt n rows = some none ∧ rowPassGo g2 rt n rows = some none) ∨
      ∃ r1 r2 k, rowPassGo g rt n rows = some (some (r1, k)) ∧
        rowPassGo g2 rt n rows = some (some (r2, k)) ∧ Grid.SimX r1 r2 := by
  intro rows
  induction rows with
  | nil => exact Or.inr (Or.inl ⟨rfl, rfl⟩)
  | cons row rest ih =>
    rw [rowPassGo_cons, rowPassGo_cons]
    cases hmr : rt[row]? with
    | none => exact Or.inl ⟨rfl, rfl⟩
    | some trow =>
      dsimp only
      cases hcnt : countTrue trow (List.range n) 0 with
      | none => exact Or.inl ⟨rfl, rfl⟩
      | some used =>
        dsimp only
        by_cases hused : used = n - 1
        · rw [if_pos hused, if_pos hused]
          cases hff : findFirstFalse trow (List.range n) with
          | none => exact Or.inl ⟨rfl, rfl⟩
          | some missed =>
            dsimp only
            rcases claimFirstGap_rel g g2 h missed
                ((List.range n).map (fun col => row * n + col)) with
              ⟨h1, h2⟩ | ⟨h1, h2⟩ | ⟨r1, r2, k, h1, h2, hsx⟩
            · rw [h1, h2]
              exact Or.inl ⟨rfl, rfl⟩
            · rw [h1, h2]
              exact ih
            · rw [h1, h2]
              exact Or.inr (Or.inr ⟨r1, r2, k, rfl, rfl, hsx⟩)
        · rw [if_neg hused, if_neg hused]
          exact ih

theorem colPassGo_rel (g g2 : Grid) (h : Grid.SimX g g2) (ct : List (List Bool)) (n : Nat) :
    ∀ (cols : List Nat),
      (colPassGo g ct n cols = none ∧ colPassGo g2 ct n cols = none) ∨
      (colPassGo g ct n cols = some none ∧ colPassGo g2 ct n cols = some none) ∨
      ∃ r1 r2 k, colPassGo g ct n cols = some (some (r1, k)) ∧
        colPassGo g2 ct n cols = some (some (r2, k)) ∧ Grid.SimX r1 r2 := by
  intro cols
  induction cols with
  | nil => exact Or.inr (Or.inl ⟨rfl, rfl⟩)
  | cons col rest ih =>
    rw [colPassGo_cons, colPassGo_cons]
    cases hmc : ct[col]? with
    | none => exact Or.inl ⟨rfl, rfl⟩
    | some tcol =>
      dsimp only
      cases hcnt : countTrue tcol (List.range n) 0 with
      | none => exact Or.inl ⟨rfl, rfl⟩
      | some used =>
        dsimp only
        by_cases hused : used = n - 1
        · rw [if_pos hused, if_pos hused]
          cases hff : findFirstFalse tcol (List.range n) with
          | none => exact Or.inl ⟨rfl, rfl⟩
          | some missed =>
            dsimp only
            rcases claimFirstGap_rel g g2 h missed
                ((List.range n).map (fun row => row * n + col)) with
              ⟨h1, h2⟩ | ⟨h1, h2⟩ | ⟨r1, r2, k, h1, h2, hsx⟩
            · rw [h1, h2]
              exact Or.inl ⟨rfl, rfl⟩
            · rw [h1, h2]
              exact ih
            · rw [h1, h2]
              exact Or.inr (Or.inr ⟨r1, r2, k, rfl, rfl, hsx⟩)
        · rw [if_neg hused, if_neg hused]
          exact ih

theorem blockPassGo_rel (g g2 : Grid) (h : Grid.SimX g g2) (n bw : Nat) :
    ∀ (bs : List Nat) (t : List Bool),
      (blockPassGo g n bw t bs = none ∧ blockPassGo g2 n bw t bs = none) ∨
      (blockPassGo g n bw t bs = some none ∧ blockPassGo g2 n bw t bs = some none) ∨
      ∃ r1 r2 k, blockPassGo g n bw t bs = some (some (r1, k)) ∧
        blockPassGo g2 n bw t bs = some (some (r2, k)) ∧ Grid.SimX r1 r2 := by
  have hsim : CellsSimX g.cells g2.cells := ⟨h.2.2.2.2.2.2.2.1, h.2.2.2.2.2.2.2.2⟩
  intro bs
  induction bs with
  | nil =>
    intro t
    exact Or.inr (Or.inl ⟨rfl, rfl⟩)
  | cons b rest ih =>
    intro t
    rw [blockPassGo_cons, blockPassGo_cons]
    cases hr : resetFirst t n with
    | none => exact Or.inl ⟨rfl, rfl⟩
    | some t0 =>
      dsimp only
      rw [blockScan_rel g.cells g2.cells hsim (blockAddrs n bw b) t0 0]
      cases hscan : blockScan g2.cells t0 0 (blockAddrs n bw b) with
      | none => exact Or.inl ⟨rfl, rfl⟩
      | some p =>
        obtain ⟨t1, mema⟩ := p
        dsimp only
        cases hcnt : countTrue t1 (List.range n) 0 with
        | none => exact Or.inl ⟨rfl, rfl⟩
        | some used =>
          dsimp only
          by_cases hused : used = n - 1
          · rw [if_pos hused, if_pos hused]
            cases hff : findFirstFalse t1 (List.range n) with
            | none => exact Or.inl ⟨rfl, rfl⟩
            | some missed =>
              dsimp only
              rcases cellsSimX_read g.cells g2.cells hsim mema with
                ⟨hc, hd⟩ | ⟨c, d, hc, hd, heqx⟩
              · rw [hc, hd]
                exact Or.inl ⟨rfl, rfl⟩
              · simp only [hc, hd]
                rw [show d.solved = c.solved from heqx.1.symm]
                by_cases hcs : c.solved = true
                · rw [if_pos hcs, if_pos hcs]
                  exact Or.inl ⟨rfl, rfl⟩
                · rw [if_neg hcs, if_neg hcs]
                  rcases claim_a_rel g g2 h mema missed with ⟨h1, h2⟩ | ⟨r1, r2, h1, h2, hsx⟩
                  · rw [h1, h2]
                    exact Or.inl ⟨rfl, rfl⟩
                  · rw [h1, h2]
                    exact Or.inr (Or.inr ⟨r1, r2, 1, rfl, rfl, hsx⟩)
          · rw [if_neg hused, if_neg hused]
            exact ih t1

theorem buildMaps_rel (cs ds : List Cell) (h : CellsSimX cs ds) (n : Nat) :
    buildMaps cs n = buildMaps ds n := by
  unfold buildMaps
  exact buildMapsGo_rel cs ds n h (gridPairs n) _ _

theorem solve_next_rel (g g2 : Grid) (h : Grid.SimX g g2) :
    (g.solve_next = none ∧ g2.solve_next = none) ∨
    ∃ h1 h2 k, g.solve_next = some (h1, k) ∧ g2.solve_next = some (h2, k) ∧ Grid.SimX h1 h2 := by
  have hsim : CellsSimX g.cells g2.cells := ⟨h.2.2.2.2.2.2.2.1, h.2.2.2.2.2.2.2.2⟩
  have hstates : g.states = g2.states := h.2.2.2.1
  have hisqrt : g.isqrt = g2.isqrt := h.2.2.2.2.1
  simp only [Grid.solve_next]
  rw [← hstates, ← hisqrt, ← buildMaps_rel g.cells g2.cells hsim g.states]
  cases hbm : buildMaps g.cells g.states with
  | none => exact Or.inl ⟨rfl, rfl⟩
  | some maps =>
    obtain ⟨rt, ct⟩ := maps
    dsimp only
    rw [← stripePass_rel g.cells g2.cells hsim g.states g.isqrt]
    cases hsp : stripePass g.cells g.states g.isqrt with
    | none => exact Or.inl ⟨rfl, rfl⟩
    | some u =>
      dsimp only
      rcases rowPassGo_rel g g2 h rt g.states (List.range g.states) with
        ⟨h1, h2⟩ | ⟨h1, h2⟩ | ⟨r1, r2, k, h1, h2, hsx⟩
      · rw [h1, h2]
        exact Or.inl ⟨rfl, rfl⟩
      · rw [h1, h2]
        dsimp only
        rcases colPassGo_rel g g2 h ct g.states (List.range g.states) with
          ⟨h3, h4⟩ | ⟨h3, h4⟩ | ⟨r1, r2, k, h3, h4, hsx⟩
        · rw [h3, h4]
          exact Or.inl ⟨rfl, rfl⟩
        · rw [h3, h4]
          dsimp only
          rcases blockPassGo_rel g g2 h g.states g.isqrt (List.range g.states)
              (List.replicate MAXSTATES false) with
            ⟨h5, h6⟩ | ⟨h5, h6⟩ | ⟨r1, r2, k, h5, h6, hsx⟩
          · rw [h5, h6]
            exact Or.inl ⟨rfl, rfl⟩
          · rw [h5, h6]
            exact Or.inr ⟨g, g2, 0, rfl, rfl, h⟩
          · rw [h5, h6]
            exact Or.inr ⟨r1, r2, k, rfl, rfl, hsx⟩
        · rw [h3, h4]
          exact Or.inr ⟨r1, r2, k, rfl, rfl, hsx⟩
      · rw [h1, h2]
        exact Or.inr ⟨r1, r2, k, rfl, rfl, hsx⟩

/-- C9: the per-cell highlight is write-only for the core logic. For any two
grids identical except for the highlight values of their cells, `validate`
aborts on both or returns the same verdict on both with outputs again
identical up to highlights, and `solve_next` aborts on both or returns the
same count on both with result grids again identical up to highlights (in
particular with the same solved/solution state). -/
theorem C9_highlight_writeonly (g g2 : Grid) (h : Grid.SimX g g2) :
    ((g.validate = none ∧ g2.validate = none) ∨
      ∃ h1 h2 b, g.validate = some (h1, b) ∧ g2.validate = some (h2, b) ∧ Grid.SimX h1 h2) ∧
    ((g.solve_next = none ∧ g2.solve_next = none) ∨
      ∃ h1 h2 k, g.solve_next = some (h1, k) ∧ g2.solve_next = some (h2, k) ∧
        Grid.SimX h1 h2) :=
  ⟨validate_rel g g2 h, solve_next_rel g g2 h⟩

theorem C9_highlight_writeonly_witness :
    ((demoRowGrid.validate = none ∧ demoRowGridH.validate = none) ∨
      ∃ h1 h2 b, demoRowGrid.validate = some (h1, b) ∧
        demoRowGridH.validate = some (h2, b) ∧ Grid.SimX h1 h2) ∧
    ((demoRowGrid.solve_next = none ∧ demoRowGridH.solve_next = none) ∨
      ∃ h1 h2 k, demoRowGrid.solve_next = some (h1, k) ∧
        demoRowGridH.solve_next = some (h2, k) ∧ Grid.SimX h1 h2) :=
  C9_highlight_writeonly demoRowGrid demoRowGridH (by decide)
